import Mathlib

/-!
# A shallow embedding of the `dip` incremental-computation engine

This file embeds the Rust sources of the `dip` repository (`src/lib.rs`,
`src/event.rs`, `examples/walkthrough.rs`) as executable Lean definitions and
proves properties of them.

Modeling conventions:

* Rust's `&mut self` methods become state-passing functions
  `Database → ... → Database × RunRes α`.  A Rust `panic!`/`assert!`/`expect`
  is `RunRes.panic` (the returned database is the state at the panic point,
  matching what a caller observes after unwinding).  `RunRes.timeout` is a
  fuel-exhaustion artifact of the embedding and corresponds to no source
  behavior; every engine function takes a fuel parameter because query
  functions re-enter the engine and the Rust code has no termination guarantee
  on cyclic query graphs.
* `HashMap` becomes an association list with replace-on-insert,
  `HashSet` an insertion-ordered duplicate-free list.  The iteration order of
  `memo.dependencies` in `Database::read` is implementation-defined in the
  source (`HashSet::iter`); it is modeled by an explicit reorder parameter
  `ρ : List Slot → List Slot` applied to the stored dependency list before the
  walk.  `ρ = id` gives insertion order.
* Query functions have Rust type `fn(&mut Database, Key) -> Value`; they are
  required to be pure and to interact with the database only through `get`.
  They are embedded as `Key → QueryComp`, where `QueryComp` is the free monad
  over a single `ask` (= `Database::get`) operation; `QueryComp.abort` models a
  panic inside a query function (e.g. the `Key` conversion mismatch panics in
  `impl From<Key> for i32`).
* `Value = i32` is modeled as `Int`; the engine itself only ever compares
  values for equality, and in the concrete walkthrough scenarios proved below
  all arithmetic stays far within the `i32` range, so no wrapping occurs in
  the source either.
* The event log (`src/event.rs`) is embedded as a list of events carried in
  the database; events are appended in emission order.
-/

namespace Dip

/-- `pub type Value = i32;` (lib.rs line 16). -/
abbrev Value := Int

/-- `pub enum Key { Void, Int(i32) }` (lib.rs lines 19-22). -/
inductive Key where
  | void : Key
  | int (x : Int) : Key
deriving DecidableEq, Repr

/-- `pub type QueryId = &'static str;` (lib.rs line 59). -/
abbrev QueryId := String

/-- `struct Slot { id: QueryId, key: Key }` (lib.rs lines 65-68). -/
structure Slot where
  id : QueryId
  key : Key
deriving DecidableEq, Repr

/-- `struct Memo` (lib.rs lines 78-97).  `dependencies: HashSet<Slot>` is
modeled as an insertion-ordered duplicate-free list. -/
structure Memo where
  value : Value
  verified_at : Nat
  changed_at : Nat
  dependencies : List Slot
deriving DecidableEq, Repr

/-- `struct StampedValue { value: Value, changed_at: usize }` (lib.rs
lines 100-103). -/
structure StampedValue where
  value : Value
  changed_at : Nat
deriving DecidableEq, Repr

/-- `enum Event` (event.rs lines 9-24), with the same payloads. -/
inductive Event where
  | set (s : Slot) (v : Value) (revision : Nat)
  | get (s : Slot)
  | startedQueryEvaluation
  | completedQueryEvaluation
  | storeMemo (old : Option Memo) (new : Memo)
  | readMemo (m : Option Memo)
  | memoForInputQuery
  | memoVerifiedAtCurrentRevision
  | valueComparison (oldValue newValue : Value) (currentRevision : Nat)
  | startedInputChecks (verifiedAt : Nat)
  | completedInputChecks (anyChanged : Bool)
  | changedAt (s : Slot) (c : Nat)
  | pushActiveQuery
  | popActiveQuery
deriving DecidableEq, Repr

/-- The free monad over the single effect available to a query function,
namely calling `Database::get`.  A Rust query function
`fn(&mut Database, Key) -> Value` is embedded as `Key → QueryComp`:
`ask s k` performs `db.get(s.id, s.key)` and continues with the returned
value; `abort` models a panic inside the query function. -/
inductive QueryComp where
  | done (v : Value) : QueryComp
  | ask (s : Slot) (k : Value → QueryComp) : QueryComp
  | abort : QueryComp

/-- Outcome of running an engine operation: normal return, Rust panic
(`assert!` / `expect` / `unwrap`), or fuel exhaustion (an artifact of the
embedding only — the source has no such case). -/
inductive RunRes (α : Type) where
  | ok (a : α) : RunRes α
  | panic : RunRes α
  | timeout : RunRes α
deriving DecidableEq, Repr

/-- Map over the success value of a `RunRes`. -/
def RunRes.map {α β : Type} (f : α → β) : RunRes α → RunRes β
  | .ok a => .ok (f a)
  | .panic => .panic
  | .timeout => .timeout

/-- `pub struct Database` (lib.rs lines 115-135).  The `logger: EventLogger`
field (which only prints) is replaced by the list of events it was asked to
log, in emission order.  The stack `active_queries` keeps its top element at
the head of the list. -/
structure Database where
  input_ids : List QueryId
  query_functions : List (QueryId × (Key → QueryComp))
  storage : List (Slot × Memo)
  revision : Nat
  active_queries : List (List Slot)
  events : List Event

/-- Association-list lookup (models `HashMap::get`). -/
def assocFind {β : Type} : List (QueryId × β) → QueryId → Option β
  | [], _ => none
  | (a, b) :: rest, x => if a = x then some b else assocFind rest x

/-- `HashMap::get` on the memo store. -/
def lookupMemo : List (Slot × Memo) → Slot → Option Memo
  | [], _ => none
  | (s', m) :: rest, s => if s' = s then some m else lookupMemo rest s

/-- `HashMap::insert` on the memo store: replace in place, or append. -/
def insertMemo : List (Slot × Memo) → Slot → Memo → List (Slot × Memo)
  | [], s, m => [(s, m)]
  | (s', m') :: rest, s, m =>
      if s' = s then (s, m) :: rest else (s', m') :: insertMemo rest s m

/-- `HashSet::insert` on a dependency accumulator (insertion order kept). -/
def insertDep (deps : List Slot) (s : Slot) : List Slot :=
  if s ∈ deps then deps else deps ++ [s]

/-- `self.logger.log_event(&event)`: the embedding records the event. -/
def logEvent (db : Database) (e : Event) : Database :=
  { db with events := db.events ++ [e] }

/-- `Database::new` (lib.rs lines 152-164).  Note: the source performs no
disjointness check between `input_ids` and the keys of `query_functions`. -/
def Database.new (input_ids : List QueryId)
    (query_functions : List (QueryId × (Key → QueryComp))) : Database :=
  { input_ids := input_ids
    query_functions := query_functions
    storage := []
    revision := 0
    active_queries := []
    events := [] }

/-- `Database::is_input_query` (lib.rs lines 419-421). -/
def Database.is_input_query (db : Database) (id : QueryId) : Bool :=
  decide (id ∈ db.input_ids)

/-- `Database::read_memo` (lib.rs lines 413-417): look up the memo and emit a
`ReadMemo` event. -/
def Database.read_memo (db : Database) (slot : Slot) : Database × Option Memo :=
  let value := lookupMemo db.storage slot
  (logEvent db (.readMemo value), value)

/-- `Database::store_memo` (lib.rs lines 406-411): emit a `StoreMemo` event
(carrying the old memo) and insert. -/
def Database.store_memo (db : Database) (slot : Slot) (memo : Memo) : Database :=
  let old_memo := lookupMemo db.storage slot
  let db := logEvent db (.storeMemo old_memo memo)
  { db with storage := insertMemo db.storage slot memo }

/-- `Database::push_active_query` (lib.rs lines 396-399). -/
def Database.push_active_query (db : Database) : Database :=
  let db := logEvent db .pushActiveQuery
  { db with active_queries := [] :: db.active_queries }

/-- `Database::pop_active_query` (lib.rs lines 401-404). -/
def Database.pop_active_query (db : Database) : Database × Option (List Slot) :=
  let db := logEvent db .popActiveQuery
  match db.active_queries with
  | [] => (db, none)
  | top :: rest => ({ db with active_queries := rest }, some top)

/-- The dependency-recording step at the start of `get_with_timestamp`
(lib.rs lines 224-226): insert the slot into the top accumulator, if any. -/
def recordDependency (db : Database) (slot : Slot) : Database :=
  match db.active_queries with
  | [] => db
  | top :: rest => { db with active_queries := insertDep top slot :: rest }

/-- `Database::set` (lib.rs lines 170-207).  The initial
`assert!(self.input_ids.contains(&id), ...)` fires before any mutation, so a
failed `set` returns the database unchanged. -/
def Database.set (db : Database) (id : QueryId) (key : Key) (value : Value) :
    Database × RunRes Unit :=
  if id ∈ db.input_ids then
    let slot : Slot := ⟨id, key⟩
    let db := { db with revision := db.revision + 1 }
    let db := logEvent db (.set slot value db.revision)
    let (db, memo0) := db.read_memo slot
    let changed_at :=
      match memo0 with
      | some m => if m.value = value then m.changed_at else db.revision
      | none => db.revision
    let memo : Memo :=
      { value := value
        verified_at := db.revision
        changed_at := changed_at
        dependencies := [] }
    (db.store_memo slot memo, .ok ())
  else
    (db, .panic)

/-! ### The evaluation engine

The engine's methods are mutually recursive through the user query functions,
with no termination guarantee in the source (cycles are undefined behavior),
so the embedding threads fuel.  `get_with_timestamp` is the one fuel-indexed
function, defined by structural recursion on the fuel; every other method of
the mutual-recursion knot (`read`, `has_changed_since`,
`run_query_function`, ...) is a plain function taking the recursive reference
`g` (the `get_with_timestamp` available one fuel level down) as its first
argument.  This matches the source's call structure:
`get_with_timestamp → read → {has_changed_since, run_query_function} →
get_with_timestamp`. -/

/-- The type of the recursive `get_with_timestamp` reference threaded through
the engine. -/
abbrev GetFn := Database → Slot → Database × RunRes StampedValue

/-- Interpreter for an embedded query-function body: each `ask` is a
`Database::get` call (lib.rs lines 210-211, dropping the timestamp) performed
through the recursive reference `g`. -/
def runQueryComp (g : GetFn) (db : Database) : QueryComp → Database × RunRes Value
  | .done v => (db, .ok v)
  | .abort => (db, .panic)
  | .ask s k =>
    match g db s with
    | (db, .ok sv) => runQueryComp g db (k sv.value)
    | (db, .panic) => (db, .panic)
    | (db, .timeout) => (db, .timeout)

/-- `Database::run_query_function` (lib.rs lines 384-394).  The `expect` on a
missing query function is a panic; a panic inside the query function unwinds
before the `CompletedQueryEvaluation` event is emitted. -/
def run_query_function (g : GetFn) (db : Database) (slot : Slot) :
    Database × RunRes Value :=
  let db := logEvent db .startedQueryEvaluation
  match assocFind db.query_functions slot.id with
  | none => (db, .panic)
  | some qf =>
    match runQueryComp g db (qf slot.key) with
    | (db, .ok v) => (logEvent db .completedQueryEvaluation, .ok v)
    | (db, .panic) => (db, .panic)
    | (db, .timeout) => (db, .timeout)

/-- `Database::has_changed_since` (lib.rs lines 362-379).  The `expect` on a
missing memo is a panic. -/
def has_changed_since (g : GetFn) (db : Database) (slot : Slot) (revision : Nat) :
    Database × RunRes Bool :=
  match lookupMemo db.storage slot with
  | none => (db, .panic)
  | some memo =>
    if memo.verified_at = db.revision then
      let c := memo.changed_at
      let db := logEvent db (.changedAt slot c)
      (db, .ok (decide (revision < c)))
    else
      match g db slot with
      | (db, .ok sv) =>
        let db := logEvent db (.changedAt slot sv.changed_at)
        (db, .ok (decide (revision < sv.changed_at)))
      | (db, .panic) => (db, .panic)
      | (db, .timeout) => (db, .timeout)

/-- The short-circuiting `memo.dependencies.iter().any(|&input|
self.has_changed_since(input, memo.verified_at))` (lib.rs lines 299-302),
walking the (re-ordered) dependency list. -/
def anyDepChangedSince (g : GetFn) (db : Database) :
    List Slot → Nat → Database × RunRes Bool
  | [], _ => (db, .ok false)
  | d :: rest, revision =>
    match has_changed_since g db d revision with
    | (db, .ok true) => (db, .ok true)
    | (db, .ok false) => anyDepChangedSince g db rest revision
    | (db, .panic) => (db, .panic)
    | (db, .timeout) => (db, .timeout)

/-- The recomputation tail of `Database::read` (lib.rs lines 321-346): run the
query function, compute `changed_at` with the output-level early cutoff, and
store a memo whose dependencies are the top accumulator.  The source's
`self.active_queries.last().unwrap()` panics on an empty stack. -/
def read_recompute (g : GetFn) (db : Database) (slot : Slot) (memo : Option Memo) :
    Database × RunRes StampedValue :=
  match run_query_function g db slot with
  | (db, .ok new_value) =>
    let db :=
      match memo with
      | some m => logEvent db (.valueComparison m.value new_value db.revision)
      | none => db
    let changed_at :=
      match memo with
      | some m => if m.value = new_value then m.changed_at else db.revision
      | none => db.revision
    match db.active_queries with
    | [] => (db, .panic)
    | top :: _ =>
      let new_memo : Memo :=
        { value := new_value
          verified_at := db.revision
          changed_at := changed_at
          dependencies := top }
      (db.store_memo slot new_memo, .ok ⟨new_value, changed_at⟩)
  | (db, .panic) => (db, .panic)
  | (db, .timeout) => (db, .timeout)

/-- `Database::read` (lib.rs lines 243-347) up to the point where the source
falls through to recomputation; the shared recomputation tail (lines 321-346)
is `read_recompute` above.  `ρ` is the implementation-defined iteration order
of the stored dependency set. -/
def read (ρ : List Slot → List Slot) (g : GetFn) (db : Database) (slot : Slot) :
    Database × RunRes StampedValue :=
  let (db, memo) := db.read_memo slot
  if db.is_input_query slot.id then
    match memo with
    | none => (db, .panic)
    | some memo =>
      let db := logEvent db .memoForInputQuery
      let db :=
        if memo.verified_at ≠ db.revision then
          db.store_memo slot { memo with verified_at := db.revision }
        else db
      (db, .ok ⟨memo.value, memo.changed_at⟩)
  else
    match memo with
    | some memo =>
      if memo.verified_at = db.revision then
        (logEvent db .memoVerifiedAtCurrentRevision,
         .ok ⟨memo.value, memo.changed_at⟩)
      else
        let db := logEvent db (.startedInputChecks memo.verified_at)
        match anyDepChangedSince g db (ρ memo.dependencies) memo.verified_at with
        | (db, .ok any_changed) =>
          let db := logEvent db (.completedInputChecks any_changed)
          if any_changed then
            read_recompute g db slot (some memo)
          else
            let db := db.store_memo slot { memo with verified_at := db.revision }
            (db, .ok ⟨memo.value, memo.changed_at⟩)
        | (db, .panic) => (db, .panic)
        | (db, .timeout) => (db, .timeout)
    | none => read_recompute g db slot none

/-- The body of `Database::get_with_timestamp` (lib.rs lines 216-239),
abstracted over the recursive `read` reference.  On a panic inside `read` the
unwinding skips `pop_active_query`, so the pushed accumulator is left on the
stack. -/
def get_with_timestamp_body (rd : Database → Slot → Database × RunRes StampedValue)
    (db : Database) (slot : Slot) : Database × RunRes StampedValue :=
  let db := logEvent db (.get slot)
  let db := recordDependency db slot
  let db := db.push_active_query
  match rd db slot with
  | (db, .ok result) => ((db.pop_active_query).1, .ok result)
  | (db, .panic) => (db, .panic)
  | (db, .timeout) => (db, .timeout)

/-- `Database::get_with_timestamp` (lib.rs lines 216-239), fuel-indexed:
`fuel` bounds the depth of nested engine re-entries. -/
def get_with_timestamp (ρ : List Slot → List Slot) : Nat → GetFn
  | 0 => fun db _ => (db, .timeout)
  | fuel + 1 => fun db slot =>
    get_with_timestamp_body (read ρ (get_with_timestamp ρ fuel)) db slot

/-- `Database::get` (lib.rs lines 210-212): drop the timestamp. -/
def Database.get (ρ : List Slot → List Slot) (fuel : Nat) (db : Database)
    (id : QueryId) (key : Key) : Database × RunRes Value :=
  match get_with_timestamp ρ fuel db ⟨id, key⟩ with
  | (db, .ok sv) => (db, .ok sv.value)
  | (db, .panic) => (db, .panic)
  | (db, .timeout) => (db, .timeout)

/-! ## The walkthrough database (examples/walkthrough.rs)

Query ids from walkthrough.rs lines 24-28.  The spec's end-to-end scenarios
(§8) and the claims refer to these as `base` (= `base_fee`), `discount`
(= `discount_amount`), `limit` (= `discount_age_limit`), `one`
(= `one_year_fee`) and `two` (= `two_year_fee`). -/

def BASE_FEE : QueryId := "base_fee"

def DISCOUNT_AGE_LIMIT : QueryId := "discount_age_limit"

def DISCOUNT_AMOUNT : QueryId := "discount_amount"

def ONE_YEAR_FEE : QueryId := "one_year_fee"

def TWO_YEAR_FEE : QueryId := "two_year_fee"

/-- The `i32` read out of a key, as in `impl From<Key> for i32` (lib.rs
lines 43-50): panics (`QueryComp.abort`) on a `Void` key. -/
def keyAsInt (k : Key) (body : Int → QueryComp) : QueryComp :=
  match k with
  | .void => .abort
  | .int x => body x

/-- `one_year_fee_query` (walkthrough.rs lines 90-99): reads
`discount_age_limit`, then either `base_fee - discount_amount` (reading both,
left to right) or just `base_fee`. -/
def one_year_fee_query (key : Key) : QueryComp :=
  keyAsInt key fun current_age =>
    .ask ⟨DISCOUNT_AGE_LIMIT, .void⟩ fun limit =>
      if current_age ≤ limit then
        .ask ⟨BASE_FEE, .void⟩ fun base =>
          .ask ⟨DISCOUNT_AMOUNT, .void⟩ fun discount =>
            .done (base - discount)
      else
        .ask ⟨BASE_FEE, .void⟩ fun base => .done base

/-- `two_year_fee_query` (walkthrough.rs lines 102-112):
`one_year_fee(age) + one_year_fee(age + 1)`. -/
def two_year_fee_query (key : Key) : QueryComp :=
  keyAsInt key fun current_age =>
    .ask ⟨ONE_YEAR_FEE, .int current_age⟩ fun fee_this_year =>
      .ask ⟨ONE_YEAR_FEE, .int (current_age + 1)⟩ fun fee_next_year =>
        .done (fee_this_year + fee_next_year)

/-- `create_database` (walkthrough.rs lines 114-134). -/
def walkthroughDB : Database :=
  Database.new [BASE_FEE, DISCOUNT_AGE_LIMIT, DISCOUNT_AMOUNT]
    [(ONE_YEAR_FEE, one_year_fee_query), (TWO_YEAR_FEE, two_year_fee_query)]

/-! ## Concrete scenario states

The states of the spec's end-to-end scenarios are built operation by
operation.  The `events` field is this embedding's recording of what the
source's write-only console logger was asked to print; the engine itself
never reads it (`logEvent` only appends), so the recording is restarted
(`clearEvents`) before each operation of interest — each state below then
carries exactly the events of the operation that produced it.  To keep
elaboration cheap, each intermediate state is also given as a literal
snapshot (`..._L...`), proved equal to the computed state by a `..._eq`
theorem; the next operation then runs from the snapshot. -/

/-- Restart the event recording (the engine never reads `events`). -/
def clearEvents (db : Database) : Database := { db with events := [] }

/-- The `input_ids` of the walkthrough database. -/
def wtIds : List QueryId := [BASE_FEE, DISCOUNT_AGE_LIMIT, DISCOUNT_AMOUNT]

/-- The query-function registry of the walkthrough database. -/
def wtQFs : List (QueryId × (Key → QueryComp)) :=
  [(ONE_YEAR_FEE, one_year_fee_query), (TWO_YEAR_FEE, two_year_fee_query)]

/-- A walkthrough-database state with the given storage and revision, no
active queries and a fresh event recording. -/
def wtState (storage : List (Slot × Memo)) (revision : Nat) : Database :=
  { input_ids := wtIds
    query_functions := wtQFs
    storage := storage
    revision := revision
    active_queries := []
    events := [] }

/-- Scenario 1: the three initial `set` calls. -/
def scn1_sets : Database :=
  (((walkthroughDB.set BASE_FEE .void 100).1.set DISCOUNT_AMOUNT .void
      30).1.set DISCOUNT_AGE_LIMIT .void 16).1

/-- Snapshot after `set(base,_,100); set(discount,_,30); set(limit,_,16)`. -/
def scn1_L0 : Database :=
  wtState
    [(⟨BASE_FEE, .void⟩, ⟨100, 1, 1, []⟩),
     (⟨DISCOUNT_AMOUNT, .void⟩, ⟨30, 2, 2, []⟩),
     (⟨DISCOUNT_AGE_LIMIT, .void⟩, ⟨16, 3, 3, []⟩)] 3

/-- Scenario 1, `get(one_year_fee, 16)` (insertion-order dependency walk). -/
def scn1_one16 : Database × RunRes StampedValue :=
  get_with_timestamp id 9 scn1_L0 ⟨ONE_YEAR_FEE, .int 16⟩

/-- Snapshot after `get(one(16))`: the three inputs re-verified at revision 3
and a memo for `one(16)`. -/
def scn1_L1 : Database :=
  wtState
    [(⟨BASE_FEE, .void⟩, ⟨100, 3, 1, []⟩),
     (⟨DISCOUNT_AMOUNT, .void⟩, ⟨30, 3, 2, []⟩),
     (⟨DISCOUNT_AGE_LIMIT, .void⟩, ⟨16, 3, 3, []⟩),
     (⟨ONE_YEAR_FEE, .int 16⟩, ⟨70, 3, 3,
        [⟨DISCOUNT_AGE_LIMIT, .void⟩, ⟨BASE_FEE, .void⟩,
         ⟨DISCOUNT_AMOUNT, .void⟩]⟩)] 3

/-- Scenario 1, then `get(one_year_fee, 17)`. -/
def scn1_one17 : Database × RunRes StampedValue :=
  get_with_timestamp id 9 scn1_L1 ⟨ONE_YEAR_FEE, .int 17⟩

/-- Snapshot after `get(one(17))`. -/
def scn1_L2 : Database :=
  wtState
    [(⟨BASE_FEE, .void⟩, ⟨100, 3, 1, []⟩),
     (⟨DISCOUNT_AMOUNT, .void⟩, ⟨30, 3, 2, []⟩),
     (⟨DISCOUNT_AGE_LIMIT, .void⟩, ⟨16, 3, 3, []⟩),
     (⟨ONE_YEAR_FEE, .int 16⟩, ⟨70, 3, 3,
        [⟨DISCOUNT_AGE_LIMIT, .void⟩, ⟨BASE_FEE, .void⟩,
         ⟨DISCOUNT_AMOUNT, .void⟩]⟩),
     (⟨ONE_YEAR_FEE, .int 17⟩, ⟨100, 3, 3,
        [⟨DISCOUNT_AGE_LIMIT, .void⟩, ⟨BASE_FEE, .void⟩]⟩)] 3

/-- Scenario 1, then `get(two_year_fee, 17)`. -/
def scn1_two17 : Database × RunRes StampedValue :=
  get_with_timestamp id 9 scn1_L2 ⟨TWO_YEAR_FEE, .int 17⟩

/-- The seven slots the spec says are memoized at the end of scenario 1. -/
def scenario1Slots : List Slot :=
  [⟨BASE_FEE, .void⟩, ⟨DISCOUNT_AMOUNT, .void⟩, ⟨DISCOUNT_AGE_LIMIT, .void⟩,
   ⟨ONE_YEAR_FEE, .int 16⟩, ⟨ONE_YEAR_FEE, .int 17⟩,
   ⟨ONE_YEAR_FEE, .int 18⟩, ⟨TWO_YEAR_FEE, .int 17⟩]

/-! ### Scenario 6 states (claim C2), under both dependency-walk orders -/

/-- The slot of the derived query evaluation `one(5)` used in scenario 6. -/
def one5 : Slot := ⟨ONE_YEAR_FEE, .int 5⟩

/-- Scenario 6: `set(base,_,100); set(discount,_,30); set(limit,_,10)`. -/
def scn6_sets : Database :=
  (((walkthroughDB.set BASE_FEE .void 100).1.set DISCOUNT_AMOUNT .void
      30).1.set DISCOUNT_AGE_LIMIT .void 10).1

/-- Snapshot after the three scenario-6 `set` calls. -/
def scn6_L0 : Database :=
  wtState
    [(⟨BASE_FEE, .void⟩, ⟨100, 1, 1, []⟩),
     (⟨DISCOUNT_AMOUNT, .void⟩, ⟨30, 2, 2, []⟩),
     (⟨DISCOUNT_AGE_LIMIT, .void⟩, ⟨10, 3, 3, []⟩)] 3

/-- Scenario 6, first `get(one(5))` under walk order `ρ` (a first evaluation
recomputes, so the walk order is not consulted). -/
def scn6_get1 (ρ : List Slot → List Slot) : Database × RunRes StampedValue :=
  get_with_timestamp ρ 9 scn6_L0 one5

/-- Snapshot after the first `get(one(5))`: dependency set
`{limit, base, discount}` (in read order). -/
def scn6_L1 : Database :=
  wtState
    [(⟨BASE_FEE, .void⟩, ⟨100, 3, 1, []⟩),
     (⟨DISCOUNT_AMOUNT, .void⟩, ⟨30, 3, 2, []⟩),
     (⟨DISCOUNT_AGE_LIMIT, .void⟩, ⟨10, 3, 3, []⟩),
     (⟨ONE_YEAR_FEE, .int 5⟩, ⟨70, 3, 3,
        [⟨DISCOUNT_AGE_LIMIT, .void⟩, ⟨BASE_FEE, .void⟩,
         ⟨DISCOUNT_AMOUNT, .void⟩]⟩)] 3

/-- Scenario 6, then `set(limit,_,3)`. -/
def scn6_set2 : Database := (scn6_L1.set DISCOUNT_AGE_LIMIT .void 3).1

/-- Snapshot after `set(limit,_,3)`: revision 4. -/
def scn6_L2 : Database :=
  wtState
    [(⟨BASE_FEE, .void⟩, ⟨100, 3, 1, []⟩),
     (⟨DISCOUNT_AMOUNT, .void⟩, ⟨30, 3, 2, []⟩),
     (⟨DISCOUNT_AGE_LIMIT, .void⟩, ⟨3, 4, 4, []⟩),
     (⟨ONE_YEAR_FEE, .int 5⟩, ⟨70, 3, 3,
        [⟨DISCOUNT_AGE_LIMIT, .void⟩, ⟨BASE_FEE, .void⟩,
         ⟨DISCOUNT_AMOUNT, .void⟩]⟩)] 4

/-- Scenario 6, second `get(one(5))` under walk order `ρ`. -/
def scn6_get2 (ρ : List Slot → List Slot) : Database × RunRes StampedValue :=
  get_with_timestamp ρ 9 scn6_L2 one5

/-- Snapshot after the second `get(one(5))` with the *insertion-order* walk:
the changed `limit` is checked first, the walk stops immediately, and the
recomputation records exactly `{limit, base}`. -/
def scn6_L3_id : Database :=
  wtState
    [(⟨BASE_FEE, .void⟩, ⟨100, 4, 1, []⟩),
     (⟨DISCOUNT_AMOUNT, .void⟩, ⟨30, 3, 2, []⟩),
     (⟨DISCOUNT_AGE_LIMIT, .void⟩, ⟨3, 4, 4, []⟩),
     (⟨ONE_YEAR_FEE, .int 5⟩, ⟨100, 4, 4,
        [⟨DISCOUNT_AGE_LIMIT, .void⟩, ⟨BASE_FEE, .void⟩]⟩)] 4

/-- Snapshot after the second `get(one(5))` with the *reversed* walk: the
stale `discount` and `base` are re-verified (recording them in the active
accumulator) before the changed `limit` is reached, so the recomputed memo's
dependency set is `{discount, base, limit}`. -/
def scn6_L3_rev : Database :=
  wtState
    [(⟨BASE_FEE, .void⟩, ⟨100, 4, 1, []⟩),
     (⟨DISCOUNT_AMOUNT, .void⟩, ⟨30, 4, 2, []⟩),
     (⟨DISCOUNT_AGE_LIMIT, .void⟩, ⟨3, 4, 4, []⟩),
     (⟨ONE_YEAR_FEE, .int 5⟩, ⟨100, 4, 4,
        [⟨DISCOUNT_AMOUNT, .void⟩, ⟨BASE_FEE, .void⟩,
         ⟨DISCOUNT_AGE_LIMIT, .void⟩]⟩)] 4

/-- Scenario 6 (insertion-order branch), then `set(discount,_,31)`. -/
def scn6_L4_id : Database :=
  wtState
    [(⟨BASE_FEE, .void⟩, ⟨100, 4, 1, []⟩),
     (⟨DISCOUNT_AMOUNT, .void⟩, ⟨31, 5, 5, []⟩),
     (⟨DISCOUNT_AGE_LIMIT, .void⟩, ⟨3, 4, 4, []⟩),
     (⟨ONE_YEAR_FEE, .int 5⟩, ⟨100, 4, 4,
        [⟨DISCOUNT_AGE_LIMIT, .void⟩, ⟨BASE_FEE, .void⟩]⟩)] 5

/-- Scenario 6 (reversed branch), then `set(discount,_,31)`. -/
def scn6_L4_rev : Database :=
  wtState
    [(⟨BASE_FEE, .void⟩, ⟨100, 4, 1, []⟩),
     (⟨DISCOUNT_AMOUNT, .void⟩, ⟨31, 5, 5, []⟩),
     (⟨DISCOUNT_AGE_LIMIT, .void⟩, ⟨3, 4, 4, []⟩),
     (⟨ONE_YEAR_FEE, .int 5⟩, ⟨100, 4, 4,
        [⟨DISCOUNT_AMOUNT, .void⟩, ⟨BASE_FEE, .void⟩,
         ⟨DISCOUNT_AGE_LIMIT, .void⟩]⟩)] 5

/-- Scenario 6, third `get(one(5))` after the discount-only `set`, insertion
order. -/
def scn6_get3_id : Database × RunRes StampedValue :=
  get_with_timestamp id 9 scn6_L4_id one5

/-- Scenario 6, third `get(one(5))` after the discount-only `set`, reversed
order. -/
def scn6_get3_rev : Database × RunRes StampedValue :=
  get_with_timestamp List.reverse 9 scn6_L4_rev one5

/-- The dependency list stored for `one(5)` in a state (empty if no memo). -/
def one5Deps (db : Database) : List Slot :=
  match lookupMemo db.storage one5 with
  | some m => m.dependencies
  | none => []

/-- The events emitted after state `db₀` reached state `db₁` (states are
related by engine operations, which only append to the log). -/
def newEvents (db₀ db₁ : Database) : List Event :=
  db₁.events.drop db₀.events.length

/-- The memo a successful `set(id, key, value)` stores (lib.rs lines 189-203):
`verified_at` is the bumped revision; `changed_at` is retained from an
existing memo holding the same value, and is the bumped revision otherwise. -/
def setMemo (db : Database) (id : QueryId) (k : Key) (v : Value) : Memo :=
  { value := v
    verified_at := db.revision + 1
    changed_at :=
      match lookupMemo db.storage ⟨id, k⟩ with
      | some m => if m.value = v then m.changed_at else db.revision + 1
      | none => db.revision + 1
    dependencies := [] }

/-- A database whose one identifier is registered both as an input id and as a
derived query function (`Database::new` performs no disjointness check). -/
def overlapDB : Database :=
  Database.new ["dup"] [("dup", fun _ => .done 99)]

/-- The property claim C3 asserts of `set`: a successful `set` returns `ok`,
bumps the revision by exactly one, stores `setMemo` (input-level early
cutoff on `changed_at`), and a second identical `set` bumps the revision
again without touching `changed_at`. -/
def SetSpec (db : Database) (id : QueryId) (k : Key) (v : Value) : Prop :=
  (db.set id k v).2 = .ok () ∧
  (db.set id k v).1.revision = db.revision + 1 ∧
  lookupMemo (db.set id k v).1.storage ⟨id, k⟩ = some (setMemo db id k v) ∧
  ((db.set id k v).1.set id k v).1.revision = db.revision + 2 ∧
  (lookupMemo ((db.set id k v).1.set id k v).1.storage ⟨id, k⟩).map
      Memo.changed_at =
    (lookupMemo (db.set id k v).1.storage ⟨id, k⟩).map Memo.changed_at

/-- The property claim C10 asserts of an identifier registered as an input
(even if it also has a registered query function): `set` succeeds, the next
`get` of the slot returns the value just set, and no query function runs
during that `get`. -/
def InputGetSpec (ρ : List Slot → List Slot) (fuel : Nat) (db : Database)
    (id : QueryId) (k : Key) (v : Value) : Prop :=
  (db.set id k v).2 = .ok () ∧
  ∃ c, (get_with_timestamp ρ (fuel + 1) (db.set id k v).1 ⟨id, k⟩).2 =
      .ok ⟨v, c⟩ ∧
    Event.startedQueryEvaluation ∉
      newEvents (db.set id k v).1
        (get_with_timestamp ρ (fuel + 1) (db.set id k v).1 ⟨id, k⟩).1

/-- Events that witness real validation or recomputation work: a query
function starting (`StartedQueryEvaluation`), a dependency walk starting
(`StartedInputChecks`), or a `has_changed_since` readout (`ChangedAt`). -/
def Event.isWorkEvent : Event → Bool
  | .startedQueryEvaluation => true
  | .startedInputChecks _ => true
  | .changedAt _ _ => true
  | _ => false

/-- The timestamp invariant (spec §3 invariant 1, §8 P1): every stored memo
satisfies `changed_at ≤ verified_at ≤ current revision`. -/
def Inv (db : Database) : Prop :=
  ∀ s m, lookupMemo db.storage s = some m →
    m.changed_at ≤ m.verified_at ∧ m.verified_at ≤ db.revision

/-- How an engine operation may change the active-query stack on a successful
return: the part below the top is untouched; the top accumulator only gains
slots; an empty stack stays empty. -/
def topGrows (db db' : Database) : Prop :=
  (db.active_queries = [] → db'.active_queries = []) ∧
  (∀ t r, db.active_queries = t :: r →
    ∃ t', db'.active_queries = t' :: r ∧ t ⊆ t')

/-- The facts, proved for every fuel level of `get_with_timestamp` by
induction, on which the engine-level theorems rest: the revision counter and
the two registries are never written; the timestamp invariant is preserved
(also across panics); a successful call leaves the active-query stack exactly
as found except for recording the requested slot in the parent accumulator;
and a successful call leaves the requested slot with a memo verified at the
current revision holding the returned value and timestamp. -/
structure GoodGet (g : GetFn) : Prop where
  core : ∀ db s, (g db s).1.revision = db.revision ∧
    (g db s).1.input_ids = db.input_ids ∧
    (g db s).1.query_functions = db.query_functions
  inv : ∀ db s, Inv db → Inv (g db s).1
  stack : ∀ db s db' r, g db s = (db', .ok r) →
    db'.active_queries = (recordDependency db s).active_queries
  fresh : ∀ db s db' r, g db s = (db', .ok r) →
    ∃ m, lookupMemo db'.storage s = some m ∧ m.verified_at = db.revision ∧
      m.value = r.value ∧ m.changed_at = r.changed_at

/-- Database states reachable by construction followed by any sequence of
successful `set` and `get` operations. -/
inductive Reachable : Database → Prop where
  | new : ∀ (input_ids : List QueryId)
      (query_functions : List (QueryId × (Key → QueryComp))),
      Reachable (Database.new input_ids query_functions)
  | set : ∀ (db : Database) (id : QueryId) (k : Key) (v : Value)
      (db' : Database), Reachable db → db.set id k v = (db', .ok ()) →
      Reachable db'
  | get : ∀ (ρ : List Slot → List Slot) (fuel : Nat) (db : Database)
      (slot : Slot) (db' : Database) (r : StampedValue), Reachable db →
      get_with_timestamp ρ fuel db slot = (db', .ok r) → Reachable db'

/-- A state shaped like the engine's own intermediate states during an outer
query evaluation: one (empty) accumulator has been pushed onto the
active-query stack.  Used to exhibit that a nested `get` records its slot in
the parent accumulator. -/
def midEvalDB : Database :=
  { (overlapDB.set "dup" .void 7).1 with active_queries := [[]] }

/-- A query function that reads input `"a"` and then input `"b"`
(`b` is never set, so the second read panics mid-evaluation). -/
def c7qf (_ : Key) : QueryComp :=
  .ask ⟨"a", .void⟩ fun _ => .ask ⟨"b", .void⟩ fun vb => .done vb

/-- Database for the failed-`get` scenario: inputs `a`, `b`, `c` and the
derived query `f` above. -/
def c7db : Database := Database.new ["a", "b", "c"] [("f", c7qf)]

/-- `set(a,_,1); set(c,_,5)` — afterwards `a`'s memo is stale
(`verified_at = 1 < revision = 2`), so a `get(f)` re-verifies `a` (storing an
updated memo) before panicking on the never-set input `b`. -/
def c7state : Database := ((c7db.set "a" .void 1).1.set "c" .void 5).1

/-! ## Snapshot-chain equalities

Each `..._eq` theorem certifies that the literal snapshot used to continue a
scenario chain is exactly the state computed by the preceding operation. -/

theorem scn1_L0_eq : clearEvents scn1_sets = scn1_L0 := rfl

set_option maxHeartbeats 800000 in
theorem scn1_L1_eq : clearEvents scn1_one16.1 = scn1_L1 := rfl

set_option maxHeartbeats 800000 in
theorem scn1_L2_eq : clearEvents scn1_one17.1 = scn1_L2 := rfl

theorem scn6_L0_eq : clearEvents scn6_sets = scn6_L0 := rfl

set_option maxHeartbeats 800000 in
theorem scn6_L1_eq_id : clearEvents (scn6_get1 id).1 = scn6_L1 := rfl

set_option maxHeartbeats 800000 in
theorem scn6_L1_eq_reverse : clearEvents (scn6_get1 List.reverse).1 = scn6_L1 := rfl

theorem scn6_L2_eq : clearEvents scn6_set2 = scn6_L2 := rfl

set_option maxHeartbeats 800000 in
theorem scn6_L3_id_eq : clearEvents (scn6_get2 id).1 = scn6_L3_id := rfl

set_option maxHeartbeats 800000 in
theorem scn6_L3_rev_eq : clearEvents (scn6_get2 List.reverse).1 = scn6_L3_rev := rfl

theorem scn6_L4_id_eq :
    clearEvents ((scn6_L3_id.set DISCOUNT_AMOUNT .void 31).1) = scn6_L4_id := rfl

theorem scn6_L4_rev_eq :
    clearEvents ((scn6_L3_rev.set DISCOUNT_AMOUNT .void 31).1) = scn6_L4_rev := rfl

/-! ## Basic lemmas about the state helpers -/

theorem lookupMemo_insertMemo_self (st : List (Slot × Memo)) (s : Slot)
    (m : Memo) : lookupMemo (insertMemo st s m) s = some m := by
  induction st with
  | nil => simp [insertMemo, lookupMemo]
  | cons p rest ih =>
    obtain ⟨s', m'⟩ := p
    by_cases h : s' = s
    · subst h; simp [insertMemo, lookupMemo]
    · simp [insertMemo, lookupMemo, h, ih]

theorem lookupMemo_insertMemo_ne (st : List (Slot × Memo)) (s s' : Slot)
    (m : Memo) (h : s ≠ s') :
    lookupMemo (insertMemo st s m) s' = lookupMemo st s' := by
  induction st with
  | nil => simp [insertMemo, lookupMemo, h]
  | cons p rest ih =>
    obtain ⟨s₀, m₀⟩ := p
    by_cases h0 : s₀ = s
    · subst h0; simp [insertMemo, lookupMemo, h]
    · simp only [insertMemo, if_neg h0, lookupMemo]
      by_cases h1 : s₀ = s'
      · simp [h1]
      · simp [h1, ih]

@[simp] theorem logEvent_storage (db : Database) (e : Event) :
    (logEvent db e).storage = db.storage := rfl

@[simp] theorem logEvent_revision (db : Database) (e : Event) :
    (logEvent db e).revision = db.revision := rfl

@[simp] theorem logEvent_input_ids (db : Database) (e : Event) :
    (logEvent db e).input_ids = db.input_ids := rfl

@[simp] theorem logEvent_query_functions (db : Database) (e : Event) :
    (logEvent db e).query_functions = db.query_functions := rfl

@[simp] theorem logEvent_active_queries (db : Database) (e : Event) :
    (logEvent db e).active_queries = db.active_queries := rfl

@[simp] theorem logEvent_events (db : Database) (e : Event) :
    (logEvent db e).events = db.events ++ [e] := rfl

@[simp] theorem recordDependency_storage (db : Database) (s : Slot) :
    (recordDependency db s).storage = db.storage := by
  unfold recordDependency; cases db.active_queries <;> rfl

@[simp] theorem recordDependency_revision (db : Database) (s : Slot) :
    (recordDependency db s).revision = db.revision := by
  unfold recordDependency; cases db.active_queries <;> rfl

@[simp] theorem recordDependency_input_ids (db : Database) (s : Slot) :
    (recordDependency db s).input_ids = db.input_ids := by
  unfold recordDependency; cases db.active_queries <;> rfl

@[simp] theorem recordDependency_query_functions (db : Database) (s : Slot) :
    (recordDependency db s).query_functions = db.query_functions := by
  unfold recordDependency; cases db.active_queries <;> rfl

@[simp] theorem recordDependency_events (db : Database) (s : Slot) :
    (recordDependency db s).events = db.events := by
  unfold recordDependency; cases db.active_queries <;> rfl

@[simp] theorem push_active_query_storage (db : Database) :
    db.push_active_query.storage = db.storage := rfl

@[simp] theorem push_active_query_revision (db : Database) :
    db.push_active_query.revision = db.revision := rfl

@[simp] theorem push_active_query_input_ids (db : Database) :
    db.push_active_query.input_ids = db.input_ids := rfl

@[simp] theorem push_active_query_query_functions (db : Database) :
    db.push_active_query.query_functions = db.query_functions := rfl

@[simp] theorem push_active_query_active_queries (db : Database) :
    db.push_active_query.active_queries = [] :: db.active_queries := rfl

@[simp] theorem push_active_query_events (db : Database) :
    db.push_active_query.events = db.events ++ [.pushActiveQuery] := rfl

@[simp] theorem pop_active_query_storage (db : Database) :
    (db.pop_active_query).1.storage = db.storage := by
  unfold Database.pop_active_query; cases h : db.active_queries <;> simp [h, logEvent]

@[simp] theorem pop_active_query_revision (db : Database) :
    (db.pop_active_query).1.revision = db.revision := by
  unfold Database.pop_active_query; cases h : db.active_queries <;> simp [h, logEvent]

@[simp] theorem pop_active_query_input_ids (db : Database) :
    (db.pop_active_query).1.input_ids = db.input_ids := by
  unfold Database.pop_active_query; cases h : db.active_queries <;> simp [h, logEvent]

@[simp] theorem pop_active_query_query_functions (db : Database) :
    (db.pop_active_query).1.query_functions = db.query_functions := by
  unfold Database.pop_active_query; cases h : db.active_queries <;> simp [h, logEvent]

@[simp] theorem pop_active_query_active_queries (db : Database) :
    (db.pop_active_query).1.active_queries = db.active_queries.tail := by
  unfold Database.pop_active_query; cases h : db.active_queries <;> simp [h, logEvent]

@[simp] theorem pop_active_query_events (db : Database) :
    (db.pop_active_query).1.events = db.events ++ [.popActiveQuery] := by
  unfold Database.pop_active_query; cases h : db.active_queries <;> simp [h, logEvent]

@[simp] theorem store_memo_storage (db : Database) (s : Slot) (m : Memo) :
    (db.store_memo s m).storage = insertMemo db.storage s m := rfl

@[simp] theorem store_memo_revision (db : Database) (s : Slot) (m : Memo) :
    (db.store_memo s m).revision = db.revision := rfl

@[simp] theorem store_memo_input_ids (db : Database) (s : Slot) (m : Memo) :
    (db.store_memo s m).input_ids = db.input_ids := rfl

@[simp] theorem store_memo_query_functions (db : Database) (s : Slot) (m : Memo) :
    (db.store_memo s m).query_functions = db.query_functions := rfl

@[simp] theorem store_memo_active_queries (db : Database) (s : Slot) (m : Memo) :
    (db.store_memo s m).active_queries = db.active_queries := rfl

@[simp] theorem store_memo_events (db : Database) (s : Slot) (m : Memo) :
    (db.store_memo s m).events =
      db.events ++ [.storeMemo (lookupMemo db.storage s) m] := rfl

@[simp] theorem read_memo_eq (db : Database) (s : Slot) :
    db.read_memo s =
      (logEvent db (.readMemo (lookupMemo db.storage s)),
       lookupMemo db.storage s) := rfl

theorem lookup_store_self (db : Database) (s : Slot) (m : Memo) :
    lookupMemo (db.store_memo s m).storage s = some m := by
  rw [store_memo_storage]
  exact lookupMemo_insertMemo_self _ _ _

/-- Full characterization of a successful `set`. -/
theorem set_eq (db : Database) (id : QueryId) (k : Key) (v : Value)
    (h : id ∈ db.input_ids) :
    db.set id k v =
      ({ db with
          revision := db.revision + 1
          storage := insertMemo db.storage ⟨id, k⟩ (setMemo db id k v)
          events := db.events ++
            [.set ⟨id, k⟩ v (db.revision + 1),
             .readMemo (lookupMemo db.storage ⟨id, k⟩),
             .storeMemo (lookupMemo db.storage ⟨id, k⟩) (setMemo db id k v)] },
       .ok ()) := by
  simp only [Database.set, if_pos h, read_memo_eq]
  simp [Database.store_memo, logEvent, setMemo]

/-- A failed `set` (identifier not registered as an input) leaves the
database untouched. -/
theorem set_not_input (db : Database) (id : QueryId) (k : Key) (v : Value)
    (h : id ∉ db.input_ids) : db.set id k v = (db, .panic) := by
  simp [Database.set, if_neg h]

theorem set_ok (db : Database) (id : QueryId) (k : Key) (v : Value)
    (h : id ∈ db.input_ids) : (db.set id k v).2 = .ok () := by
  rw [set_eq db id k v h]

theorem set_fst_revision (db : Database) (id : QueryId) (k : Key) (v : Value)
    (h : id ∈ db.input_ids) :
    (db.set id k v).1.revision = db.revision + 1 := by
  rw [set_eq db id k v h]

theorem set_fst_storage (db : Database) (id : QueryId) (k : Key) (v : Value)
    (h : id ∈ db.input_ids) :
    (db.set id k v).1.storage =
      insertMemo db.storage ⟨id, k⟩ (setMemo db id k v) := by
  rw [set_eq db id k v h]

@[simp] theorem set_fst_input_ids (db : Database) (id : QueryId) (k : Key)
    (v : Value) : (db.set id k v).1.input_ids = db.input_ids := by
  by_cases h : id ∈ db.input_ids
  · rw [set_eq db id k v h]
  · rw [set_not_input db id k v h]

@[simp] theorem set_fst_query_functions (db : Database) (id : QueryId) (k : Key)
    (v : Value) : (db.set id k v).1.query_functions = db.query_functions := by
  by_cases h : id ∈ db.input_ids
  · rw [set_eq db id k v h]
  · rw [set_not_input db id k v h]

@[simp] theorem set_fst_active_queries (db : Database) (id : QueryId) (k : Key)
    (v : Value) : (db.set id k v).1.active_queries = db.active_queries := by
  by_cases h : id ∈ db.input_ids
  · rw [set_eq db id k v h]
  · rw [set_not_input db id k v h]

/-- `setMemo` retains `changed_at` when the stored value is unchanged. -/
theorem setMemo_changed_at_same (db : Database) (id : QueryId) (k : Key)
    (v : Value) (m : Memo) (hm : lookupMemo db.storage ⟨id, k⟩ = some m)
    (hv : m.value = v) : (setMemo db id k v).changed_at = m.changed_at := by
  simp [setMemo, hm, hv]

/-- `read` on an input slot whose memo is already verified at the current
revision: no store, result is the memoized value. -/
theorem read_input_fresh (ρ : List Slot → List Slot) (g : GetFn) (db : Database)
    (slot : Slot) (m : Memo) (hin : slot.id ∈ db.input_ids)
    (hmem : lookupMemo db.storage slot = some m)
    (hver : m.verified_at = db.revision) :
    read ρ g db slot =
      (logEvent (logEvent db (.readMemo (some m))) .memoForInputQuery,
       .ok ⟨m.value, m.changed_at⟩) := by
  simp [read, hmem, Database.is_input_query, hin, hver, logEvent]

/-- `read` on a derived slot whose memo is already verified at the current
revision (the fresh-verification shortcut, lib.rs lines 288-293). -/
theorem read_derived_fresh (ρ : List Slot → List Slot) (g : GetFn)
    (db : Database) (slot : Slot) (m : Memo) (hin : slot.id ∉ db.input_ids)
    (hmem : lookupMemo db.storage slot = some m)
    (hver : m.verified_at = db.revision) :
    read ρ g db slot =
      (logEvent (logEvent db (.readMemo (some m))) .memoVerifiedAtCurrentRevision,
       .ok ⟨m.value, m.changed_at⟩) := by
  simp [read, hmem, Database.is_input_query, hin, hver, logEvent]

/-- Unfolding of `get_with_timestamp` at positive fuel. -/
theorem get_with_timestamp_succ (ρ : List Slot → List Slot) (fuel : Nat) :
    get_with_timestamp ρ (fuel + 1) =
      fun db slot =>
        get_with_timestamp_body (read ρ (get_with_timestamp ρ fuel)) db slot := rfl

/-- `recordDependency` only inspects and edits the active-query stack. -/
theorem recordDependency_active_congr (db₁ db₂ : Database) (s : Slot)
    (h : db₁.active_queries = db₂.active_queries) :
    (recordDependency db₁ s).active_queries =
      (recordDependency db₂ s).active_queries := by
  unfold recordDependency
  rw [h]
  cases h2 : db₂.active_queries with
  | nil => simp [h2, h]
  | cons t r => simp [h2]

/-- A `get` of a slot whose memo is verified at the current revision: the
verified fast path.  It returns the memoized value and timestamp, changes no
storage, no revision and no registry, restores the active-query stack (up to
recording the slot in the parent accumulator), and every event it emits is
bookkeeping — in particular no `StartedQueryEvaluation`,
`StartedInputChecks` or `ChangedAt` event (no query function runs and no
dependency is walked). -/
theorem get_fresh (ρ : List Slot → List Slot) (fuel : Nat) (db : Database)
    (slot : Slot) (m : Memo) (hmem : lookupMemo db.storage slot = some m)
    (hver : m.verified_at = db.revision) :
    (get_with_timestamp ρ (fuel + 1) db slot).2 = .ok ⟨m.value, m.changed_at⟩ ∧
    (get_with_timestamp ρ (fuel + 1) db slot).1.storage = db.storage ∧
    (get_with_timestamp ρ (fuel + 1) db slot).1.revision = db.revision ∧
    (get_with_timestamp ρ (fuel + 1) db slot).1.input_ids = db.input_ids ∧
    (get_with_timestamp ρ (fuel + 1) db slot).1.query_functions =
      db.query_functions ∧
    (get_with_timestamp ρ (fuel + 1) db slot).1.active_queries =
      (recordDependency db slot).active_queries ∧
    ∀ e ∈ newEvents db (get_with_timestamp ρ (fuel + 1) db slot).1,
      e = .get slot ∨ e = .pushActiveQuery ∨ e = .readMemo (some m) ∨
      e = .memoForInputQuery ∨ e = .memoVerifiedAtCurrentRevision ∨
      e = .popActiveQuery := by
  by_cases hin : slot.id ∈ db.input_ids
  · have hread := read_input_fresh ρ (get_with_timestamp ρ fuel)
      ((recordDependency (logEvent db (.get slot)) slot).push_active_query) slot m
      (by simpa using hin) (by simpa using hmem) (by simpa using hver)
    have hmain : get_with_timestamp ρ (fuel + 1) db slot =
        (((logEvent (logEvent
            ((recordDependency (logEvent db (.get slot)) slot).push_active_query)
            (.readMemo (some m))) .memoForInputQuery).pop_active_query).1,
         .ok ⟨m.value, m.changed_at⟩) := by
      conv_lhs => rw [get_with_timestamp_succ]
      simp only [get_with_timestamp_body]
      rw [hread]
    rw [hmain]
    refine ⟨rfl, by simp, by simp, by simp, by simp,
      by simp; exact recordDependency_active_congr _ _ _ (by simp), ?_⟩
    simp only [newEvents, pop_active_query_events, logEvent_events,
      push_active_query_events, recordDependency_events, List.append_assoc,
      List.singleton_append, List.drop_left]
    intro e he
    simp only [List.mem_append, List.mem_cons, List.not_mem_nil, or_false] at he
    tauto
  · have hread := read_derived_fresh ρ (get_with_timestamp ρ fuel)
      ((recordDependency (logEvent db (.get slot)) slot).push_active_query) slot m
      (by simpa using hin) (by simpa using hmem) (by simpa using hver)
    have hmain : get_with_timestamp ρ (fuel + 1) db slot =
        (((logEvent (logEvent
            ((recordDependency (logEvent db (.get slot)) slot).push_active_query)
            (.readMemo (some m))) .memoVerifiedAtCurrentRevision).pop_active_query).1,
         .ok ⟨m.value, m.changed_at⟩) := by
      conv_lhs => rw [get_with_timestamp_succ]
      simp only [get_with_timestamp_body]
      rw [hread]
    rw [hmain]
    refine ⟨rfl, by simp, by simp, by simp, by simp,
      by simp; exact recordDependency_active_congr _ _ _ (by simp), ?_⟩
    simp only [newEvents, pop_active_query_events, logEvent_events,
      push_active_query_events, recordDependency_events, List.append_assoc,
      List.singleton_append, List.drop_left]
    intro e he
    simp only [List.mem_append, List.mem_cons, List.not_mem_nil, or_false] at he
    tauto

/-! ## The engine induction

`get_with_timestamp` is structurally recursive on fuel, with every other
engine method a plain function over the recursive reference `g`.  The facts
bundled in `GoodGet` are therefore proved for each method under the
assumption `GoodGet g`, and tied together by induction on the fuel. -/

theorem subset_insertDep (t : List Slot) (s : Slot) : t ⊆ insertDep t s := by
  unfold insertDep
  split
  · exact fun x hx => hx
  · exact fun x hx => List.mem_append_left _ hx

theorem topGrows_of_active_eq {db db' : Database}
    (h : db'.active_queries = db.active_queries) : topGrows db db' := by
  refine ⟨fun h0 => by rw [h, h0], fun t r ht => ⟨t, by rw [h, ht], fun x hx => hx⟩⟩

theorem topGrows_refl (db : Database) : topGrows db db :=
  topGrows_of_active_eq rfl

theorem topGrows_trans {db₁ db₂ db₃ : Database} (h₁ : topGrows db₁ db₂)
    (h₂ : topGrows db₂ db₃) : topGrows db₁ db₃ := by
  refine ⟨fun h0 => h₂.1 (h₁.1 h0), fun t r ht => ?_⟩
  obtain ⟨t', ht', hsub⟩ := h₁.2 t r ht
  obtain ⟨t'', ht'', hsub'⟩ := h₂.2 t' r ht'
  exact ⟨t'', ht'', fun x hx => hsub' (hsub hx)⟩

theorem topGrows_of_recordDependency {db db' : Database} (s : Slot)
    (h : db'.active_queries = (recordDependency db s).active_queries) :
    topGrows db db' := by
  constructor
  · intro h0
    rw [h]
    simp [recordDependency, h0]
  · intro t r ht
    rw [h]
    refine ⟨insertDep t s, ?_, subset_insertDep t s⟩
    simp [recordDependency, ht]

theorem Inv_of_eq {db db' : Database} (h : Inv db)
    (hs : db'.storage = db.storage) (hr : db'.revision = db.revision) :
    Inv db' := by
  intro s m hm
  rw [hs] at hm
  rw [hr]
  exact h s m hm

theorem Inv_store {db : Database} {s : Slot} {m : Memo} (h : Inv db)
    (h1 : m.changed_at ≤ m.verified_at) (h2 : m.verified_at ≤ db.revision) :
    Inv (db.store_memo s m) := by
  intro s' m' hm'
  rw [store_memo_storage] at hm'
  show m'.changed_at ≤ m'.verified_at ∧ m'.verified_at ≤ (db.store_memo s m).revision
  rw [store_memo_revision]
  by_cases he : s = s'
  · subst he
    rw [lookupMemo_insertMemo_self] at hm'
    cases hm'
    exact ⟨h1, h2⟩
  · rw [lookupMemo_insertMemo_ne _ _ _ _ he] at hm'
    exact h s' m' hm'

/-- `has_changed_since` under a good recursive reference: preserves the core
fields and the invariant, and only grows the top accumulator on success. -/
theorem has_changed_since_good (g : GetFn) (hg : GoodGet g) (db : Database)
    (slot : Slot) (rev : Nat) :
    ((has_changed_since g db slot rev).1.revision = db.revision ∧
     (has_changed_since g db slot rev).1.input_ids = db.input_ids ∧
     (has_changed_since g db slot rev).1.query_functions = db.query_functions) ∧
    (Inv db → Inv (has_changed_since g db slot rev).1) ∧
    (∀ db' b, has_changed_since g db slot rev = (db', .ok b) →
      topGrows db db') := by
  unfold has_changed_since
  cases hm : lookupMemo db.storage slot with
  | none =>
    refine ⟨⟨rfl, rfl, rfl⟩, fun h => h, fun db' b hr => ?_⟩
    simp at hr
  | some memo =>
    by_cases hv : memo.verified_at = db.revision
    · simp only [if_pos hv]
      refine ⟨⟨rfl, rfl, rfl⟩, fun h => Inv_of_eq h rfl rfl,
        fun db' b hr => ?_⟩
      cases hr
      exact topGrows_of_active_eq rfl
    · simp only [if_neg hv]
      rcases hgw : g db slot with ⟨db₁, r⟩
      have hc := hg.core db slot
      rw [hgw] at hc
      obtain ⟨hc1, hc2, hc3⟩ := hc
      dsimp only at hc1 hc2 hc3
      have hinv : Inv db → Inv db₁ := fun h => by
        have := hg.inv db slot h
        rw [hgw] at this
        exact this
      cases r with
      | ok sv =>
        refine ⟨⟨by simp [hc1], by simp [hc2], by simp [hc3]⟩,
          fun h => Inv_of_eq (hinv h) rfl (by simp), fun db' b hr => ?_⟩
        have hst := hg.stack db slot db₁ sv hgw
        simp only at hr
        cases hr
        exact topGrows_of_recordDependency slot (by simp [hst])
      | panic =>
        exact ⟨⟨by simp [hc1], by simp [hc2], by simp [hc3]⟩,
          fun h => hinv h, fun db' b hr => by simp at hr⟩
      | timeout =>
        exact ⟨⟨by simp [hc1], by simp [hc2], by simp [hc3]⟩,
          fun h => hinv h, fun db' b hr => by simp at hr⟩

/-- The dependency walk under a good recursive reference. -/
theorem anyDepChangedSince_good (g : GetFn) (hg : GoodGet g) (deps : List Slot)
    (rev : Nat) : ∀ db : Database,
    ((anyDepChangedSince g db deps rev).1.revision = db.revision ∧
     (anyDepChangedSince g db deps rev).1.input_ids = db.input_ids ∧
     (anyDepChangedSince g db deps rev).1.query_functions =
       db.query_functions) ∧
    (Inv db → Inv (anyDepChangedSince g db deps rev).1) ∧
    (∀ db' b, anyDepChangedSince g db deps rev = (db', .ok b) →
      topGrows db db') := by
  induction deps with
  | nil =>
    intro db
    refine ⟨⟨rfl, rfl, rfl⟩, fun h => h, fun db' b hr => ?_⟩
    cases hr
    exact topGrows_refl _
  | cons d rest ih =>
    intro db
    unfold anyDepChangedSince
    rcases hh : has_changed_since g db d rev with ⟨db₁, r⟩
    obtain ⟨hcore, hinv, hstack⟩ := has_changed_since_good g hg db d rev
    rw [hh] at hcore hinv hstack
    dsimp only at hcore hinv hstack
    obtain ⟨hc1, hc2, hc3⟩ := hcore
    cases r with
    | ok b =>
      cases b with
      | true =>
        refine ⟨⟨hc1, hc2, hc3⟩, hinv, fun db' b hr => ?_⟩
        cases hr
        exact hstack db₁ true rfl
      | false =>
        obtain ⟨⟨ic1, ic2, ic3⟩, iinv, istack⟩ := ih db₁
        refine ⟨⟨by rw [ic1, hc1], by rw [ic2, hc2], by rw [ic3, hc3]⟩,
          fun h => iinv (hinv h), fun db' b hr => ?_⟩
        exact topGrows_trans (hstack db₁ false rfl) (istack db' b hr)
    | panic =>
      exact ⟨⟨hc1, hc2, hc3⟩, hinv, fun db' b hr => by simp at hr⟩
    | timeout =>
      exact ⟨⟨hc1, hc2, hc3⟩, hinv, fun db' b hr => by simp at hr⟩

/-- The query-function interpreter under a good recursive reference. -/
theorem runQueryComp_good (g : GetFn) (hg : GoodGet g) (c : QueryComp) :
    ∀ db : Database,
    ((runQueryComp g db c).1.revision = db.revision ∧
     (runQueryComp g db c).1.input_ids = db.input_ids ∧
     (runQueryComp g db c).1.query_functions = db.query_functions) ∧
    (Inv db → Inv (runQueryComp g db c).1) ∧
    (∀ db' v, runQueryComp g db c = (db', .ok v) → topGrows db db') := by
  induction c with
  | done v =>
    intro db
    refine ⟨⟨rfl, rfl, rfl⟩, fun h => h, fun db' v' hr => ?_⟩
    cases hr
    exact topGrows_refl _
  | abort =>
    intro db
    exact ⟨⟨rfl, rfl, rfl⟩, fun h => h, fun db' v' hr => by simp [runQueryComp] at hr⟩
  | ask s k ih =>
    intro db
    unfold runQueryComp
    rcases hgw : g db s with ⟨db₁, r⟩
    have hcore := hg.core db s
    rw [hgw] at hcore
    dsimp only at hcore
    obtain ⟨hc1, hc2, hc3⟩ := hcore
    have hinv : Inv db → Inv db₁ := fun h => by
      have := hg.inv db s h
      rw [hgw] at this
      exact this
    cases r with
    | ok sv =>
      obtain ⟨⟨ic1, ic2, ic3⟩, iinv, istack⟩ := ih sv.value db₁
      refine ⟨⟨by rw [ic1, hc1], by rw [ic2, hc2], by rw [ic3, hc3]⟩,
        fun h => iinv (hinv h), fun db' v' hr => ?_⟩
      refine topGrows_trans
        (topGrows_of_recordDependency s (hg.stack db s db₁ sv hgw))
        (istack db' v' hr)
    | panic =>
      exact ⟨⟨hc1, hc2, hc3⟩, hinv, fun db' v' hr => by simp at hr⟩
    | timeout =>
      exact ⟨⟨hc1, hc2, hc3⟩, hinv, fun db' v' hr => by simp at hr⟩

/-- `run_query_function` under a good recursive reference. -/
theorem run_query_function_good (g : GetFn) (hg : GoodGet g) (db : Database)
    (slot : Slot) :
    ((run_query_function g db slot).1.revision = db.revision ∧
     (run_query_function g db slot).1.input_ids = db.input_ids ∧
     (run_query_function g db slot).1.query_functions = db.query_functions) ∧
    (Inv db → Inv (run_query_function g db slot).1) ∧
    (∀ db' v, run_query_function g db slot = (db', .ok v) → topGrows db db') := by
  unfold run_query_function
  dsimp only
  simp only [logEvent_query_functions]
  split
  · refine ⟨⟨rfl, rfl, rfl⟩, fun h => Inv_of_eq h rfl rfl, fun db' v hr => ?_⟩
    simp at hr
  · next qf heq =>
    obtain ⟨⟨rc1, rc2, rc3⟩, rinv, rstack⟩ :=
      runQueryComp_good g hg (qf slot.key) (logEvent db .startedQueryEvaluation)
    split
    · next db₂ v heq2 =>
      rw [heq2] at rc1 rc2 rc3 rinv rstack
      dsimp only at rc1 rc2 rc3 rinv rstack
      simp only [logEvent_revision, logEvent_input_ids,
        logEvent_query_functions] at rc1 rc2 rc3
      refine ⟨⟨by simp [rc1], by simp [rc2], by simp [rc3]⟩,
        fun h => Inv_of_eq (rinv (Inv_of_eq h rfl rfl)) rfl (by simp [rc1]),
        fun db' v' hr => ?_⟩
      cases hr
      have hts := rstack db₂ v rfl
      refine ⟨fun h0 => ?_, fun t rr ht => ?_⟩
      · have h2 := hts.1 (by simp [h0])
        simp [h2]
      · obtain ⟨t', ht', hsub⟩ := hts.2 t rr (by simp [ht])
        exact ⟨t', by simp [ht'], hsub⟩
    · next db₂ heq2 =>
      rw [heq2] at rc1 rc2 rc3 rinv
      dsimp only at rc1 rc2 rc3 rinv
      simp only [logEvent_revision, logEvent_input_ids,
        logEvent_query_functions] at rc1 rc2 rc3
      exact ⟨⟨rc1, rc2, rc3⟩, fun h => rinv (Inv_of_eq h rfl rfl),
        fun db' v hr => by simp at hr⟩
    · next db₂ heq2 =>
      rw [heq2] at rc1 rc2 rc3 rinv
      dsimp only at rc1 rc2 rc3 rinv
      simp only [logEvent_revision, logEvent_input_ids,
        logEvent_query_functions] at rc1 rc2 rc3
      exact ⟨⟨rc1, rc2, rc3⟩, fun h => rinv (Inv_of_eq h rfl rfl),
        fun db' v hr => by simp at hr⟩

/-- The recomputation tail of `read` under a good recursive reference.  The
hypothesis `hm` supplies the timestamp bounds of the pre-existing memo (from
the invariant at the caller). -/
theorem read_recompute_good (g : GetFn) (hg : GoodGet g) (db : Database)
    (slot : Slot) (memo : Option Memo) :
    ((read_recompute g db slot memo).1.revision = db.revision ∧
     (read_recompute g db slot memo).1.input_ids = db.input_ids ∧
     (read_recompute g db slot memo).1.query_functions = db.query_functions) ∧
    (Inv db →
      (∀ m₀, memo = some m₀ →
        m₀.changed_at ≤ m₀.verified_at ∧ m₀.verified_at ≤ db.revision) →
      Inv (read_recompute g db slot memo).1) ∧
    (∀ db' r, read_recompute g db slot memo = (db', .ok r) →
      topGrows db db' ∧
      ∃ m, lookupMemo db'.storage slot = some m ∧ m.verified_at = db.revision ∧
        m.value = r.value ∧ m.changed_at = r.changed_at) := by
  unfold read_recompute
  rcases hrq : run_query_function g db slot with ⟨db₁, r⟩
  obtain ⟨⟨qc1, qc2, qc3⟩, qinv, qstack⟩ := run_query_function_good g hg db slot
  rw [hrq] at qc1 qc2 qc3 qinv qstack
  dsimp only at qc1 qc2 qc3 qinv qstack
  cases r with
  | ok v =>
    have hq := qstack db₁ v rfl
    cases hact : db₁.active_queries with
    | nil =>
      rcases memo with _ | m
      all_goals
        refine ⟨⟨by simp [hact, qc1], by simp [hact, qc2], by simp [hact, qc3]⟩,
          fun h _ => by simpa [hact] using qinv h,
          fun db' r hr => by simp [hact] at hr⟩
    | cons top rest =>
      rcases memo with _ | m
      · refine ⟨⟨by simp [hact, qc1], by simp [hact, qc2], by simp [hact, qc3]⟩,
          fun h _ => ?_, fun db' r hr => ?_⟩
        · simp only [hact]
          exact Inv_store (qinv h) (le_refl _) (le_refl _)
        · simp only [hact] at hr
          cases hr
          exact ⟨topGrows_trans hq (topGrows_of_active_eq (by simp)),
            _, lookup_store_self _ _ _, by simp [qc1], rfl, rfl⟩
      · refine ⟨⟨by simp [hact, qc1], by simp [hact, qc2], by simp [hact, qc3]⟩,
          fun h hm => ?_, fun db' r hr => ?_⟩
        · simp only [logEvent_active_queries, hact]
          obtain ⟨hm1, hm2⟩ := hm m rfl
          refine Inv_store (Inv_of_eq (qinv h) (by simp) (by simp)) ?_ ?_
          · by_cases hveq : m.value = v <;> simp [hveq]
            exact le_trans hm1 (le_trans hm2 (by simp [qc1]))
          · exact le_refl _
        · simp only [logEvent_active_queries, hact] at hr
          cases hr
          exact ⟨topGrows_trans hq (topGrows_of_active_eq (by simp)),
            _, lookup_store_self _ _ _, by simp [qc1], rfl, rfl⟩
  | panic =>
    exact ⟨⟨qc1, qc2, qc3⟩, fun h _ => qinv h, fun db' r hr => by simp at hr⟩
  | timeout =>
    exact ⟨⟨qc1, qc2, qc3⟩, fun h _ => qinv h, fun db' r hr => by simp at hr⟩

/-- `Database::read` under a good recursive reference: all four `GoodGet`
facts, with the stack fact in `topGrows` form and the fresh fact naming the
read slot. -/
theorem read_good (ρ : List Slot → List Slot) (g : GetFn) (hg : GoodGet g)
    (db : Database) (slot : Slot) :
    ((read ρ g db slot).1.revision = db.revision ∧
     (read ρ g db slot).1.input_ids = db.input_ids ∧
     (read ρ g db slot).1.query_functions = db.query_functions) ∧
    (Inv db → Inv (read ρ g db slot).1) ∧
    (∀ db' r, read ρ g db slot = (db', .ok r) →
      topGrows db db' ∧
      ∃ m, lookupMemo db'.storage slot = some m ∧ m.verified_at = db.revision ∧
        m.value = r.value ∧ m.changed_at = r.changed_at) := by
  unfold read
  simp only [read_memo_eq]
  by_cases hin : slot.id ∈ db.input_ids <;>
    simp only [Database.is_input_query, logEvent_input_ids, hin,
      decide_eq_true_eq, iff_true, iff_false, if_true, if_false, ite_true,
      ite_false, eq_self_iff_true, not_true, not_false_iff]
  · -- input branch
    cases hm : lookupMemo db.storage slot with
    | none =>
      exact ⟨⟨rfl, rfl, rfl⟩, fun h => Inv_of_eq h rfl rfl,
        fun db' r hr => by simp at hr⟩
    | some memo =>
      by_cases hv : memo.verified_at = db.revision <;>
        simp only [logEvent_revision, hv, ne_eq, not_true_eq_false,
          not_false_eq_true, if_true, if_false, ite_true, ite_false]
      · -- already verified: no store
        refine ⟨⟨by simp, by simp, by simp⟩, fun h => Inv_of_eq h (by simp) (by simp),
          fun db' r hr => ?_⟩
        cases hr
        refine ⟨topGrows_of_active_eq (by simp), memo, by simp [hm], hv, rfl, rfl⟩
      · -- lazy refresh of verified_at
        refine ⟨⟨by simp, by simp, by simp⟩, fun h => ?_, fun db' r hr => ?_⟩
        · obtain ⟨h1, h2⟩ := h slot memo hm
          exact Inv_store (Inv_of_eq h (by simp) (by simp)) (le_trans h1 h2)
            (le_refl _)
        · cases hr
          refine ⟨topGrows_of_active_eq (by simp), _, lookup_store_self _ _ _,
            by simp, rfl, rfl⟩
  · -- derived branch
    cases hm : lookupMemo db.storage slot with
    | none =>
      obtain ⟨⟨rc1, rc2, rc3⟩, rinv, rok⟩ :=
        read_recompute_good g hg (logEvent db (.readMemo none)) slot none
      refine ⟨⟨by simp [rc1], by simp [rc2], by simp [rc3]⟩,
        fun h => rinv (Inv_of_eq h rfl rfl) (by simp), fun db' r hr => ?_⟩
      obtain ⟨htg, m, hl, hver, hval, hchg⟩ := rok db' r hr
      refine ⟨topGrows_trans (topGrows_of_active_eq rfl) htg, m, hl, by simpa using hver,
        hval, hchg⟩
    | some memo =>
      by_cases hv : memo.verified_at = db.revision <;>
        simp only [logEvent_revision, hv, if_true, if_false, ite_true, ite_false]
      · -- fresh-verification shortcut
        refine ⟨⟨by simp, by simp, by simp⟩, fun h => Inv_of_eq h (by simp) (by simp),
          fun db' r hr => ?_⟩
        cases hr
        exact ⟨topGrows_of_active_eq (by simp), memo, by simp [hm], hv, rfl, rfl⟩
      · -- deep revalidation
        rcases hw : anyDepChangedSince g
            (logEvent (logEvent db (.readMemo (some memo)))
              (.startedInputChecks memo.verified_at))
            (ρ memo.dependencies) memo.verified_at with ⟨db₂, r₂⟩
        obtain ⟨⟨wc1, wc2, wc3⟩, winv, wstack⟩ :=
          anyDepChangedSince_good g hg (ρ memo.dependencies) memo.verified_at
            (logEvent (logEvent db (.readMemo (some memo)))
              (.startedInputChecks memo.verified_at))
        rw [hw] at wc1 wc2 wc3 winv wstack
        dsimp only at wc1 wc2 wc3 winv wstack
        simp only [logEvent_revision, logEvent_input_ids, logEvent_query_functions,
          logEvent_storage, logEvent_active_queries] at wc1 wc2 wc3
        cases r₂ with
        | ok anyChanged =>
          have hwtg : topGrows db db₂ := by
            have := wstack db₂ anyChanged rfl
            exact topGrows_trans (topGrows_of_active_eq (by simp)) this
          cases anyChanged with
          | true =>
            obtain ⟨⟨rc1, rc2, rc3⟩, rinv, rok⟩ :=
              read_recompute_good g hg
                (logEvent db₂ (.completedInputChecks true)) slot (some memo)
            refine ⟨⟨by simp [rc1, wc1], by simp [rc2, wc2], by simp [rc3, wc3]⟩,
              fun h => ?_, fun db' r hr => ?_⟩
            · refine rinv (Inv_of_eq (winv (Inv_of_eq h (by simp) (by simp)))
                (by simp) (by simp)) ?_
              intro m₀ hm₀
              obtain rfl : memo = m₀ := by injection hm₀
              obtain ⟨h1, h2⟩ := h slot memo hm
              refine ⟨h1, ?_⟩
              simp only [logEvent_revision, wc1]
              exact h2
            · obtain ⟨htg, m, hl, hver, hval, hchg⟩ := rok db' r hr
              refine ⟨topGrows_trans hwtg
                (topGrows_trans (topGrows_of_active_eq rfl) htg), m, hl,
                by simpa [wc1] using hver, hval, hchg⟩
          | false =>
            refine ⟨⟨by simp [wc1], by simp [wc2], by simp [wc3]⟩,
              fun h => ?_, fun db' r hr => ?_⟩
            · obtain ⟨h1, h2⟩ := h slot memo hm
              refine Inv_store (Inv_of_eq (winv (Inv_of_eq h (by simp) (by simp)))
                (by simp) (by simp)) ?_ (le_refl _)
              simp only [logEvent_revision, wc1]
              exact le_trans h1 h2
            · simp only at hr
              cases hr
              refine ⟨topGrows_trans hwtg (topGrows_of_active_eq (by simp)),
                _, lookup_store_self _ _ _, by simp [wc1], rfl, rfl⟩
        | panic =>
          refine ⟨⟨by simp [wc1], by simp [wc2], by simp [wc3]⟩,
            fun h => winv (Inv_of_eq h (by simp) (by simp)),
            fun db' r hr => by simp at hr⟩
        | timeout =>
          refine ⟨⟨by simp [wc1], by simp [wc2], by simp [wc3]⟩,
            fun h => winv (Inv_of_eq h (by simp) (by simp)),
            fun db' r hr => by simp at hr⟩

/-- The engine induction: every fuel level of `get_with_timestamp` satisfies
`GoodGet`. -/
theorem get_with_timestamp_good (ρ : List Slot → List Slot) :
    ∀ fuel, GoodGet (get_with_timestamp ρ fuel) := by
  intro fuel
  induction fuel with
  | zero =>
    refine ⟨fun db s => ⟨rfl, rfl, rfl⟩, fun db s h => h,
      fun db s db' r hr => ?_, fun db s db' r hr => ?_⟩ <;>
      simp [get_with_timestamp] at hr
  | succ n ih =>
    have hbody : ∀ db slot, get_with_timestamp ρ (n + 1) db slot =
        match read ρ (get_with_timestamp ρ n)
            ((recordDependency (logEvent db (.get slot))
              slot).push_active_query) slot with
        | (db₅, .ok result) => ((db₅.pop_active_query).1, .ok result)
        | (db₅, .panic) => (db₅, .panic)
        | (db₅, .timeout) => (db₅, .timeout) := fun db slot => rfl
    refine ⟨fun db s => ?_, fun db s h => ?_, fun db s db' r hr => ?_,
      fun db s db' r hr => ?_⟩
    · -- core
      rw [hbody]
      rcases hread : read ρ (get_with_timestamp ρ n)
        ((recordDependency (logEvent db (.get s)) s).push_active_query) s
        with ⟨db₅, r₅⟩
      obtain ⟨⟨c1, c2, c3⟩, -, -⟩ := read_good ρ _ ih
        ((recordDependency (logEvent db (.get s)) s).push_active_query) s
      rw [hread] at c1 c2 c3
      dsimp only at c1 c2 c3
      simp only [push_active_query_revision, push_active_query_input_ids,
        push_active_query_query_functions, recordDependency_revision,
        recordDependency_input_ids, recordDependency_query_functions,
        logEvent_revision, logEvent_input_ids, logEvent_query_functions]
        at c1 c2 c3
      cases r₅ <;> simp [c1, c2, c3]
    · -- inv
      rw [hbody]
      rcases hread : read ρ (get_with_timestamp ρ n)
        ((recordDependency (logEvent db (.get s)) s).push_active_query) s
        with ⟨db₅, r₅⟩
      obtain ⟨-, hinv, -⟩ := read_good ρ _ ih
        ((recordDependency (logEvent db (.get s)) s).push_active_query) s
      rw [hread] at hinv
      dsimp only at hinv
      have h₅ : Inv db₅ := by
        refine hinv (Inv_of_eq h ?_ ?_) <;> simp
      cases r₅ with
      | ok res => exact Inv_of_eq h₅ (by simp) (by simp)
      | panic => exact h₅
      | timeout => exact h₅
    · -- stack
      rw [hbody] at hr
      rcases hread : read ρ (get_with_timestamp ρ n)
        ((recordDependency (logEvent db (.get s)) s).push_active_query) s
        with ⟨db₅, r₅⟩
      rw [hread] at hr
      obtain ⟨-, -, hok⟩ := read_good ρ _ ih
        ((recordDependency (logEvent db (.get s)) s).push_active_query) s
      rw [hread] at hok
      cases r₅ with
      | ok res =>
        dsimp only at hr
        cases hr
        obtain ⟨htg, -⟩ := hok db₅ r rfl
        obtain ⟨t', ht', -⟩ := htg.2 []
          ((recordDependency (logEvent db (.get s)) s).active_queries)
          (by simp)
        simp only [pop_active_query_active_queries, ht', List.tail_cons]
        exact recordDependency_active_congr _ _ _ (by simp)
      | panic => exact absurd hr (by simp)
      | timeout => exact absurd hr (by simp)
    · -- fresh
      rw [hbody] at hr
      rcases hread : read ρ (get_with_timestamp ρ n)
        ((recordDependency (logEvent db (.get s)) s).push_active_query) s
        with ⟨db₅, r₅⟩
      rw [hread] at hr
      obtain ⟨-, -, hok⟩ := read_good ρ _ ih
        ((recordDependency (logEvent db (.get s)) s).push_active_query) s
      rw [hread] at hok
      cases r₅ with
      | ok res =>
        dsimp only at hr
        cases hr
        obtain ⟨-, m, hl, hver, hval, hchg⟩ := hok db₅ r rfl
        refine ⟨m, ?_, ?_, hval, hchg⟩
        · simpa using hl
        · simpa using hver
      | panic => exact absurd hr (by simp)
      | timeout => exact absurd hr (by simp)

/-! ## Claim theorems: concrete scenarios -/

set_option maxHeartbeats 800000 in
/-- **C1** (confirmed).  End-to-end first evaluation, spec §8 scenario 1: with
the walkthrough database (inputs `base_fee`, `discount_amount`,
`discount_age_limit`; derived `one_year_fee`, `two_year_fee`), after
`set(base,_,100); set(discount,_,30); set(limit,_,16)`, `get` returns
`one(16) = 70`, `one(17) = 100`, `two(17) = 200`, and the memo store then
contains exactly (as a set) the slots `base`, `discount`, `limit`, `one(16)`,
`one(17)`, `one(18)`, `two(17)`. -/
theorem scenario1_end_to_end :
    (scn1_one16.2).map StampedValue.value = .ok 70 ∧
    (scn1_one17.2).map StampedValue.value = .ok 100 ∧
    (scn1_two17.2).map StampedValue.value = .ok 200 ∧
    (scn1_two17.1.storage.map Prod.fst).toFinset = scenario1Slots.toFinset := by
  have h : scn1_two17.1.storage.map Prod.fst = scenario1Slots := by decide
  exact ⟨by decide, by decide, by decide, by rw [h]⟩

set_option maxHeartbeats 800000 in
/-- **C2** (counterexample).  The iteration order of
`memo.dependencies.iter().any(..)` in `Database::read` is the unspecified
`HashSet` iteration order; the spec itself calls the walk order
implementation-defined (§4.4).  Under the (equally legitimate) reversed
order, after `set(limit,_,3)` the second `get(one(5))` stores the dependency
set `{discount, base, limit}` — not `{limit, base}` — because the stale
`discount` and `base` are re-verified (and hence re-recorded into the active
accumulator) before the walk reaches the changed `limit`; and the subsequent
`set` that changes only `discount` then *does* cause `one(5)` to be
recomputed: its query function runs during the third `get`. -/
theorem dependency_capture_order_counterexample :
    ¬ ((one5Deps scn6_L3_rev).toFinset =
        ([⟨DISCOUNT_AGE_LIMIT, .void⟩, ⟨BASE_FEE, .void⟩] : List Slot).toFinset) ∧
    Event.startedQueryEvaluation ∈ scn6_get3_rev.1.events := by
  refine ⟨by decide, by decide⟩

set_option maxHeartbeats 800000 in
/-- **C2** (amended; confirmed for the insertion-order walk).  With input
`limit = 10` (and `base = 100`, `discount = 30`), evaluating `one(5)` stores a
memo whose dependency set is `{limit, base, discount}`.  When the dependency
walk visits dependencies in insertion order — so that `limit`, the first slot
the query function reads, is checked first — then after `set(limit,_,3)` a
second `get(one(5))` stores exactly the dependency set `{limit, base}`, and a
subsequent `set` changing only `discount` does not cause `one(5)` to be
recomputed on its next `get` (no query function runs).  Under other legal
iteration orders of the stored `HashSet`, stale dependencies re-verified
during the failed validation walk remain in the recorded set (see the
counterexample theorem), so the exact stored set is order-dependent. -/
theorem dependency_capture_insertion_order :
    (one5Deps scn6_L1).toFinset =
      ([⟨DISCOUNT_AGE_LIMIT, .void⟩, ⟨BASE_FEE, .void⟩,
        ⟨DISCOUNT_AMOUNT, .void⟩] : List Slot).toFinset ∧
    (one5Deps scn6_L3_id).toFinset =
      ([⟨DISCOUNT_AGE_LIMIT, .void⟩, ⟨BASE_FEE, .void⟩] : List Slot).toFinset ∧
    Event.startedQueryEvaluation ∉ scn6_get3_id.1.events := by
  refine ⟨by decide, by decide, by decide⟩


/-! ## Claim theorems: set semantics and registration -/

/-- **C3** (confirmed).  Every successful `set(id, key, value)` returns `ok`
and increments the revision counter by exactly one; the stored memo keeps the
old `changed_at` when an existing memo holds the same value and otherwise
stamps the new (post-increment) revision (`setMemo`); and calling `set` twice
in a row with the same value yields two revision bumps while the second call
leaves the slot's `changed_at` unchanged. -/
theorem set_revision_bump_and_input_cutoff (db : Database) (id : QueryId)
    (k : Key) (v : Value) (h : id ∈ db.input_ids) : SetSpec db id k v := by
  have h2 : id ∈ (db.set id k v).1.input_ids := by
    rw [set_fst_input_ids]; exact h
  refine ⟨set_ok db id k v h, set_fst_revision db id k v h, ?_, ?_, ?_⟩
  · rw [set_fst_storage db id k v h]
    exact lookupMemo_insertMemo_self _ _ _
  · rw [set_fst_revision _ _ _ _ h2, set_fst_revision _ _ _ _ h]
  · rw [set_fst_storage _ _ _ _ h2, set_fst_storage _ _ _ _ h,
      lookupMemo_insertMemo_self, lookupMemo_insertMemo_self]
    simp only [Option.map]
    rw [setMemo_changed_at_same (db.set id k v).1 id k v (setMemo db id k v)
      (by rw [set_fst_storage _ _ _ _ h]; exact lookupMemo_insertMemo_self _ _ _)
      rfl]

/-- Witness for `set_revision_bump_and_input_cutoff` at a concrete input. -/
theorem set_revision_bump_and_input_cutoff_witness :
    BASE_FEE ∈ walkthroughDB.input_ids ∧ SetSpec walkthroughDB BASE_FEE .void 100 :=
  ⟨by decide, set_revision_bump_and_input_cutoff walkthroughDB BASE_FEE .void 100
    (by decide)⟩

/-- **C8** (counterexample).  `Database::new` performs no disjointness check:
constructing a database in which `"dup"` appears both in `input_ids` and as a
key of the derived query-function map does *not* fail — it yields a working
database on which `set("dup", _, 7)` succeeds and a subsequent `get` returns
the set value `7` (not the query function's `99`) without ever invoking the
registered query function. -/
theorem double_registration_not_rejected :
    (overlapDB.set "dup" .void 7).2 = .ok () ∧
    ((get_with_timestamp id 9 (overlapDB.set "dup" .void 7).1
        ⟨"dup", .void⟩).2).map StampedValue.value = .ok 7 ∧
    Event.startedQueryEvaluation ∉
      newEvents (overlapDB.set "dup" .void 7).1
        (get_with_timestamp id 9 (overlapDB.set "dup" .void 7).1
          ⟨"dup", .void⟩).1 := by
  refine ⟨by decide, by decide, by decide⟩

/-- **C8** (amended; the failure modes the code really has).  `set` on an
identifier not registered as an input (a derived or unknown id) fails
deterministically, leaving the database untouched; `get` on an identifier
that is neither an input nor a registered query function (and has no cached
memo) fails deterministically; but construction never fails — `Database::new`
stores the two registries as given, with no disjointness check (see the
counterexample theorem: a doubly-registered id is simply treated as an
input). -/
theorem registration_failure_modes (ρ : List Slot → List Slot) (fuel : Nat)
    (db db' : Database) (id id' : QueryId) (k k' : Key) (v : Value)
    (h1 : id ∉ db.input_ids)
    (h2 : id' ∉ db'.input_ids)
    (h3 : (assocFind db'.query_functions id').isNone = true)
    (h4 : lookupMemo db'.storage ⟨id', k'⟩ = none) :
    db.set id k v = (db, .panic) ∧
    (get_with_timestamp ρ (fuel + 1) db' ⟨id', k'⟩).2 = .panic ∧
    ∀ (ids : List QueryId) (qfs : List (QueryId × (Key → QueryComp))),
      Database.new ids qfs =
        { input_ids := ids, query_functions := qfs, storage := [],
          revision := 0, active_queries := [], events := [] } := by
  refine ⟨set_not_input db id k v h1, ?_, fun ids qfs => rfl⟩
  have h3' : assocFind db'.query_functions id' = none :=
    Option.isNone_iff_eq_none.mp h3
  rw [get_with_timestamp_succ]
  simp only [get_with_timestamp_body, read, read_memo_eq, read_recompute,
    run_query_function, Database.is_input_query]
  simp [h2, h3', h4]

/-- Witness for `registration_failure_modes` at concrete inputs: `set` on the
derived id `one_year_fee` and `get` on an unregistered id. -/
theorem registration_failure_modes_witness :
    (ONE_YEAR_FEE ∉ walkthroughDB.input_ids ∧
     "unregistered" ∉ walkthroughDB.input_ids ∧
     (assocFind walkthroughDB.query_functions "unregistered").isNone = true ∧
     lookupMemo walkthroughDB.storage ⟨"unregistered", .void⟩ = none) ∧
    (walkthroughDB.set ONE_YEAR_FEE .void 0 = (walkthroughDB, .panic) ∧
     (get_with_timestamp id (0 + 1) walkthroughDB ⟨"unregistered", .void⟩).2 =
       .panic ∧
     ∀ (ids : List QueryId) (qfs : List (QueryId × (Key → QueryComp))),
       Database.new ids qfs =
         { input_ids := ids, query_functions := qfs, storage := [],
           revision := 0, active_queries := [], events := [] }) :=
  ⟨⟨by decide, by decide, by decide, rfl⟩,
   registration_failure_modes id 0 walkthroughDB walkthroughDB ONE_YEAR_FEE
     "unregistered" .void .void 0 (by decide) (by decide) (by decide) rfl⟩

/-- **C10** (confirmed).  If an identifier is registered as an input — even
when it *also* appears in the derived query-function map — the input
classification wins for every operation: `set` succeeds, the next `get` of
that slot returns the value just stored, and no registered query function is
invoked during that `get`, because the input check in `Database::read`
precedes any query-function lookup. -/
theorem input_classification_wins (ρ : List Slot → List Slot) (fuel : Nat)
    (db : Database) (id : QueryId) (k : Key) (v : Value)
    (h : id ∈ db.input_ids) : InputGetSpec ρ fuel db id k v := by
  have hmem : lookupMemo (db.set id k v).1.storage ⟨id, k⟩ =
      some (setMemo db id k v) := by
    rw [set_fst_storage db id k v h]
    exact lookupMemo_insertMemo_self _ _ _
  have hver : (setMemo db id k v).verified_at = (db.set id k v).1.revision := by
    rw [set_fst_revision db id k v h]; rfl
  obtain ⟨h2, -, -, -, -, -, hev⟩ :=
    get_fresh ρ fuel (db.set id k v).1 ⟨id, k⟩ _ hmem hver
  refine ⟨set_ok db id k v h, (setMemo db id k v).changed_at, h2, ?_⟩
  intro hmemb
  rcases hev _ hmemb with h' | h' | h' | h' | h' | h' <;> simp at h'

/-- Witness for `input_classification_wins` at the doubly-registered id of
`overlapDB`: the registered query function (constantly `99`) is never run and
`get` returns the value stored by `set`. -/
theorem input_classification_wins_witness :
    "dup" ∈ overlapDB.input_ids ∧ InputGetSpec id 8 overlapDB "dup" .void 7 :=
  ⟨by decide, input_classification_wins id 8 overlapDB "dup" .void 7 (by decide)⟩

/-! ## Claim theorems: fast path, invariants, failure atomicity, stack -/

/-- `set` preserves the timestamp invariant (both on success and on the
failing branch, which leaves the database unchanged). -/
theorem set_inv (db : Database) (id : QueryId) (k : Key) (v : Value)
    (h : Inv db) : Inv (db.set id k v).1 := by
  by_cases hid : id ∈ db.input_ids
  · rw [set_eq db id k v hid]
    intro s m hm
    dsimp only at hm ⊢
    by_cases he : (⟨id, k⟩ : Slot) = s
    · subst he
      rw [lookupMemo_insertMemo_self] at hm
      cases hm
      refine ⟨?_, le_refl _⟩
      unfold setMemo
      cases hl : lookupMemo db.storage ⟨id, k⟩ with
      | none => simp
      | some m₀ =>
        obtain ⟨h1, h2⟩ := h _ _ hl
        by_cases hveq : m₀.value = v <;> simp [hveq]
        exact le_trans h1 (le_trans h2 (Nat.le_succ _))
    · rw [lookupMemo_insertMemo_ne _ _ _ _ he] at hm
      obtain ⟨h1, h2⟩ := h s m hm
      exact ⟨h1, le_trans h2 (Nat.le_succ _)⟩
  · rw [set_not_input db id k v hid]
    exact h

/-- Every reachable database state satisfies the timestamp invariant. -/
theorem reachable_inv : ∀ db : Database, Reachable db → Inv db := by
  intro db h
  induction h with
  | new ids qfs =>
    intro s m hm
    simp [Database.new, lookupMemo] at hm
  | set db id k v db' hr hset ih =>
    have h2 := set_inv db id k v ih
    rw [hset] at h2
    exact h2
  | get ρ fuel db slot db' r hr hget ih =>
    have h2 := (get_with_timestamp_good ρ fuel).inv db slot ih
    rw [hget] at h2
    exact h2

/-- **C6** (confirmed).  In every database state reachable by any sequence of
successful `set` and `get` operations, every stored memo satisfies
`changed_at ≤ verified_at ≤ current revision`. -/
theorem timestamp_ordering_invariant (db : Database) (h : Reachable db) :
    ∀ s m, lookupMemo db.storage s = some m →
      m.changed_at ≤ m.verified_at ∧ m.verified_at ≤ db.revision :=
  reachable_inv db h

/-- Witness for `timestamp_ordering_invariant` at the concrete state reached
by the three scenario-1 `set` calls. -/
theorem timestamp_ordering_invariant_witness :
    Reachable scn1_sets ∧
    ∀ s m, lookupMemo scn1_sets.storage s = some m →
      m.changed_at ≤ m.verified_at ∧ m.verified_at ≤ scn1_sets.revision := by
  have h0 : Reachable walkthroughDB := Reachable.new _ _
  have h1 := Reachable.set walkthroughDB BASE_FEE .void 100 _ h0 rfl
  have h2 := Reachable.set _ DISCOUNT_AMOUNT .void 30 _ h1 rfl
  have h3 : Reachable scn1_sets :=
    Reachable.set _ DISCOUNT_AGE_LIMIT .void 16 _ h2 rfl
  exact ⟨h3, timestamp_ordering_invariant _ h3⟩

/-- **C5** (confirmed).  A second `get` of any slot with no intervening `set`
(the first `get` returned successfully, so the slot's memo is verified at the
current revision) performs no dependency walk (no `has_changed_since`
readout, no dependency-check phase) and invokes no registered query
function — none of the events it emits is a work event — and it returns the
memoized value (the first `get`'s result) directly. -/
theorem verified_fast_path (ρ₁ ρ₂ : List Slot → List Slot) (fuel₁ fuel₂ : Nat)
    (db db₁ : Database) (slot : Slot) (r₁ : StampedValue)
    (h : get_with_timestamp ρ₁ fuel₁ db slot = (db₁, .ok r₁)) :
    (get_with_timestamp ρ₂ (fuel₂ + 1) db₁ slot).2 = .ok r₁ ∧
    (get_with_timestamp ρ₂ (fuel₂ + 1) db₁ slot).1.storage = db₁.storage ∧
    ∀ e ∈ newEvents db₁ (get_with_timestamp ρ₂ (fuel₂ + 1) db₁ slot).1,
      e.isWorkEvent = false := by
  obtain ⟨m, hm, hver, hval, hchg⟩ :=
    (get_with_timestamp_good ρ₁ fuel₁).fresh db slot db₁ r₁ h
  have hrev : db₁.revision = db.revision := by
    have h2 := ((get_with_timestamp_good ρ₁ fuel₁).core db slot).1
    rw [h] at h2
    exact h2
  obtain ⟨h2, hst, -, -, -, -, hev⟩ :=
    get_fresh ρ₂ fuel₂ db₁ slot m hm (by rw [hver, hrev])
  refine ⟨?_, hst, ?_⟩
  · rw [h2, hval, hchg]
  · intro e he
    rcases hev e he with h' | h' | h' | h' | h' | h' <;>
      simp [h', Event.isWorkEvent]

/-- Witness for `verified_fast_path`: the second `get(one(16))` right after
scenario 1's first one. -/
theorem verified_fast_path_witness :
    (get_with_timestamp id 9 scn1_L0 ⟨ONE_YEAR_FEE, .int 16⟩ =
      (scn1_one16.1, .ok ⟨70, 3⟩)) ∧
    ((get_with_timestamp id (8 + 1) scn1_one16.1 ⟨ONE_YEAR_FEE, .int 16⟩).2 =
      .ok ⟨70, 3⟩ ∧
     (get_with_timestamp id (8 + 1) scn1_one16.1
        ⟨ONE_YEAR_FEE, .int 16⟩).1.storage = scn1_one16.1.storage ∧
     ∀ e ∈ newEvents scn1_one16.1
        (get_with_timestamp id (8 + 1) scn1_one16.1 ⟨ONE_YEAR_FEE, .int 16⟩).1,
       e.isWorkEvent = false) :=
  ⟨rfl, verified_fast_path id id 9 8 scn1_L0 scn1_one16.1 ⟨ONE_YEAR_FEE, .int 16⟩
    ⟨70, 3⟩ rfl⟩

/-- **C7** (counterexample).  A failed `get` does *not* leave the database
exactly as it was: from the reachable state `c7state` (inputs `a = 1`,
`c = 5`, input `b` never set), `get(f)` first re-verifies the stale input `a`
— storing an updated memo — and then panics reading `b`; the memo store
differs and the active-query stack retains the accumulators pushed along the
failed path. -/
theorem failed_get_not_atomic :
    (get_with_timestamp id 9 c7state ⟨"f", .void⟩).2 = .panic ∧
    (get_with_timestamp id 9 c7state ⟨"f", .void⟩).1.storage ≠
      c7state.storage ∧
    (get_with_timestamp id 9 c7state ⟨"f", .void⟩).1.active_queries ≠
      c7state.active_queries := by
  refine ⟨by decide, by decide, by decide⟩

/-- **C7** (amended).  What failed operations really guarantee: a failed
`set` terminates before any mutation, leaving the database untouched; a
`get`, whatever its outcome (including a panic), never changes the revision
counter or the registries, and preserves the timestamp invariant — every
memo written before the failure is a complete, well-formed memo (no
half-written memos).  The active-query stack, however, retains the
accumulators pushed for the in-flight calls (see the counterexample). -/
theorem failed_operation_atomicity (ρ : List Slot → List Slot) (fuel : Nat)
    (db : Database) (id : QueryId) (k : Key) (v : Value) (slot : Slot)
    (hset : id ∉ db.input_ids) (hinv : Inv db) :
    db.set id k v = (db, .panic) ∧
    (get_with_timestamp ρ fuel db slot).1.revision = db.revision ∧
    (get_with_timestamp ρ fuel db slot).1.input_ids = db.input_ids ∧
    (get_with_timestamp ρ fuel db slot).1.query_functions =
      db.query_functions ∧
    Inv (get_with_timestamp ρ fuel db slot).1 := by
  obtain ⟨hc1, hc2, hc3⟩ := (get_with_timestamp_good ρ fuel).core db slot
  exact ⟨set_not_input db id k v hset, hc1, hc2, hc3,
    (get_with_timestamp_good ρ fuel).inv db slot hinv⟩

/-- Witness for `failed_operation_atomicity` at the concrete failing state. -/
theorem failed_operation_atomicity_witness :
    ("f" ∉ c7state.input_ids ∧ Inv c7state) ∧
    (c7state.set "f" .void 0 = (c7state, .panic) ∧
     (get_with_timestamp id 9 c7state ⟨"f", .void⟩).1.revision =
       c7state.revision ∧
     (get_with_timestamp id 9 c7state ⟨"f", .void⟩).1.input_ids =
       c7state.input_ids ∧
     (get_with_timestamp id 9 c7state ⟨"f", .void⟩).1.query_functions =
       c7state.query_functions ∧
     Inv (get_with_timestamp id 9 c7state ⟨"f", .void⟩).1) := by
  have h0 : Reachable c7db := Reachable.new _ _
  have h1 := Reachable.set c7db "a" .void 1 _ h0 rfl
  have h2 : Reachable c7state := Reachable.set _ "c" .void 5 _ h1 rfl
  have hinv : Inv c7state := reachable_inv _ h2
  exact ⟨⟨by decide, hinv⟩,
    failed_operation_atomicity id 9 c7state "f" .void 0 ⟨"f", .void⟩
      (by decide) hinv⟩

/-- **C9** (counterexample).  A successfully returning nested `get` does
*not* leave the active-query stack with the same contents: from the
mid-evaluation state `midEvalDB` (an empty accumulator pushed, exactly as
`get_with_timestamp` does for an enclosing query), a `get` of the input slot
`dup` succeeds but records the slot in the parent accumulator, so the stack's
contents change (its depth does not). -/
theorem active_stack_contents_counterexample :
    (get_with_timestamp id 2 midEvalDB ⟨"dup", .void⟩).2 = .ok ⟨7, 1⟩ ∧
    (get_with_timestamp id 2 midEvalDB ⟨"dup", .void⟩).1.active_queries ≠
      midEvalDB.active_queries := by
  refine ⟨by decide, by decide⟩

/-- **C9** (amended).  After every successfully returning
`get_with_timestamp`, the active-query stack is exactly the stack from before
the call with the requested slot recorded in the parent (top) accumulator;
in particular the depth is unchanged, and when the call was made at top level
(empty stack) the stack is exactly empty again — so between top-level
operations the stack is empty.  The contents claim fails only for nested
calls, whose parent accumulator gains the requested slot (see the
counterexample). -/
theorem active_stack_balance (ρ : List Slot → List Slot) (fuel : Nat)
    (db db' : Database) (slot : Slot) (r : StampedValue)
    (h : get_with_timestamp ρ fuel db slot = (db', .ok r)) :
    db'.active_queries = (recordDependency db slot).active_queries ∧
    db'.active_queries.length = db.active_queries.length ∧
    (db.active_queries = [] → db'.active_queries = []) := by
  have hst := (get_with_timestamp_good ρ fuel).stack db slot db' r h
  refine ⟨hst, ?_, fun h0 => by rw [hst]; simp [recordDependency, h0]⟩
  rw [hst]
  unfold recordDependency
  cases h0 : db.active_queries <;> simp [h0]

/-- Witness for `active_stack_balance`: the nested `get` from `midEvalDB`
keeps the depth at one and records the slot in the parent accumulator. -/
theorem active_stack_balance_witness :
    (get_with_timestamp id 2 midEvalDB ⟨"dup", .void⟩ =
      ((get_with_timestamp id 2 midEvalDB ⟨"dup", .void⟩).1, .ok ⟨7, 1⟩)) ∧
    ((get_with_timestamp id 2 midEvalDB ⟨"dup", .void⟩).1.active_queries =
      (recordDependency midEvalDB ⟨"dup", .void⟩).active_queries ∧
     (get_with_timestamp id 2 midEvalDB ⟨"dup", .void⟩).1.active_queries.length =
      midEvalDB.active_queries.length ∧
     (midEvalDB.active_queries = [] →
      (get_with_timestamp id 2 midEvalDB ⟨"dup", .void⟩).1.active_queries = [])) :=
  ⟨rfl, active_stack_balance id 2 midEvalDB _ ⟨"dup", .void⟩ ⟨7, 1⟩ rfl⟩

/-! ## Fuel monotonicity

A successful (or panicking) engine run is unaffected by extra fuel: only
`RunRes.timeout` outcomes can change when the fuel bound grows. -/

/-- `g'` agrees with `g` wherever `g` does not time out. -/
def MonoStep (g g' : GetFn) : Prop :=
  ∀ db q db₂ res, g db q = (db₂, res) → res ≠ .timeout → g' db q = (db₂, res)

theorem runQueryComp_mono (g g' : GetFn) (hm : MonoStep g g') (c : QueryComp) :
    ∀ db db₂ res, runQueryComp g db c = (db₂, res) → res ≠ .timeout →
      runQueryComp g' db c = (db₂, res) := by
  induction c with
  | done v => intro db db₂ res h _; exact h
  | abort => intro db db₂ res h _; exact h
  | ask s k ih =>
    intro db db₂ res h hnt
    unfold runQueryComp at h ⊢
    rcases hg : g db s with ⟨db₁, r⟩
    rw [hg] at h
    cases r with
    | ok sv =>
      rw [hm db s db₁ (.ok sv) hg (by simp)]
      exact ih sv.value db₁ db₂ res h hnt
    | panic =>
      rw [hm db s db₁ .panic hg (by simp)]
      exact h
    | timeout =>
      dsimp only at h
      cases h
      exact absurd rfl hnt

theorem run_query_function_mono (g g' : GetFn) (hm : MonoStep g g')
    (db : Database) (q : Slot) (db₂ : Database) (res : RunRes Value)
    (h : run_query_function g db q = (db₂, res)) (hnt : res ≠ .timeout) :
    run_query_function g' db q = (db₂, res) := by
  unfold run_query_function at h ⊢
  dsimp only at h ⊢
  split at h
  · exact h
  · next qf heq =>
    rcases hr : runQueryComp g (logEvent db .startedQueryEvaluation)
        (qf q.key) with ⟨db₁, r⟩
    rw [hr] at h
    cases r with
    | ok v =>
      rw [runQueryComp_mono g g' hm _ _ _ _ hr (by simp)]
      exact h
    | panic =>
      rw [runQueryComp_mono g g' hm _ _ _ _ hr (by simp)]
      exact h
    | timeout =>
      dsimp only at h
      cases h
      exact absurd rfl hnt

theorem has_changed_since_mono (g g' : GetFn) (hm : MonoStep g g')
    (db : Database) (q : Slot) (rev : Nat) (db₂ : Database) (res : RunRes Bool)
    (h : has_changed_since g db q rev = (db₂, res)) (hnt : res ≠ .timeout) :
    has_changed_since g' db q rev = (db₂, res) := by
  unfold has_changed_since at h ⊢
  cases hl : lookupMemo db.storage q with
  | none => rw [hl] at h; exact h
  | some memo =>
    rw [hl] at h
    by_cases hv : memo.verified_at = db.revision
    · simp only [if_pos hv] at h ⊢
      exact h
    · simp only [if_neg hv] at h ⊢
      rcases hg : g db q with ⟨db₁, r⟩
      rw [hg] at h
      cases r with
      | ok sv =>
        rw [hm db q db₁ (.ok sv) hg (by simp)]
        exact h
      | panic =>
        rw [hm db q db₁ .panic hg (by simp)]
        exact h
      | timeout =>
        dsimp only at h
        cases h
        exact absurd rfl hnt

theorem anyDepChangedSince_mono (g g' : GetFn) (hm : MonoStep g g')
    (deps : List Slot) (rev : Nat) :
    ∀ db db₂ res, anyDepChangedSince g db deps rev = (db₂, res) →
      res ≠ .timeout → anyDepChangedSince g' db deps rev = (db₂, res) := by
  induction deps with
  | nil => intro db db₂ res h _; exact h
  | cons d rest ih =>
    intro db db₂ res h hnt
    unfold anyDepChangedSince at h ⊢
    rcases hh : has_changed_since g db d rev with ⟨db₁, r⟩
    rw [hh] at h
    cases r with
    | ok b =>
      rw [has_changed_since_mono g g' hm db d rev db₁ (.ok b) hh (by simp)]
      cases b with
      | true => exact h
      | false => exact ih db₁ db₂ res h hnt
    | panic =>
      rw [has_changed_since_mono g g' hm db d rev db₁ .panic hh (by simp)]
      exact h
    | timeout =>
      dsimp only at h
      cases h
      exact absurd rfl hnt

theorem read_recompute_mono (g g' : GetFn) (hm : MonoStep g g') (db : Database)
    (q : Slot) (memo : Option Memo) (db₂ : Database) (res : RunRes StampedValue)
    (h : read_recompute g db q memo = (db₂, res)) (hnt : res ≠ .timeout) :
    read_recompute g' db q memo = (db₂, res) := by
  unfold read_recompute at h ⊢
  rcases hr : run_query_function g db q with ⟨db₁, r⟩
  rw [hr] at h
  cases r with
  | ok v =>
    rw [run_query_function_mono g g' hm db q db₁ (.ok v) hr (by simp)]
    exact h
  | panic =>
    rw [run_query_function_mono g g' hm db q db₁ .panic hr (by simp)]
    exact h
  | timeout =>
    dsimp only at h
    cases h
    exact absurd rfl hnt

theorem read_mono (ρ : List Slot → List Slot) (g g' : GetFn)
    (hm : MonoStep g g') (db : Database) (q : Slot) (db₂ : Database)
    (res : RunRes StampedValue) (h : read ρ g db q = (db₂, res))
    (hnt : res ≠ .timeout) : read ρ g' db q = (db₂, res) := by
  unfold read at h ⊢
  simp only [read_memo_eq] at h ⊢
  by_cases hin : (logEvent db (.readMemo (lookupMemo db.storage q))).is_input_query q.id <;>
    simp only [hin, if_true, if_false, ite_true, ite_false] at h ⊢
  · exact h
  · cases hl : lookupMemo db.storage q with
    | none =>
      rw [hl] at h
      exact read_recompute_mono g g' hm _ q none db₂ res h hnt
    | some memo =>
      rw [hl] at h
      by_cases hv : memo.verified_at =
          (logEvent db (.readMemo (some memo))).revision <;>
        simp only [hv, if_true, if_false, ite_true, ite_false] at h ⊢
      · exact h
      · rcases hw : anyDepChangedSince g
            (logEvent (logEvent db (.readMemo (some memo)))
              (.startedInputChecks memo.verified_at))
            (ρ memo.dependencies) memo.verified_at with ⟨db₁, r⟩
        rw [hw] at h
        cases r with
        | ok b =>
          rw [anyDepChangedSince_mono g g' hm _ _ _ _ _ hw (by simp)]
          cases b with
          | true =>
            exact read_recompute_mono g g' hm _ q (some memo) db₂ res h hnt
          | false => exact h
        | panic =>
          rw [anyDepChangedSince_mono g g' hm _ _ _ _ _ hw (by simp)]
          exact h
        | timeout =>
          dsimp only at h
          cases h
          exact absurd rfl hnt

theorem get_with_timestamp_mono (ρ : List Slot → List Slot) :
    ∀ n, MonoStep (get_with_timestamp ρ n) (get_with_timestamp ρ (n + 1)) := by
  intro n
  induction n with
  | zero =>
    intro db q db₂ res h hnt
    simp only [get_with_timestamp] at h
    cases h
    exact absurd rfl hnt
  | succ n ih =>
    intro db q db₂ res h hnt
    have hb : ∀ (k : Nat) (d : Database) (s : Slot),
        get_with_timestamp ρ (k + 1) d s =
          match read ρ (get_with_timestamp ρ k)
              ((recordDependency (logEvent d (.get s)) s).push_active_query) s with
          | (db₅, .ok result) => ((db₅.pop_active_query).1, .ok result)
          | (db₅, .panic) => (db₅, .panic)
          | (db₅, .timeout) => (db₅, .timeout) := fun k d s => rfl
    rw [hb] at h
    rw [hb]
    rcases hr : read ρ (get_with_timestamp ρ n)
        ((recordDependency (logEvent db (.get q)) q).push_active_query) q
        with ⟨db₅, r⟩
    rw [hr] at h
    cases r with
    | ok sv =>
      rw [read_mono ρ _ _ ih _ q db₅ (.ok sv) hr (by simp)]
      exact h
    | panic =>
      rw [read_mono ρ _ _ ih _ q db₅ .panic hr (by simp)]
      exact h
    | timeout =>
      dsimp only at h
      cases h
      exact absurd rfl hnt

/-- Success is stable under raising the fuel bound. -/
theorem get_with_timestamp_fuel_le (ρ : List Slot → List Slot)
    {n n' : Nat} (h : n ≤ n') (db : Database) (q : Slot) (db₂ : Database)
    (res : RunRes StampedValue) (hr : get_with_timestamp ρ n db q = (db₂, res))
    (hnt : res ≠ .timeout) : get_with_timestamp ρ n' db q = (db₂, res) := by
  induction n' with
  | zero =>
    have : n = 0 := Nat.le_zero.mp h
    subst this
    exact hr
  | succ k ih =>
    rcases Nat.lt_or_ge n (k + 1) with hlt | hge
    · have hk : n ≤ k := Nat.lt_succ_iff.mp hlt
      exact get_with_timestamp_mono ρ k db q db₂ res (ih hk) hnt
    · have : n = k + 1 := Nat.le_antisymm h hge
      subst this
      exact hr

/-- `read` on an input slot whose memo is stale: `verified_at` is refreshed in
place and the memoized value is returned. -/
theorem read_input_stale (ρ : List Slot → List Slot) (g : GetFn) (db : Database)
    (slot : Slot) (m : Memo) (hin : slot.id ∈ db.input_ids)
    (hmem : lookupMemo db.storage slot = some m)
    (hver : m.verified_at ≠ db.revision) :
    read ρ g db slot =
      ((logEvent (logEvent db (.readMemo (some m)))
          .memoForInputQuery).store_memo slot
          { m with verified_at := db.revision },
       .ok ⟨m.value, m.changed_at⟩) := by
  simp [read, hmem, Database.is_input_query, hin, hver, logEvent,
    Database.store_memo]

/-- A `get` of an input slot whose memo is stale: the memo's `verified_at` is
refreshed to the current revision, the memoized value and `changed_at` are
returned, and nothing else changes (up to events and recording the slot in
the parent accumulator). -/
theorem get_input_stale (ρ : List Slot → List Slot) (fuel : Nat) (db : Database)
    (slot : Slot) (m : Memo) (hin : slot.id ∈ db.input_ids)
    (hmem : lookupMemo db.storage slot = some m)
    (hver : m.verified_at ≠ db.revision) :
    (get_with_timestamp ρ (fuel + 1) db slot).2 = .ok ⟨m.value, m.changed_at⟩ ∧
    (get_with_timestamp ρ (fuel + 1) db slot).1.storage =
      insertMemo db.storage slot { m with verified_at := db.revision } ∧
    (get_with_timestamp ρ (fuel + 1) db slot).1.revision = db.revision ∧
    (get_with_timestamp ρ (fuel + 1) db slot).1.input_ids = db.input_ids ∧
    (get_with_timestamp ρ (fuel + 1) db slot).1.query_functions =
      db.query_functions ∧
    (get_with_timestamp ρ (fuel + 1) db slot).1.active_queries =
      (recordDependency db slot).active_queries := by
  have hread := read_input_stale ρ (get_with_timestamp ρ fuel)
    ((recordDependency (logEvent db (.get slot)) slot).push_active_query) slot m
    (by simpa using hin) (by simpa using hmem) (by simpa using hver)
  have hmain : get_with_timestamp ρ (fuel + 1) db slot =
      ((((logEvent (logEvent
          ((recordDependency (logEvent db (.get slot)) slot).push_active_query)
          (.readMemo (some m))) .memoForInputQuery).store_memo slot
          { m with verified_at :=
              ((recordDependency (logEvent db (.get slot))
                slot).push_active_query).revision }).pop_active_query).1,
       .ok ⟨m.value, m.changed_at⟩) := by
    conv_lhs => rw [get_with_timestamp_succ]
    simp only [get_with_timestamp_body]
    rw [hread]
  rw [hmain]
  refine ⟨rfl, by simp, by simp, by simp, by simp, ?_⟩
  simp only [pop_active_query_active_queries, store_memo_active_queries,
    logEvent_active_queries, push_active_query_active_queries, List.tail_cons]
  exact recordDependency_active_congr _ _ _ (by simp)

/-! ## The freshness invariants

For the no-op-set theorem the engine induction is extended: in every state
reachable with faithful walk orders, (`Vinv`) a memo verified at the current
revision only depends on slots that also hold a memo verified at the current
revision, and (`I2inv`) a memo stored at an input slot has no dependencies.
These hold because every store performed by the engine writes
`verified_at := current revision` (so freshness is monotone during an engine
run, `FreshAt`), the dependency walk leaves every walked slot fresh, and a
recomputation's accumulated dependencies are exactly the slots of its
successful nested `get` calls (`HeadFresh`). -/

/-- Slot `q` holds a memo verified at the current revision. -/
def FreshAt (db : Database) (q : Slot) : Prop :=
  ∃ m, lookupMemo db.storage q = some m ∧ m.verified_at = db.revision

/-- Every memo verified at the current revision only depends on slots that
are fresh themselves. -/
def Vinv (db : Database) : Prop :=
  ∀ q m, lookupMemo db.storage q = some m → m.verified_at = db.revision →
    ∀ D ∈ m.dependencies, FreshAt db D

/-- Memos at input slots have no dependencies. -/
def I2inv (db : Database) : Prop :=
  ∀ q m, lookupMemo db.storage q = some m → q.id ∈ db.input_ids →
    m.dependencies = []

/-- Every slot recorded in the top accumulator is fresh. -/
def HeadFresh (db : Database) : Prop :=
  ∀ t r, db.active_queries = t :: r → ∀ D ∈ t, FreshAt db D

theorem mem_insertDep {t : List Slot} {s x : Slot} (h : x ∈ insertDep t s) :
    x ∈ t ∨ x = s := by
  unfold insertDep at h
  split at h
  · exact Or.inl h
  · rcases List.mem_append.mp h with h' | h'
    · exact Or.inl h'
    · exact Or.inr (List.mem_singleton.mp h')

theorem FreshAt_transport {db db' : Database} {q : Slot} (h : FreshAt db q)
    (hs : db'.storage = db.storage) (hr : db'.revision = db.revision) :
    FreshAt db' q := by
  obtain ⟨m, hm, hv⟩ := h
  exact ⟨m, by rw [hs]; exact hm, by rw [hr]; exact hv⟩

theorem Vinv_transport {db db' : Database} (h : Vinv db)
    (hs : db'.storage = db.storage) (hr : db'.revision = db.revision) :
    Vinv db' := by
  intro q m hm hv D hD
  rw [hs] at hm
  rw [hr] at hv
  exact FreshAt_transport (h q m hm hv D hD) hs hr

theorem I2inv_transport {db db' : Database} (h : I2inv db)
    (hs : db'.storage = db.storage) (hi : db'.input_ids = db.input_ids) :
    I2inv db' := by
  intro q m hm hq
  rw [hs] at hm
  rw [hi] at hq
  exact h q m hm hq

theorem HeadFresh_transport {db db' : Database} (h : HeadFresh db)
    (hs : db'.storage = db.storage) (hr : db'.revision = db.revision)
    (ha : db'.active_queries = db.active_queries) : HeadFresh db' := by
  intro t rest ht D hD
  rw [ha] at ht
  exact FreshAt_transport (h t rest ht D hD) hs hr

/-- Storing a memo verified at the current revision cannot un-fresh any
slot. -/
theorem FreshAt_store {db : Database} {s : Slot} {m : Memo}
    (hv : m.verified_at = db.revision) {q : Slot} (h : FreshAt db q) :
    FreshAt (db.store_memo s m) q := by
  by_cases he : s = q
  · subst he
    exact ⟨m, lookup_store_self _ _ _, by rw [store_memo_revision]; exact hv⟩
  · obtain ⟨mq, hmq, hvq⟩ := h
    refine ⟨mq, ?_, by rw [store_memo_revision]; exact hvq⟩
    rw [store_memo_storage, lookupMemo_insertMemo_ne _ _ _ _ he]
    exact hmq

theorem Vinv_store {db : Database} {s : Slot} {m : Memo} (h : Vinv db)
    (hv : m.verified_at = db.revision)
    (hdeps : ∀ D ∈ m.dependencies, FreshAt db D) :
    Vinv (db.store_memo s m) := by
  intro q mq hmq hvq D hD
  rw [store_memo_storage] at hmq
  by_cases he : s = q
  · subst he
    rw [lookupMemo_insertMemo_self] at hmq
    cases hmq
    exact FreshAt_store hv (hdeps D hD)
  · rw [lookupMemo_insertMemo_ne _ _ _ _ he] at hmq
    rw [store_memo_revision] at hvq
    exact FreshAt_store hv (h q mq hmq hvq D hD)

theorem I2inv_store {db : Database} {s : Slot} {m : Memo} (h : I2inv db)
    (hm : s.id ∈ db.input_ids → m.dependencies = []) :
    I2inv (db.store_memo s m) := by
  intro q mq hmq hq
  rw [store_memo_storage] at hmq
  rw [store_memo_input_ids] at hq
  by_cases he : s = q
  · subst he
    rw [lookupMemo_insertMemo_self] at hmq
    cases hmq
    exact hm hq
  · rw [lookupMemo_insertMemo_ne _ _ _ _ he] at hmq
    exact h q mq hmq hq

/-- A successful call through a `GoodGet` reference that cannot un-fresh
slots keeps the top accumulator fresh: the slot it records is fresh on
return. -/
theorem headFresh_of_good (g : GetFn) (hg : GoodGet g)
    (hmono : ∀ db s q, FreshAt db q → FreshAt (g db s).1 q)
    (db : Database) (s : Slot) (db' : Database) (r : StampedValue)
    (hok : g db s = (db', .ok r)) (hh : HeadFresh db) : HeadFresh db' := by
  intro t rest ht D hD
  have hst := hg.stack db s db' r hok
  cases hact : db.active_queries with
  | nil =>
    rw [hst] at ht
    simp [recordDependency, hact] at ht
  | cons t₀ r₀ =>
    rw [hst] at ht
    simp only [recordDependency, hact] at ht
    injection ht with ht1 ht2
    subst ht1
    subst ht2
    rcases mem_insertDep hD with hD' | hDs
    · have := hmono db s D (hh t₀ r₀ hact D hD')
      rw [hok] at this
      exact this
    · subst hDs
      obtain ⟨m, hm, hv, -, -⟩ := hg.fresh db D db' r hok
      have hc := (hg.core db D).1
      rw [hok] at hc
      dsimp only at hc
      exact ⟨m, hm, by rw [hc]; exact hv⟩

/-- `has_changed_since` under a good, freshness-preserving reference:
freshness of any slot is preserved, `Vinv` and `I2inv` are preserved, and a
successful call leaves the checked slot fresh and the top accumulator
fresh. -/
theorem has_changed_since_V (g : GetFn) (hg : GoodGet g)
    (hmono : ∀ db s q, FreshAt db q → FreshAt (g db s).1 q)
    (hvpres : ∀ db s, Vinv db → I2inv db → Vinv (g db s).1 ∧ I2inv (g db s).1)
    (db : Database) (slot : Slot) (rev : Nat) :
    (∀ q, FreshAt db q → FreshAt (has_changed_since g db slot rev).1 q) ∧
    (Vinv db → I2inv db →
      Vinv (has_changed_since g db slot rev).1 ∧
      I2inv (has_changed_since g db slot rev).1) ∧
    (∀ db' b, has_changed_since g db slot rev = (db', .ok b) →
      (HeadFresh db → HeadFresh db') ∧ FreshAt db' slot) := by
  unfold has_changed_since
  cases hm : lookupMemo db.storage slot with
  | none =>
    refine ⟨fun q h => h, fun h1 h2 => ⟨h1, h2⟩, fun db' b hr => ?_⟩
    simp at hr
  | some memo =>
    by_cases hv : memo.verified_at = db.revision
    · simp only [if_pos hv]
      refine ⟨fun q h => FreshAt_transport h (by simp) (by simp),
        fun h1 h2 => ⟨Vinv_transport h1 (by simp) (by simp),
          I2inv_transport h2 (by simp) (by simp)⟩,
        fun db' b hr => ?_⟩
      cases hr
      exact ⟨fun hh => HeadFresh_transport hh (by simp) (by simp) (by simp),
        memo, by simp [hm], by simp [hv]⟩
    · simp only [if_neg hv]
      rcases hgw : g db slot with ⟨db₁, r⟩
      have hmono₁ : ∀ q, FreshAt db q → FreshAt db₁ q := fun q h => by
        have := hmono db slot q h
        rw [hgw] at this
        exact this
      have hvpres₁ : Vinv db → I2inv db → Vinv db₁ ∧ I2inv db₁ :=
        fun h1 h2 => by
          have := hvpres db slot h1 h2
          rw [hgw] at this
          exact this
      cases r with
      | ok sv =>
        refine ⟨fun q h => FreshAt_transport (hmono₁ q h) (by simp) (by simp),
          fun h1 h2 =>
            ⟨Vinv_transport (hvpres₁ h1 h2).1 (by simp) (by simp),
             I2inv_transport (hvpres₁ h1 h2).2 (by simp) (by simp)⟩,
          fun db' b hr => ?_⟩
        simp only at hr
        cases hr
        constructor
        · intro hh
          exact HeadFresh_transport
            (headFresh_of_good g hg hmono db slot db₁ sv hgw hh)
            (by simp) (by simp) (by simp)
        · obtain ⟨m, hmm, hvv, -, -⟩ := hg.fresh db slot db₁ sv hgw
          have hc := (hg.core db slot).1
          rw [hgw] at hc
          dsimp only at hc
          exact FreshAt_transport ⟨m, hmm, by rw [hc]; exact hvv⟩
            (by simp) (by simp)
      | panic =>
        exact ⟨fun q h => hmono₁ q h, hvpres₁, fun db' b hr => by simp at hr⟩
      | timeout =>
        exact ⟨fun q h => hmono₁ q h, hvpres₁, fun db' b hr => by simp at hr⟩

/-- The dependency walk under a good, freshness-preserving reference; a
complete (`false`) walk additionally leaves every walked slot fresh. -/
theorem anyDepChangedSince_V (g : GetFn) (hg : GoodGet g)
    (hmono : ∀ db s q, FreshAt db q → FreshAt (g db s).1 q)
    (hvpres : ∀ db s, Vinv db → I2inv db → Vinv (g db s).1 ∧ I2inv (g db s).1)
    (deps : List Slot) (rev : Nat) : ∀ db : Database,
    (∀ q, FreshAt db q → FreshAt (anyDepChangedSince g db deps rev).1 q) ∧
    (Vinv db → I2inv db →
      Vinv (anyDepChangedSince g db deps rev).1 ∧
      I2inv (anyDepChangedSince g db deps rev).1) ∧
    (∀ db' b, anyDepChangedSince g db deps rev = (db', .ok b) →
      (HeadFresh db → HeadFresh db') ∧
      (b = false → ∀ D ∈ deps, FreshAt db' D)) := by
  induction deps with
  | nil =>
    intro db
    refine ⟨fun q h => h, fun h1 h2 => ⟨h1, h2⟩, fun db' b hr => ?_⟩
    cases hr
    exact ⟨fun hh => hh, fun _ D hD => absurd hD (List.not_mem_nil D)⟩
  | cons d rest ih =>
    intro db
    unfold anyDepChangedSince
    rcases hh : has_changed_since g db d rev with ⟨db₁, r⟩
    obtain ⟨cmono, cvpres, cok⟩ := has_changed_since_V g hg hmono hvpres db d rev
    rw [hh] at cmono cvpres cok
    dsimp only at cmono cvpres cok
    cases r with
    | ok b =>
      cases b with
      | true =>
        refine ⟨cmono, cvpres, fun db' b hr => ?_⟩
        cases hr
        exact ⟨fun hhf => (cok db₁ true rfl).1 hhf, fun habs => by cases habs⟩
      | false =>
        obtain ⟨imono, ivpres, iok⟩ := ih db₁
        refine ⟨fun q h => imono q (cmono q h),
          fun h1 h2 => ivpres (cvpres h1 h2).1 (cvpres h1 h2).2,
          fun db' b hr => ?_⟩
        dsimp only at hr
        refine ⟨fun hhf => (iok db' b hr).1 ((cok db₁ false rfl).1 hhf),
          fun hb D hD => ?_⟩
        rcases List.mem_cons.mp hD with rfl | hD'
        · -- the head dep: fresh after its own check, monotone through the rest
          have h₁ : FreshAt db₁ D := (cok db₁ false rfl).2
          have := imono D h₁
          rw [hr] at this
          exact this
        · exact (iok db' b hr).2 hb D hD'
    | panic =>
      exact ⟨cmono, cvpres, fun db' b hr => by simp at hr⟩
    | timeout =>
      exact ⟨cmono, cvpres, fun db' b hr => by simp at hr⟩

/-- The query-function interpreter under a good, freshness-preserving
reference. -/
theorem runQueryComp_V (g : GetFn) (hg : GoodGet g)
    (hmono : ∀ db s q, FreshAt db q → FreshAt (g db s).1 q)
    (hvpres : ∀ db s, Vinv db → I2inv db → Vinv (g db s).1 ∧ I2inv (g db s).1)
    (c : QueryComp) : ∀ db : Database,
    (∀ q, FreshAt db q → FreshAt (runQueryComp g db c).1 q) ∧
    (Vinv db → I2inv db →
      Vinv (runQueryComp g db c).1 ∧ I2inv (runQueryComp g db c).1) ∧
    (∀ db' v, runQueryComp g db c = (db', .ok v) →
      HeadFresh db → HeadFresh db') := by
  induction c with
  | done v =>
    intro db
    refine ⟨fun q h => h, fun h1 h2 => ⟨h1, h2⟩, fun db' v' hr => ?_⟩
    cases hr
    exact fun hh => hh
  | abort =>
    intro db
    exact ⟨fun q h => h, fun h1 h2 => ⟨h1, h2⟩,
      fun db' v' hr => by simp [runQueryComp] at hr⟩
  | ask s k ih =>
    intro db
    unfold runQueryComp
    rcases hgw : g db s with ⟨db₁, r⟩
    have hmono₁ : ∀ q, FreshAt db q → FreshAt db₁ q := fun q h => by
      have := hmono db s q h
      rw [hgw] at this
      exact this
    have hvpres₁ : Vinv db → I2inv db → Vinv db₁ ∧ I2inv db₁ :=
      fun h1 h2 => by
        have := hvpres db s h1 h2
        rw [hgw] at this
        exact this
    cases r with
    | ok sv =>
      obtain ⟨imono, ivpres, ihead⟩ := ih sv.value db₁
      refine ⟨fun q h => imono q (hmono₁ q h),
        fun h1 h2 => ivpres (hvpres₁ h1 h2).1 (hvpres₁ h1 h2).2,
        fun db' v' hr hh => ?_⟩
      exact ihead db' v' hr (headFresh_of_good g hg hmono db s db₁ sv hgw hh)
    | panic =>
      exact ⟨hmono₁, hvpres₁, fun db' v' hr => by simp at hr⟩
    | timeout =>
      exact ⟨hmono₁, hvpres₁, fun db' v' hr => by simp at hr⟩

/-- `run_query_function` under a good, freshness-preserving reference. -/
theorem run_query_function_V (g : GetFn) (hg : GoodGet g)
    (hmono : ∀ db s q, FreshAt db q → FreshAt (g db s).1 q)
    (hvpres : ∀ db s, Vinv db → I2inv db → Vinv (g db s).1 ∧ I2inv (g db s).1)
    (db : Database) (slot : Slot) :
    (∀ q, FreshAt db q → FreshAt (run_query_function g db slot).1 q) ∧
    (Vinv db → I2inv db →
      Vinv (run_query_function g db slot).1 ∧
      I2inv (run_query_function g db slot).1) ∧
    (∀ db' v, run_query_function g db slot = (db', .ok v) →
      HeadFresh db → HeadFresh db') := by
  unfold run_query_function
  dsimp only
  split
  · refine ⟨fun q h => FreshAt_transport h (by simp) (by simp),
      fun h1 h2 => ⟨Vinv_transport h1 (by simp) (by simp),
        I2inv_transport h2 (by simp) (by simp)⟩,
      fun db' v hr => by simp at hr⟩
  · next qf heq =>
    obtain ⟨rmono, rvpres, rhead⟩ :=
      runQueryComp_V g hg hmono hvpres (qf slot.key)
        (logEvent db .startedQueryEvaluation)
    split
    · next db₂ v heq2 =>
      rw [heq2] at rmono rvpres rhead
      dsimp only at rmono rvpres rhead
      refine ⟨fun q h => FreshAt_transport
          (rmono q (FreshAt_transport h (by simp) (by simp))) (by simp) (by simp),
        fun h1 h2 => ?_, fun db' v' hr hh => ?_⟩
      · obtain ⟨hV, hI⟩ := rvpres (Vinv_transport h1 (by simp) (by simp))
          (I2inv_transport h2 (by simp) (by simp))
        exact ⟨Vinv_transport hV (by simp) (by simp),
          I2inv_transport hI (by simp) (by simp)⟩
      · cases hr
        refine HeadFresh_transport
          (rhead db₂ v rfl (HeadFresh_transport hh (by simp) (by simp) (by simp)))
          (by simp) (by simp) (by simp)
    · next db₂ heq2 =>
      rw [heq2] at rmono rvpres
      dsimp only at rmono rvpres
      refine ⟨fun q h => rmono q (FreshAt_transport h (by simp) (by simp)),
        fun h1 h2 => rvpres (Vinv_transport h1 (by simp) (by simp))
          (I2inv_transport h2 (by simp) (by simp)),
        fun db' v hr => by simp at hr⟩
    · next db₂ heq2 =>
      rw [heq2] at rmono rvpres
      dsimp only at rmono rvpres
      refine ⟨fun q h => rmono q (FreshAt_transport h (by simp) (by simp)),
        fun h1 h2 => rvpres (Vinv_transport h1 (by simp) (by simp))
          (I2inv_transport h2 (by simp) (by simp)),
        fun db' v hr => by simp at hr⟩

/-- The recomputation tail under a good, freshness-preserving reference: the
stored dependencies are the top accumulator, which `HeadFresh` keeps
fresh. -/
theorem read_recompute_V (g : GetFn) (hg : GoodGet g)
    (hmono : ∀ db s q, FreshAt db q → FreshAt (g db s).1 q)
    (hvpres : ∀ db s, Vinv db → I2inv db → Vinv (g db s).1 ∧ I2inv (g db s).1)
    (db : Database) (slot : Slot) (memo : Option Memo)
    (hnotin : slot.id ∉ db.input_ids) :
    (∀ q, FreshAt db q → FreshAt (read_recompute g db slot memo).1 q) ∧
    (Vinv db → I2inv db → HeadFresh db →
      Vinv (read_recompute g db slot memo).1 ∧
      I2inv (read_recompute g db slot memo).1) := by
  unfold read_recompute
  rcases hrq : run_query_function g db slot with ⟨db₁, r⟩
  obtain ⟨qmono, qvpres, qhead⟩ := run_query_function_V g hg hmono hvpres db slot
  obtain ⟨⟨qc1, qc2, qc3⟩, -, qstack⟩ := run_query_function_good g hg db slot
  rw [hrq] at qmono qvpres qhead qc1 qc2 qc3 qstack
  dsimp only at qmono qvpres qhead qc1 qc2 qc3 qstack
  cases r with
  | ok v =>
    have hstack := qstack db₁ v rfl
    cases hact : db₁.active_queries with
    | nil =>
      rcases memo with _ | m
      · exact ⟨fun q h => by simpa [hact] using qmono q h,
          fun h1 h2 _ => by
            obtain ⟨hV, hI⟩ := qvpres h1 h2
            simp only [hact]
            exact ⟨hV, hI⟩⟩
      · refine ⟨fun q h => ?_, fun h1 h2 _ => ?_⟩
        · simp only [logEvent_active_queries, hact]
          exact FreshAt_transport (qmono q h) (by simp) (by simp)
        · obtain ⟨hV, hI⟩ := qvpres h1 h2
          simp only [logEvent_active_queries, hact]
          exact ⟨Vinv_transport hV (by simp) (by simp),
            I2inv_transport hI (by simp) (by simp)⟩
    | cons top rest =>
      have htop : HeadFresh db → ∀ D ∈ top, FreshAt db₁ D := by
        intro hh D hD
        exact qhead db₁ v rfl hh top rest hact D hD
      rcases memo with _ | m
      · refine ⟨fun q h => ?_, fun h1 h2 hh => ?_⟩
        · simp only [hact]
          exact FreshAt_store rfl (qmono q h)
        · obtain ⟨hV, hI⟩ := qvpres h1 h2
          simp only [hact]
          exact ⟨Vinv_store hV rfl (fun D hD => htop hh D hD),
            I2inv_store hI (fun hcontra => absurd (qc2 ▸ hcontra) hnotin)⟩
      · refine ⟨fun q h => ?_, fun h1 h2 hh => ?_⟩
        · simp only [logEvent_active_queries, hact]
          exact FreshAt_store (by simp)
            (FreshAt_transport (qmono q h) (by simp) (by simp))
        · obtain ⟨hV, hI⟩ := qvpres h1 h2
          simp only [logEvent_active_queries, hact]
          refine ⟨Vinv_store (Vinv_transport hV (by simp) (by simp)) (by simp)
              (fun D hD => FreshAt_transport (htop hh D hD) (by simp) (by simp)),
            I2inv_store (I2inv_transport hI (by simp) (by simp))
              (fun hcontra => ?_)⟩
          simp only [logEvent_input_ids] at hcontra
          exact absurd (qc2 ▸ hcontra) hnotin
  | panic =>
    exact ⟨qmono, fun h1 h2 _ => qvpres h1 h2⟩
  | timeout =>
    exact ⟨qmono, fun h1 h2 _ => qvpres h1 h2⟩

/-- `read` under a good, freshness-preserving reference, for a walk order
that visits every stored dependency. -/
theorem read_V (ρ : List Slot → List Slot)
    (hρ : ∀ l : List Slot, ∀ x ∈ l, x ∈ ρ l) (g : GetFn) (hg : GoodGet g)
    (hmono : ∀ db s q, FreshAt db q → FreshAt (g db s).1 q)
    (hvpres : ∀ db s, Vinv db → I2inv db → Vinv (g db s).1 ∧ I2inv (g db s).1)
    (db : Database) (slot : Slot) :
    (∀ q, FreshAt db q → FreshAt (read ρ g db slot).1 q) ∧
    (Vinv db → I2inv db → HeadFresh db →
      Vinv (read ρ g db slot).1 ∧ I2inv (read ρ g db slot).1) := by
  unfold read
  simp only [read_memo_eq]
  by_cases hin : slot.id ∈ db.input_ids <;>
    simp only [Database.is_input_query, logEvent_input_ids, hin,
      decide_eq_true_eq, iff_true, iff_false, if_true, if_false, ite_true,
      ite_false, eq_self_iff_true, not_true, not_false_iff]
  · -- input branch
    cases hm : lookupMemo db.storage slot with
    | none =>
      exact ⟨fun q h => h, fun h1 h2 _ => ⟨h1, h2⟩⟩
    | some memo =>
      by_cases hv : memo.verified_at = db.revision <;>
        simp only [logEvent_revision, hv, ne_eq, not_true_eq_false,
          not_false_eq_true, if_true, if_false, ite_true, ite_false]
      · exact ⟨fun q h => FreshAt_transport h (by simp) (by simp),
          fun h1 h2 _ => ⟨Vinv_transport h1 (by simp) (by simp),
            I2inv_transport h2 (by simp) (by simp)⟩⟩
      · -- lazy refresh of an input memo: its dependency list is empty (I2inv)
        refine ⟨fun q h => ?_, fun h1 h2 _ => ?_⟩
        · exact FreshAt_store rfl (FreshAt_transport h rfl rfl)
        · have hdeps : memo.dependencies = [] := h2 slot memo hm hin
          refine ⟨Vinv_store (Vinv_transport h1 (by simp) (by simp)) (by simp)
              (fun D hD => ?_),
            I2inv_store (I2inv_transport h2 (by simp) (by simp))
              (fun _ => by simp [hdeps])⟩
          rw [hdeps] at hD
          exact absurd hD (List.not_mem_nil D)
  · -- derived branch
    cases hm : lookupMemo db.storage slot with
    | none =>
      obtain ⟨rmono, rvpres⟩ := read_recompute_V g hg hmono hvpres
        (logEvent db (.readMemo none)) slot none (by simpa using hin)
      exact ⟨fun q h => rmono q (FreshAt_transport h (by simp) (by simp)),
        fun h1 h2 hh => rvpres (Vinv_transport h1 (by simp) (by simp))
          (I2inv_transport h2 (by simp) (by simp))
          (HeadFresh_transport hh (by simp) (by simp) (by simp))⟩
    | some memo =>
      by_cases hv : memo.verified_at = db.revision <;>
        simp only [logEvent_revision, hv, if_true, if_false, ite_true, ite_false]
      · exact ⟨fun q h => FreshAt_transport h (by simp) (by simp),
          fun h1 h2 _ => ⟨Vinv_transport h1 (by simp) (by simp),
            I2inv_transport h2 (by simp) (by simp)⟩⟩
      · -- deep revalidation
        rcases hw : anyDepChangedSince g
            (logEvent (logEvent db (.readMemo (some memo)))
              (.startedInputChecks memo.verified_at))
            (ρ memo.dependencies) memo.verified_at with ⟨db₂, r₂⟩
        obtain ⟨wmono, wvpres, wok⟩ :=
          anyDepChangedSince_V g hg hmono hvpres (ρ memo.dependencies)
            memo.verified_at
            (logEvent (logEvent db (.readMemo (some memo)))
              (.startedInputChecks memo.verified_at))
        rw [hw] at wmono wvpres wok
        dsimp only at wmono wvpres wok
        obtain ⟨⟨wc1, wc2, wc3⟩, -, -⟩ :=
          anyDepChangedSince_good g hg (ρ memo.dependencies) memo.verified_at
            (logEvent (logEvent db (.readMemo (some memo)))
              (.startedInputChecks memo.verified_at))
        rw [hw] at wc1 wc2 wc3
        dsimp only at wc1 wc2 wc3
        simp only [logEvent_revision, logEvent_input_ids] at wc1 wc2
        cases r₂ with
        | ok anyChanged =>
          cases anyChanged with
          | true =>
            obtain ⟨rmono, rvpres⟩ := read_recompute_V g hg hmono hvpres
              (logEvent db₂ (.completedInputChecks true)) slot (some memo)
              (by simpa [wc2] using hin)
            refine ⟨fun q h => rmono q (FreshAt_transport
                (wmono q (FreshAt_transport h (by simp) (by simp)))
                (by simp) (by simp)),
              fun h1 h2 hh => ?_⟩
            refine rvpres
              (Vinv_transport (wvpres (Vinv_transport h1 (by simp) (by simp))
                (I2inv_transport h2 (by simp) (by simp))).1 (by simp) (by simp))
              (I2inv_transport (wvpres (Vinv_transport h1 (by simp) (by simp))
                (I2inv_transport h2 (by simp) (by simp))).2 (by simp) (by simp))
              ?_
            exact HeadFresh_transport
              ((wok db₂ true rfl).1
                (HeadFresh_transport hh (by simp) (by simp) (by simp)))
              (by simp) (by simp) (by simp)
          | false =>
            refine ⟨fun q h => ?_, fun h1 h2 hh => ?_⟩
            · exact FreshAt_store rfl
                (FreshAt_transport
                  (wmono q (FreshAt_transport h (by simp) (by simp))) rfl rfl)
            · have hWV := wvpres (Vinv_transport h1 (by simp) (by simp))
                (I2inv_transport h2 (by simp) (by simp))
              have hfresh : ∀ D ∈ memo.dependencies, FreshAt db₂ D :=
                fun D hD => (wok db₂ false rfl).2 rfl D (hρ _ D hD)
              refine ⟨Vinv_store (Vinv_transport hWV.1 rfl rfl) rfl
                  (fun D hD => FreshAt_transport (hfresh D hD) rfl rfl),
                I2inv_store (I2inv_transport hWV.2 (by simp) (by simp))
                  (fun hcontra => ?_)⟩
              simp only [logEvent_input_ids, wc2] at hcontra
              exact absurd hcontra hin
        | panic =>
          exact ⟨fun q h => wmono q (FreshAt_transport h (by simp) (by simp)),
            fun h1 h2 _ => wvpres (Vinv_transport h1 (by simp) (by simp))
              (I2inv_transport h2 (by simp) (by simp))⟩
        | timeout =>
          exact ⟨fun q h => wmono q (FreshAt_transport h (by simp) (by simp)),
            fun h1 h2 _ => wvpres (Vinv_transport h1 (by simp) (by simp))
              (I2inv_transport h2 (by simp) (by simp))⟩

/-- Every fuel level of `get_with_timestamp` preserves slot freshness and the
two freshness invariants, for a walk order that visits every stored
dependency. -/
theorem get_with_timestamp_V (ρ : List Slot → List Slot)
    (hρ : ∀ l : List Slot, ∀ x ∈ l, x ∈ ρ l) : ∀ fuel,
    (∀ db s q, FreshAt db q →
      FreshAt (get_with_timestamp ρ fuel db s).1 q) ∧
    (∀ db s, Vinv db → I2inv db →
      Vinv (get_with_timestamp ρ fuel db s).1 ∧
      I2inv (get_with_timestamp ρ fuel db s).1) := by
  intro fuel
  induction fuel with
  | zero =>
    exact ⟨fun db s q h => h, fun db s h1 h2 => ⟨h1, h2⟩⟩
  | succ n ih =>
    have hbody : ∀ db slot, get_with_timestamp ρ (n + 1) db slot =
        match read ρ (get_with_timestamp ρ n)
            ((recordDependency (logEvent db (.get slot))
              slot).push_active_query) slot with
        | (db₅, .ok result) => ((db₅.pop_active_query).1, .ok result)
        | (db₅, .panic) => (db₅, .panic)
        | (db₅, .timeout) => (db₅, .timeout) := fun db slot => rfl
    have hgood := get_with_timestamp_good ρ n
    constructor
    · intro db s q h
      rw [hbody]
      rcases hread : read ρ (get_with_timestamp ρ n)
          ((recordDependency (logEvent db (.get s)) s).push_active_query) s
          with ⟨db₅, r₅⟩
      obtain ⟨rmono, -⟩ := read_V ρ hρ (get_with_timestamp ρ n) hgood ih.1 ih.2
        ((recordDependency (logEvent db (.get s)) s).push_active_query) s
      rw [hread] at rmono
      dsimp only at rmono
      have h₅ : FreshAt db₅ q := rmono q (FreshAt_transport h (by simp) (by simp))
      cases r₅ with
      | ok sv => exact FreshAt_transport h₅ (by simp) (by simp)
      | panic => exact h₅
      | timeout => exact h₅
    · intro db s h1 h2
      rw [hbody]
      rcases hread : read ρ (get_with_timestamp ρ n)
          ((recordDependency (logEvent db (.get s)) s).push_active_query) s
          with ⟨db₅, r₅⟩
      obtain ⟨-, rvpres⟩ := read_V ρ hρ (get_with_timestamp ρ n) hgood ih.1 ih.2
        ((recordDependency (logEvent db (.get s)) s).push_active_query) s
      rw [hread] at rvpres
      dsimp only at rvpres
      have h₅ := rvpres (Vinv_transport h1 (by simp) (by simp))
        (I2inv_transport h2 (by simp) (by simp))
        (fun t rest ht D hD => by
          simp only [push_active_query_active_queries] at ht
          injection ht with ht1 _
          rw [← ht1] at hD
          exact absurd hD (List.not_mem_nil D))
      cases r₅ with
      | ok sv =>
        exact ⟨Vinv_transport h₅.1 (by simp) (by simp),
          I2inv_transport h₅.2 (by simp) (by simp)⟩
      | panic => exact h₅
      | timeout => exact h₅

/-- Database states reachable by construction followed by any sequence of
successful `set` and `get` operations, where every `get`'s dependency-walk
order enumerates exactly the elements of the stored dependency set (as the
source's `HashSet` iteration does). -/
inductive ReachableP : Database → Prop where
  | new : ∀ (input_ids : List QueryId)
      (query_functions : List (QueryId × (Key → QueryComp))),
      ReachableP (Database.new input_ids query_functions)
  | set : ∀ (db : Database) (id : QueryId) (k : Key) (v : Value)
      (db' : Database), ReachableP db → db.set id k v = (db', .ok ()) →
      ReachableP db'
  | get : ∀ (ρ : List Slot → List Slot),
      (∀ (l : List Slot) (x : Slot), x ∈ ρ l ↔ x ∈ l) →
      ∀ (fuel : Nat) (db : Database) (slot : Slot) (db' : Database)
        (r : StampedValue), ReachableP db →
      get_with_timestamp ρ fuel db slot = (db', .ok r) → ReachableP db'

theorem ReachableP.toReachable : ∀ db, ReachableP db → Reachable db := by
  intro db h
  induction h with
  | new ids qfs => exact Reachable.new ids qfs
  | set db id k v db' hr hset ih => exact Reachable.set db id k v db' ih hset
  | get ρ hρ fuel db slot db' r hr hok ih =>
    exact Reachable.get ρ fuel db slot db' r ih hok

/-- The freshness invariants hold in every state reachable with faithful walk
orders. -/
theorem reachableP_fresh_invariants :
    ∀ db, ReachableP db → Vinv db ∧ I2inv db := by
  intro db h
  induction h with
  | new ids qfs =>
    constructor
    · intro q m hm
      simp [Database.new, lookupMemo] at hm
    · intro q m hm
      simp [Database.new, lookupMemo] at hm
  | set db id k v db' hrch hset ih =>
    have hin : id ∈ db.input_ids := by
      by_contra hno
      rw [set_not_input db id k v hno] at hset
      exact absurd (congrArg Prod.snd hset) (by simp)
    have hInv : Inv db := reachable_inv db (ReachableP.toReachable db hrch)
    rw [set_eq db id k v hin] at hset
    injection hset with h1 h2
    subst h1
    constructor
    · intro q mq hmq hv D hD
      dsimp only at hmq hv ⊢
      by_cases he : (⟨id, k⟩ : Slot) = q
      · subst he
        rw [lookupMemo_insertMemo_self] at hmq
        cases hmq
        simp only [setMemo] at hD
        exact absurd hD (List.not_mem_nil D)
      · rw [lookupMemo_insertMemo_ne _ _ _ _ he] at hmq
        have := (hInv q mq hmq).2
        omega
    · intro q mq hmq hq
      dsimp only at hmq hq
      by_cases he : (⟨id, k⟩ : Slot) = q
      · subst he
        rw [lookupMemo_insertMemo_self] at hmq
        cases hmq
        simp [setMemo]
      · rw [lookupMemo_insertMemo_ne _ _ _ _ he] at hmq
        exact ih.2 q mq hmq hq
  | get ρ hρ fuel db slot db' r hrch hok ih =>
    have hV := (get_with_timestamp_V ρ (fun l x hx => (hρ l x).mpr hx) fuel).2
      db slot ih.1 ih.2
    rw [hok] at hV
    exact hV

/-! ## The no-op-set simulation

To settle the no-op-set claim, a run of the engine in the state `t` produced
by a value-preserving `set` of the input slot `slot₀` is simulated against a
run in the base state `s` (at revision `r = s.revision`,
`t.revision = r + 1`).  `SimRel` relates the two states as the simulation
proceeds; the key point is that every memo pair holds equal values, so the
output-level early cutoff makes every `changed_at` comparison come out the
same on both sides. -/

/-- Per-slot relation between the memo stores of `s` and `t`: untouched, the
re-set input slot itself, or a pair the simulated run has refreshed in
lockstep (equal values; `changed_at` equal or bumped `r ↦ r + 1` on both
sides at once). -/
def SlotRel (r : Nat) (slot₀ q : Slot) (m m' : Memo) : Prop :=
  m' = m ∨
  (q = slot₀ ∧ m'.value = m.value ∧ m'.changed_at = m.changed_at ∧
    m'.verified_at = r + 1 ∧ m'.dependencies = []) ∨
  (m'.value = m.value ∧ m.verified_at = r ∧ m'.verified_at = r + 1 ∧
    (m'.changed_at = m.changed_at ∨
      (m.changed_at = r ∧ m'.changed_at = r + 1)))

/-- Slot `D` is a dependency the two runs agree on: fresh on the `s` side,
`t`-side memo with the same value and `changed_at` (identical, or already
re-verified at `r + 1`). -/
def DepOK (r : Nat) (s t : Database) (D : Slot) : Prop :=
  ∃ mD m'D, lookupMemo s.storage D = some mD ∧
    lookupMemo t.storage D = some m'D ∧ mD.verified_at = r ∧
    m'D.value = mD.value ∧ m'D.changed_at = mD.changed_at ∧
    (m'D = mD ∨ m'D.verified_at = r + 1)

/-- No step of the simulation creates new identical fresh pairs: a slot
holding the same memo, verified at `r`, on both sides of `(s', t')` already
held it in `(s, t)`. -/
def PairPres (r : Nat) (s t s' t' : Database) : Prop :=
  ∀ p mp, lookupMemo s'.storage p = some mp →
    lookupMemo t'.storage p = some mp → mp.verified_at = r →
    lookupMemo s.storage p = some mp ∧ lookupMemo t.storage p = some mp

/-- The simulation relation between the base state `s` and the no-op-set
state `t`. -/
structure SimRel (r : Nat) (slot₀ : Slot) (s t : Database) : Prop where
  srev : s.revision = r
  trev : t.revision = r + 1
  ids : t.input_ids = s.input_ids
  qfs : t.query_functions = s.query_functions
  s0in : slot₀.id ∈ s.input_ids
  s0rel : ∀ m', lookupMemo t.storage slot₀ = some m' →
    m'.verified_at = r + 1
  dom : ∀ p, lookupMemo s.storage p = none ↔ lookupMemo t.storage p = none
  rel : ∀ p m m', lookupMemo s.storage p = some m →
    lookupMemo t.storage p = some m' → SlotRel r slot₀ p m m'
  sinv : ∀ p m, lookupMemo s.storage p = some m →
    m.changed_at ≤ m.verified_at ∧ m.verified_at ≤ r
  sI2 : ∀ p m, lookupMemo s.storage p = some m → p.id ∈ s.input_ids →
    m.dependencies = []
  vplus : ∀ p m, lookupMemo s.storage p = some m →
    lookupMemo t.storage p = some m → m.verified_at = r →
    ∀ D ∈ m.dependencies, DepOK r s t D

theorem PairPres_refl (r : Nat) (s t : Database) : PairPres r s t s t :=
  fun _ _ h1 h2 _ => ⟨h1, h2⟩

theorem PairPres_trans {r : Nat} {s t s₁ t₁ s₂ t₂ : Database}
    (h1 : PairPres r s t s₁ t₁) (h2 : PairPres r s₁ t₁ s₂ t₂) :
    PairPres r s t s₂ t₂ := fun p mp a b c =>
  h1 p mp (h2 p mp a b c).1 (h2 p mp a b c).2 c

theorem PairPres_congr {r : Nat} {s t s₁ t₁ s₂ t₂ : Database}
    (h : PairPres r s t s₁ t₁) (hs : s₂.storage = s₁.storage)
    (ht : t₂.storage = t₁.storage) : PairPres r s t s₂ t₂ := by
  intro p mp a b c
  rw [hs] at a
  rw [ht] at b
  exact h p mp a b c

theorem DepOK_transport {r : Nat} {s t s' t' : Database} {E : Slot}
    (h : DepOK r s t E) (hs : s'.storage = s.storage)
    (ht : t'.storage = t.storage) : DepOK r s' t' E := by
  obtain ⟨mD, m'D, h1, h2, h3, h4, h5, h6⟩ := h
  exact ⟨mD, m'D, by rw [hs]; exact h1, by rw [ht]; exact h2, h3, h4, h5, h6⟩

theorem SimRel_transport {r : Nat} {slot₀ : Slot} {s t s' t' : Database}
    (h : SimRel r slot₀ s t)
    (hs1 : s'.revision = s.revision) (hs2 : s'.input_ids = s.input_ids)
    (hs3 : s'.query_functions = s.query_functions)
    (hs4 : s'.storage = s.storage)
    (ht1 : t'.revision = t.revision) (ht2 : t'.input_ids = t.input_ids)
    (ht3 : t'.query_functions = t.query_functions)
    (ht4 : t'.storage = t.storage) : SimRel r slot₀ s' t' := by
  refine ⟨by rw [hs1]; exact h.srev, by rw [ht1]; exact h.trev,
    by rw [ht2, hs2]; exact h.ids, by rw [ht3, hs3]; exact h.qfs,
    by rw [hs2]; exact h.s0in, ?_, ?_, ?_, ?_, ?_, ?_⟩
  · intro m' hm'
    rw [ht4] at hm'
    exact h.s0rel m' hm'
  · intro p
    rw [hs4, ht4]
    exact h.dom p
  · intro p m m' h1 h2
    rw [hs4] at h1
    rw [ht4] at h2
    exact h.rel p m m' h1 h2
  · intro p m h1
    rw [hs4] at h1
    exact h.sinv p m h1
  · intro p m h1 h2
    rw [hs4] at h1
    rw [hs2] at h2
    exact h.sI2 p m h1 h2
  · intro p m h1 h2 h3 D hD
    rw [hs4] at h1
    rw [ht4] at h2
    exact DepOK_transport (h.vplus p m h1 h2 h3 D hD) hs4 ht4

/-- Transition T1: the `t`-side run re-verifies an `s`-fresh memo in place
(`verified_at := r + 1`), leaving `s` untouched. -/
theorem SimRel_t_refresh {r : Nat} {slot₀ : Slot} {s t : Database}
    (h : SimRel r slot₀ s t) (q : Slot) (m : Memo)
    (hsq : lookupMemo s.storage q = some m) (hvr : m.verified_at = r)
    (t' : Database) (ht1 : t'.revision = t.revision)
    (ht2 : t'.input_ids = t.input_ids)
    (ht3 : t'.query_functions = t.query_functions)
    (ht4 : t'.storage = insertMemo t.storage q { m with verified_at := r + 1 }) :
    SimRel r slot₀ s t' ∧ (∀ E, DepOK r s t E → DepOK r s t' E) ∧
      PairPres r s t s t' := by
  have hlq : lookupMemo t'.storage q = some { m with verified_at := r + 1 } := by
    rw [ht4]
    exact lookupMemo_insertMemo_self _ _ _
  have hlook : ∀ p, p ≠ q →
      lookupMemo t'.storage p = lookupMemo t.storage p := by
    intro p hp
    rw [ht4]
    exact lookupMemo_insertMemo_ne _ _ _ _ (fun he => hp he.symm)
  have hpres : ∀ E, DepOK r s t E → DepOK r s t' E := by
    intro E hE
    obtain ⟨mD, m'D, hsd, htd, hvd, hval, hchg, hor⟩ := hE
    by_cases hp : E = q
    · subst hp
      rw [hsq] at hsd
      injection hsd with h'
      subst h'
      exact ⟨m, { m with verified_at := r + 1 }, hsq, hlq, hvd, rfl, rfl,
        Or.inr rfl⟩
    · exact ⟨mD, m'D, hsd, by rw [hlook E hp]; exact htd, hvd, hval, hchg, hor⟩
  refine ⟨⟨h.srev, by rw [ht1]; exact h.trev, by rw [ht2]; exact h.ids,
      by rw [ht3]; exact h.qfs, h.s0in, ?_, ?_, ?_, h.sinv, h.sI2, ?_⟩,
    hpres, ?_⟩
  · intro m'' hm''
    by_cases hq0 : slot₀ = q
    · subst hq0
      rw [hlq] at hm''
      injection hm'' with h'
      rw [← h']
    · rw [hlook slot₀ hq0] at hm''
      exact h.s0rel m'' hm''
  · intro p
    by_cases hp : p = q
    · subst hp
      simp [hlq, hsq]
    · rw [hlook p hp]
      exact h.dom p
  · intro p mm mm' hps hpt
    by_cases hp : p = q
    · subst hp
      rw [hlq] at hpt
      injection hpt with h'
      rw [hsq] at hps
      injection hps with h''
      subst h''
      rw [← h']
      exact Or.inr (Or.inr ⟨rfl, hvr, rfl, Or.inl rfl⟩)
    · rw [hlook p hp] at hpt
      exact h.rel p mm mm' hps hpt
  · intro p mm hps hpt hfresh D hD
    by_cases hp : p = q
    · subst hp
      rw [hlq] at hpt
      injection hpt with h'
      rw [hsq] at hps
      injection hps with h''
      exfalso
      have := congrArg Memo.verified_at (h''.trans h'.symm)
      simp only at this
      rw [hvr] at this
      omega
    · rw [hlook p hp] at hpt
      exact hpres D (h.vplus p mm hps hpt hfresh D hD)
  · intro p mp hps hpt hfresh
    by_cases hp : p = q
    · subst hp
      rw [hlq] at hpt
      injection hpt with h'
      exfalso
      rw [← h'] at hfresh
      simp only at hfresh
      omega
    · exact ⟨hps, by rw [← hlook p hp]; exact hpt⟩

/-- Transition T2: the `s`-side run lazily refreshes the stale input memo at
`slot₀` (`verified_at := r`), leaving `t` untouched. -/
theorem SimRel_s_refresh {r : Nat} {slot₀ : Slot} {s t : Database}
    (h : SimRel r slot₀ s t) (m : Memo)
    (hs0 : lookupMemo s.storage slot₀ = some m) (hstale : m.verified_at ≠ r)
    (s' : Database) (hs1 : s'.revision = s.revision)
    (hs2 : s'.input_ids = s.input_ids)
    (hs3 : s'.query_functions = s.query_functions)
    (hs4 : s'.storage = insertMemo s.storage slot₀ { m with verified_at := r }) :
    SimRel r slot₀ s' t ∧ PairPres r s t s' t := by
  have hlq : lookupMemo s'.storage slot₀ = some { m with verified_at := r } := by
    rw [hs4]
    exact lookupMemo_insertMemo_self _ _ _
  have hlook : ∀ p, p ≠ slot₀ →
      lookupMemo s'.storage p = lookupMemo s.storage p := by
    intro p hp
    rw [hs4]
    exact lookupMemo_insertMemo_ne _ _ _ _ (fun he => hp he.symm)
  have hpres : ∀ E, DepOK r s t E → DepOK r s' t E := by
    intro E hE
    obtain ⟨mD, m'D, hsd, htd, hvd, hval, hchg, hor⟩ := hE
    by_cases hp : E = slot₀
    · subst hp
      rw [hs0] at hsd
      injection hsd with h'
      subst h'
      exact absurd hvd hstale
    · exact ⟨mD, m'D, by rw [hlook E hp]; exact hsd, htd, hvd, hval, hchg, hor⟩
  refine ⟨⟨by rw [hs1]; exact h.srev, h.trev, by rw [hs2]; exact h.ids,
      by rw [hs3]; exact h.qfs, by rw [hs2]; exact h.s0in, h.s0rel, ?_, ?_,
      ?_, ?_, ?_⟩, ?_⟩
  · intro p
    by_cases hp : p = slot₀
    · subst hp
      constructor
      · intro hc
        rw [hlq] at hc
        cases hc
      · intro hc
        have := (h.dom p).mpr hc
        rw [hs0] at this
        cases this
    · rw [hlook p hp]
      exact h.dom p
  · intro p mm mm' hps hpt
    by_cases hp : p = slot₀
    · subst hp
      rw [hlq] at hps
      injection hps with h'
      subst h'
      rcases h.rel p m mm' hs0 hpt with hU | hF0 | hF
      · exfalso
        have h1 := h.s0rel mm' hpt
        rw [hU] at h1
        have h2 := (h.sinv p m hs0).2
        omega
      · obtain ⟨-, hval, hchg, hver, hdeps⟩ := hF0
        exact Or.inr (Or.inl ⟨rfl, hval, hchg, hver, hdeps⟩)
      · exact absurd hF.2.1 hstale
    · rw [hlook p hp] at hps
      exact h.rel p mm mm' hps hpt
  · intro p mm hps
    by_cases hp : p = slot₀
    · subst hp
      rw [hlq] at hps
      injection hps with h'
      subst h'
      have := h.sinv p m hs0
      simp only
      omega
    · rw [hlook p hp] at hps
      exact h.sinv p mm hps
  · intro p mm hps hpid
    by_cases hp : p = slot₀
    · subst hp
      rw [hlq] at hps
      injection hps with h'
      subst h'
      simp only
      exact h.sI2 p m hs0 (by rw [hs2] at hpid; exact hpid)
    · rw [hlook p hp] at hps
      rw [hs2] at hpid
      exact h.sI2 p mm hps hpid
  · intro p mm hps hpt hfresh D hD
    by_cases hp : p = slot₀
    · subst hp
      rw [hlq] at hps
      injection hps with h'
      exfalso
      have h1 := h.s0rel mm hpt
      rw [← h'] at h1
      simp only at h1
      omega
    · rw [hlook p hp] at hps
      exact hpres D (h.vplus p mm hps hpt hfresh D hD)
  · intro p mp hps hpt hfresh
    by_cases hp : p = slot₀
    · subst hp
      rw [hlq] at hps
      injection hps with h'
      exfalso
      have h1 := h.s0rel mp hpt
      rw [← h'] at h1
      simp only at h1
      omega
    · exact ⟨by rw [← hlook p hp]; exact hps, hpt⟩


/-- Transition T3: both runs re-verify a shared stale memo in place
(`verified_at := r` on the `s` side, `r + 1` on the `t` side). -/
theorem SimRel_lockstep_refresh {r : Nat} {slot₀ : Slot} {s t : Database}
    (h : SimRel r slot₀ s t) (q : Slot) (m : Memo)
    (hmc : m.changed_at ≤ r)
    (hdeps0 : q.id ∈ s.input_ids → m.dependencies = [])
    (s' t' : Database) (hs1 : s'.revision = s.revision)
    (hs2 : s'.input_ids = s.input_ids)
    (hs3 : s'.query_functions = s.query_functions)
    (hs4 : s'.storage = insertMemo s.storage q { m with verified_at := r })
    (ht1 : t'.revision = t.revision) (ht2 : t'.input_ids = t.input_ids)
    (ht3 : t'.query_functions = t.query_functions)
    (ht4 : t'.storage = insertMemo t.storage q { m with verified_at := r + 1 }) :
    SimRel r slot₀ s' t' ∧ PairPres r s t s' t' := by
  have hlqs : lookupMemo s'.storage q = some { m with verified_at := r } := by
    rw [hs4]
    exact lookupMemo_insertMemo_self _ _ _
  have hlqt : lookupMemo t'.storage q = some { m with verified_at := r + 1 } := by
    rw [ht4]
    exact lookupMemo_insertMemo_self _ _ _
  have hlooks : ∀ p, p ≠ q →
      lookupMemo s'.storage p = lookupMemo s.storage p := by
    intro p hp
    rw [hs4]
    exact lookupMemo_insertMemo_ne _ _ _ _ (fun he => hp he.symm)
  have hlookt : ∀ p, p ≠ q →
      lookupMemo t'.storage p = lookupMemo t.storage p := by
    intro p hp
    rw [ht4]
    exact lookupMemo_insertMemo_ne _ _ _ _ (fun he => hp he.symm)
  have hpres : ∀ E, DepOK r s t E → DepOK r s' t' E := by
    intro E hE
    obtain ⟨mD, m'D, hsd, htd, hvd, hval, hchg, hor⟩ := hE
    by_cases hp : E = q
    · subst hp
      exact ⟨{ m with verified_at := r }, { m with verified_at := r + 1 },
        hlqs, hlqt, rfl, rfl, rfl, Or.inr rfl⟩
    · exact ⟨mD, m'D, by rw [hlooks E hp]; exact hsd,
        by rw [hlookt E hp]; exact htd, hvd, hval, hchg, hor⟩
  refine ⟨⟨by rw [hs1]; exact h.srev, by rw [ht1]; exact h.trev,
      by rw [ht2, hs2]; exact h.ids, by rw [ht3, hs3]; exact h.qfs,
      by rw [hs2]; exact h.s0in, ?_, ?_, ?_, ?_, ?_, ?_⟩, ?_⟩
  · intro m'' hm''
    by_cases hq0 : slot₀ = q
    · subst hq0
      rw [hlqt] at hm''
      injection hm'' with h'
      rw [← h']
    · rw [hlookt slot₀ hq0] at hm''
      exact h.s0rel m'' hm''
  · intro p
    by_cases hp : p = q
    · subst hp
      rw [hlqs, hlqt]
      constructor
      · intro hc
        cases hc
      · intro hc
        cases hc
    · rw [hlooks p hp, hlookt p hp]
      exact h.dom p
  · intro p mm mm' hps hpt
    by_cases hp : p = q
    · subst hp
      rw [hlqs] at hps
      rw [hlqt] at hpt
      injection hps with h1
      injection hpt with h2
      rw [← h1, ← h2]
      exact Or.inr (Or.inr ⟨rfl, rfl, rfl, Or.inl rfl⟩)
    · rw [hlooks p hp] at hps
      rw [hlookt p hp] at hpt
      exact h.rel p mm mm' hps hpt
  · intro p mm hps
    by_cases hp : p = q
    · subst hp
      rw [hlqs] at hps
      injection hps with h1
      rw [← h1]
      simp only
      omega
    · rw [hlooks p hp] at hps
      exact h.sinv p mm hps
  · intro p mm hps hpid
    by_cases hp : p = q
    · subst hp
      rw [hlqs] at hps
      injection hps with h1
      rw [← h1]
      simp only
      exact hdeps0 (by rw [hs2] at hpid; exact hpid)
    · rw [hlooks p hp] at hps
      rw [hs2] at hpid
      exact h.sI2 p mm hps hpid
  · intro p mm hps hpt hfresh D hD
    by_cases hp : p = q
    · subst hp
      rw [hlqs] at hps
      rw [hlqt] at hpt
      injection hps with h1
      injection hpt with h2
      exfalso
      have := congrArg Memo.verified_at (h1.trans h2.symm)
      simp only at this
      omega
    · rw [hlooks p hp] at hps
      rw [hlookt p hp] at hpt
      exact hpres D (h.vplus p mm hps hpt hfresh D hD)
  · intro p mp hps hpt hfresh
    by_cases hp : p = q
    · subst hp
      rw [hlqs] at hps
      rw [hlqt] at hpt
      injection hps with h1
      injection hpt with h2
      exfalso
      have := congrArg Memo.verified_at (h1.trans h2.symm)
      simp only at this
      omega
    · exact ⟨by rw [← hlooks p hp]; exact hps, by rw [← hlookt p hp]; exact hpt⟩

/-- Transition T4: both runs recompute a slot and store the same value, with
`changed_at` either retained on both sides or bumped (`r`, `r + 1`) on both
sides.  The slot must not be a dependency of any identical fresh pair. -/
theorem SimRel_lockstep_store {r : Nat} {slot₀ : Slot} {s t : Database}
    (h : SimRel r slot₀ s t) (q : Slot)
    (hqdep : ∀ p mp, lookupMemo s.storage p = some mp →
      lookupMemo t.storage p = some mp → mp.verified_at = r →
      q ∉ mp.dependencies)
    (hnotin : q.id ∉ s.input_ids)
    (v : Value) (cs ct : Nat)
    (hc : (ct = cs ∧ cs ≤ r) ∨ (cs = r ∧ ct = r + 1))
    (ds dt : List Slot)
    (s' t' : Database) (hs1 : s'.revision = s.revision)
    (hs2 : s'.input_ids = s.input_ids)
    (hs3 : s'.query_functions = s.query_functions)
    (hs4 : s'.storage = insertMemo s.storage q ⟨v, r, cs, ds⟩)
    (ht1 : t'.revision = t.revision) (ht2 : t'.input_ids = t.input_ids)
    (ht3 : t'.query_functions = t.query_functions)
    (ht4 : t'.storage = insertMemo t.storage q ⟨v, r + 1, ct, dt⟩) :
    SimRel r slot₀ s' t' ∧ PairPres r s t s' t' := by
  have hlqs : lookupMemo s'.storage q = some ⟨v, r, cs, ds⟩ := by
    rw [hs4]
    exact lookupMemo_insertMemo_self _ _ _
  have hlqt : lookupMemo t'.storage q = some ⟨v, r + 1, ct, dt⟩ := by
    rw [ht4]
    exact lookupMemo_insertMemo_self _ _ _
  have hlooks : ∀ p, p ≠ q →
      lookupMemo s'.storage p = lookupMemo s.storage p := by
    intro p hp
    rw [hs4]
    exact lookupMemo_insertMemo_ne _ _ _ _ (fun he => hp he.symm)
  have hlookt : ∀ p, p ≠ q →
      lookupMemo t'.storage p = lookupMemo t.storage p := by
    intro p hp
    rw [ht4]
    exact lookupMemo_insertMemo_ne _ _ _ _ (fun he => hp he.symm)
  have hq0 : slot₀ ≠ q := by
    intro he
    rw [he] at h
    exact hnotin h.s0in
  refine ⟨⟨by rw [hs1]; exact h.srev, by rw [ht1]; exact h.trev,
      by rw [ht2, hs2]; exact h.ids, by rw [ht3, hs3]; exact h.qfs,
      by rw [hs2]; exact h.s0in, ?_, ?_, ?_, ?_, ?_, ?_⟩, ?_⟩
  · intro m'' hm''
    rw [hlookt slot₀ hq0] at hm''
    exact h.s0rel m'' hm''
  · intro p
    by_cases hp : p = q
    · subst hp
      rw [hlqs, hlqt]
      constructor
      · intro hc'
        cases hc'
      · intro hc'
        cases hc'
    · rw [hlooks p hp, hlookt p hp]
      exact h.dom p
  · intro p mm mm' hps hpt
    by_cases hp : p = q
    · subst hp
      rw [hlqs] at hps
      rw [hlqt] at hpt
      injection hps with h1
      injection hpt with h2
      rw [← h1, ← h2]
      refine Or.inr (Or.inr ⟨rfl, rfl, rfl, ?_⟩)
      rcases hc with ⟨hct, -⟩ | ⟨hcs, hct⟩
      · exact Or.inl (by simp only; omega)
      · exact Or.inr ⟨by simp only; omega, by simp only; omega⟩
    · rw [hlooks p hp] at hps
      rw [hlookt p hp] at hpt
      exact h.rel p mm mm' hps hpt
  · intro p mm hps
    by_cases hp : p = q
    · subst hp
      rw [hlqs] at hps
      injection hps with h1
      rw [← h1]
      simp only
      rcases hc with ⟨-, hcsr⟩ | ⟨hcs, -⟩ <;> omega
    · rw [hlooks p hp] at hps
      exact h.sinv p mm hps
  · intro p mm hps hpid
    by_cases hp : p = q
    · subst hp
      rw [hs2] at hpid
      exact absurd hpid hnotin
    · rw [hlooks p hp] at hps
      rw [hs2] at hpid
      exact h.sI2 p mm hps hpid
  · intro p mm hps hpt hfresh D hD
    by_cases hp : p = q
    · subst hp
      rw [hlqs] at hps
      rw [hlqt] at hpt
      injection hps with h1
      injection hpt with h2
      exfalso
      have := congrArg Memo.verified_at (h1.trans h2.symm)
      simp only at this
      omega
    · rw [hlooks p hp] at hps
      rw [hlookt p hp] at hpt
      have hDq : D ≠ q := by
        intro he
        rw [he] at hD
        exact hqdep p mm hps hpt hfresh hD
      obtain ⟨mD, m'D, hsd, htd, hvd, hval, hchg, hor⟩ :=
        h.vplus p mm hps hpt hfresh D hD
      exact ⟨mD, m'D, by rw [hlooks D hDq]; exact hsd,
        by rw [hlookt D hDq]; exact htd, hvd, hval, hchg, hor⟩
  · intro p mp hps hpt hfresh
    by_cases hp : p = q
    · subst hp
      rw [hlqs] at hps
      rw [hlqt] at hpt
      injection hps with h1
      injection hpt with h2
      exfalso
      have := congrArg Memo.verified_at (h1.trans h2.symm)
      simp only at this
      omega
    · exact ⟨by rw [← hlooks p hp]; exact hps, by rw [← hlookt p hp]; exact hpt⟩

/-- The lockstep property: whenever the `t`-side `get` (at the recursive
reference `gt`) succeeds, the `s`-side `get` (at the one-level-richer
reference `gs`) succeeds with the same value, a `changed_at` that is equal or
bumped `(r, r+1)` in lockstep, and related final states. -/
def LockstepGet (r : Nat) (slot₀ : Slot) (gs gt : GetFn) : Prop :=
  ∀ s t q t2 res', SimRel r slot₀ s t → gt t q = (t2, .ok res') →
    ∃ s2 res, gs s q = (s2, .ok res) ∧ SimRel r slot₀ s2 t2 ∧
      res.value = res'.value ∧
      (res'.changed_at = res.changed_at ∨
        (res.changed_at = r ∧ res'.changed_at = r + 1)) ∧
      PairPres r s t s2 t2

/-- The fresh-walk property: a `t`-side `get` of a slot whose memo is
identical on both sides and `s`-fresh succeeds by pure re-verification: it
returns the memoized value and timestamp and leaves `s` related to the new
`t` state, preserving all dependency agreements. -/
def FreshGet (r : Nat) (slot₀ : Slot) (gt : GetFn) : Prop :=
  ∀ s t q m t2 res', SimRel r slot₀ s t →
    lookupMemo s.storage q = some m → lookupMemo t.storage q = some m →
    m.verified_at = r → gt t q = (t2, .ok res') →
    SimRel r slot₀ s t2 ∧ res'.value = m.value ∧
    res'.changed_at = m.changed_at ∧
    (∀ E, DepOK r s t E → DepOK r s t2 E) ∧ PairPres r s t s t2

/-- Specification of a `get` on an input slot holding a memo: it returns the
memoized value and `changed_at`, refreshing `verified_at` if stale. -/
def InputGet (gs : GetFn) : Prop :=
  ∀ db q m, q.id ∈ db.input_ids → lookupMemo db.storage q = some m →
    (gs db q).2 = .ok ⟨m.value, m.changed_at⟩ ∧
    (gs db q).1.revision = db.revision ∧
    (gs db q).1.input_ids = db.input_ids ∧
    (gs db q).1.query_functions = db.query_functions ∧
    (gs db q).1.storage =
      (if m.verified_at = db.revision then db.storage
       else insertMemo db.storage q { m with verified_at := db.revision })

theorem inputGet_gwt (ρ : List Slot → List Slot) (n : Nat) :
    InputGet (get_with_timestamp ρ (n + 1)) := by
  intro db q m hin hm
  by_cases hv : m.verified_at = db.revision
  · obtain ⟨h1, h2, h3, h4, h5, -, -⟩ := get_fresh ρ n db q m hm hv
    exact ⟨h1, h3, h4, h5, by rw [if_pos hv]; exact h2⟩
  · obtain ⟨h1, h2, h3, h4, h5, -⟩ := get_input_stale ρ n db q m hin hm hv
    exact ⟨h1, h3, h4, h5, by rw [if_neg hv]; exact h2⟩

/-- One step of the fresh walk: a `has_changed_since` check at revision `r`
on an agreed dependency returns `false`. -/
theorem hcsF_sim (r : Nat) (slot₀ : Slot) (gt : GetFn)
    (HB : FreshGet r slot₀ gt) (s t : Database) (D : Slot)
    (hR : SimRel r slot₀ s t) (hD : DepOK r s t D)
    (t2 : Database) (b : Bool)
    (hok : has_changed_since gt t D r = (t2, .ok b)) :
    b = false ∧ SimRel r slot₀ s t2 ∧
    (∀ E, DepOK r s t E → DepOK r s t2 E) ∧ PairPres r s t s t2 := by
  obtain ⟨mD, m'D, hsd, htd, hvd, hval, hchg, hor⟩ := hD
  have hle : mD.changed_at ≤ r := by
    have h1 := (hR.sinv D mD hsd).1
    omega
  unfold has_changed_since at hok
  rw [htd] at hok
  dsimp only at hok
  rcases hor with hEq | hver'
  · subst hEq
    have hne : ¬ (m'D.verified_at = t.revision) := by
      rw [hvd, hR.trev]
      omega
    rw [if_neg hne] at hok
    rcases hgt : gt t D with ⟨t₁, rr⟩
    rw [hgt] at hok
    cases rr with
    | ok sv =>
      obtain ⟨hRel₁, hsval, hschg, hpres, hpp⟩ :=
        HB s t D m'D t₁ sv hR hsd htd hvd hgt
      dsimp only at hok
      injection hok with hok1 hok2
      subst hok1
      injection hok2 with hok2
      refine ⟨?_, SimRel_transport hRel₁ rfl rfl rfl rfl rfl rfl rfl rfl,
        fun E hE => DepOK_transport (hpres E hE) rfl rfl,
        PairPres_congr hpp rfl rfl⟩
      rw [← hok2, hschg]
      simp only [decide_eq_false_iff_not]
      omega
    | panic => simp at hok
    | timeout => simp at hok
  · have ht2 : m'D.verified_at = t.revision := by rw [hver', hR.trev]
    rw [if_pos ht2] at hok
    injection hok with hok1 hok2
    subst hok1
    injection hok2 with hok2
    refine ⟨?_, SimRel_transport hR rfl rfl rfl rfl rfl rfl rfl rfl,
      fun E hE => DepOK_transport hE rfl rfl,
      PairPres_congr (PairPres_refl r s t) rfl rfl⟩
    rw [← hok2, hchg]
    simp only [decide_eq_false_iff_not]
    omega

/-- The fresh walk: checking a list of agreed dependencies at revision `r`
finds no changes. -/
theorem anyDepF_sim (r : Nat) (slot₀ : Slot) (gt : GetFn)
    (HB : FreshGet r slot₀ gt) (L : List Slot) :
    ∀ s t t2 b, SimRel r slot₀ s t → (∀ D ∈ L, DepOK r s t D) →
      anyDepChangedSince gt t L r = (t2, .ok b) →
      b = false ∧ SimRel r slot₀ s t2 ∧
      (∀ E, DepOK r s t E → DepOK r s t2 E) ∧ PairPres r s t s t2 := by
  induction L with
  | nil =>
    intro s t t2 b hR hD hok
    cases hok
    exact ⟨rfl, hR, fun E hE => hE, PairPres_refl r s t⟩
  | cons d rest ih =>
    intro s t t2 b hR hD hok
    unfold anyDepChangedSince at hok
    rcases hh : has_changed_since gt t d r with ⟨t₁, rr⟩
    rw [hh] at hok
    cases rr with
    | ok b₁ =>
      obtain ⟨hb₁, hR₁, hpres₁, hpp₁⟩ :=
        hcsF_sim r slot₀ gt HB s t d hR (hD d (by simp)) t₁ b₁ hh
      subst hb₁
      dsimp only at hok
      obtain ⟨hb, hR₂, hpres₂, hpp₂⟩ := ih s t₁ t2 b hR₁
        (fun D hDr => hpres₁ D (hD D (by simp [hDr]))) hok
      exact ⟨hb, hR₂, fun E hE => hpres₂ E (hpres₁ E hE),
        PairPres_trans hpp₁ hpp₂⟩
    | panic => simp at hok
    | timeout => simp at hok

/-- The fresh read: a `t`-side `read` of a slot holding an `s`-fresh memo
identical on both sides re-verifies it without recomputation. -/
theorem readF_sim (r : Nat) (slot₀ : Slot) (ρ : List Slot → List Slot)
    (hρsub : ∀ (l : List Slot) (x : Slot), x ∈ ρ l → x ∈ l)
    (gt : GetFn) (hggt : GoodGet gt) (HB : FreshGet r slot₀ gt)
    (s t : Database) (q : Slot) (m : Memo) (hR : SimRel r slot₀ s t)
    (hsq : lookupMemo s.storage q = some m)
    (htq : lookupMemo t.storage q = some m) (hfresh : m.verified_at = r)
    (t2 : Database) (res' : StampedValue)
    (hok : read ρ gt t q = (t2, .ok res')) :
    SimRel r slot₀ s t2 ∧ res'.value = m.value ∧
    res'.changed_at = m.changed_at ∧
    (∀ E, DepOK r s t E → DepOK r s t2 E) ∧ PairPres r s t s t2 := by
  by_cases hin : q.id ∈ t.input_ids
  · have hver : m.verified_at ≠ t.revision := by
      rw [hfresh, hR.trev]
      omega
    rw [read_input_stale ρ gt t q m hin htq hver] at hok
    injection hok with hok1 hok2
    subst hok1
    injection hok2 with hok2
    subst hok2
    obtain ⟨hS, hpres, hpp⟩ := SimRel_t_refresh hR q m hsq hfresh
      ((logEvent (logEvent t (.readMemo (some m)))
          .memoForInputQuery).store_memo q
        { m with verified_at := t.revision })
      (by simp) (by simp) (by simp) (by simp [hR.trev])
    exact ⟨hS, rfl, rfl, hpres, hpp⟩
  · unfold read at hok
    simp only [read_memo_eq] at hok
    simp only [Database.is_input_query, logEvent_input_ids, hin,
      decide_eq_true_eq, iff_true, iff_false, if_true, if_false, ite_true,
      ite_false, eq_self_iff_true, not_true, not_false_iff,
      decide_eq_false_iff_not] at hok
    rw [htq] at hok
    have hverne : ¬ (m.verified_at =
        (logEvent t (.readMemo (some m))).revision) := by
      simp only [logEvent_revision]
      rw [hfresh, hR.trev]
      omega
    dsimp only at hok
    rw [if_neg hverne] at hok
    rw [hfresh] at hok
    rcases hw : anyDepChangedSince gt
        (logEvent (logEvent t (.readMemo (some m))) (.startedInputChecks r))
        (ρ m.dependencies) r with ⟨t₃, rb⟩
    rw [hw] at hok
    cases rb with
    | ok b =>
      obtain ⟨hb, hS₃, hpres₃, hpp₃⟩ := anyDepF_sim r slot₀ gt HB
        (ρ m.dependencies) s _ t₃ b
        (SimRel_transport hR rfl rfl rfl rfl (by simp) (by simp) (by simp)
          (by simp))
        (fun D hD => DepOK_transport
          (hR.vplus q m hsq htq hfresh D (hρsub _ D hD)) rfl (by simp)) hw
      subst hb
      dsimp only at hok
      injection hok with hok1 hok2
      subst hok1
      injection hok2 with hok2
      subst hok2
      obtain ⟨⟨wc1, -, -⟩, -, -⟩ := anyDepChangedSince_good gt hggt
        (ρ m.dependencies) r
        (logEvent (logEvent t (.readMemo (some m))) (.startedInputChecks r))
      rw [hw] at wc1
      dsimp only at wc1
      simp only [logEvent_revision] at wc1
      have ht3rev : t₃.revision = r + 1 := by rw [wc1, hR.trev]
      obtain ⟨hS, hpres, hpp⟩ := SimRel_t_refresh hS₃ q m hsq hfresh
        ((logEvent t₃ (.completedInputChecks false)).store_memo q
          { m with verified_at := (logEvent t₃ (.completedInputChecks
              false)).revision })
        (by simp) (by simp) (by simp) (by simp [ht3rev])
      refine ⟨hS, rfl, rfl, ?_, ?_⟩
      · intro E hE
        exact hpres E (hpres₃ E (DepOK_transport hE rfl (by simp)))
      · exact PairPres_trans
          (PairPres_trans (PairPres_congr (PairPres_refl r s t) rfl (by simp))
            hpp₃)
          hpp
    | panic => simp at hok
    | timeout => simp at hok

/-- One step of the lockstep walk (walking a memo stale on both sides, so
`rev₀ < r`): the two `has_changed_since` checks return the same boolean. -/
theorem hcs_sim (r : Nat) (slot₀ : Slot) (gs gt : GetFn)
    (HA : LockstepGet r slot₀ gs gt) (HB : FreshGet r slot₀ gt)
    (HI : InputGet gs)
    (s t : Database) (D : Slot) (rev₀ : Nat) (hrev : rev₀ < r)
    (hR : SimRel r slot₀ s t) (t2 : Database) (b : Bool)
    (hok : has_changed_since gt t D rev₀ = (t2, .ok b)) :
    ∃ s2, has_changed_since gs s D rev₀ = (s2, .ok b) ∧
      SimRel r slot₀ s2 t2 ∧ PairPres r s t s2 t2 := by
  unfold has_changed_since at hok ⊢
  cases htD : lookupMemo t.storage D with
  | none =>
    rw [htD] at hok
    simp at hok
  | some m' =>
    rw [htD] at hok
    dsimp only at hok
    have hsDex : ¬ (lookupMemo s.storage D = none) := by
      intro hns
      rw [(hR.dom D).mp hns] at htD
      cases htD
    rcases hsD : lookupMemo s.storage D with _ | m
    · exact absurd hsD hsDex
    dsimp only
    rcases hR.rel D m m' hsD htD with rfl | hF0 | hF
    · -- untouched pair: `t` always recurses
      have hmle := (hR.sinv D m' hsD).2
      have hneT : ¬ (m'.verified_at = t.revision) := by
        rw [hR.trev]
        omega
      rw [if_neg hneT] at hok
      by_cases hmf : m'.verified_at = r
      · -- `s` trusts, `t` fresh-walks
        rw [if_pos (by rw [hR.srev]; exact hmf)]
        rcases hgt : gt t D with ⟨t₁, rr⟩
        rw [hgt] at hok
        cases rr with
        | ok sv =>
          obtain ⟨hRel₁, hsval, hschg, hpres, hpp⟩ :=
            HB s t D m' t₁ sv hR hsD htD hmf hgt
          dsimp only at hok
          injection hok with hok1 hok2
          subst hok1
          injection hok2 with hok2
          refine ⟨logEvent s (.changedAt D m'.changed_at), ?_,
            SimRel_transport hRel₁ rfl rfl rfl rfl rfl rfl rfl rfl,
            PairPres_congr hpp rfl rfl⟩
          rw [← hok2, hschg]
        | panic => simp at hok
        | timeout => simp at hok
      · -- both stale: lockstep recursion
        rw [if_neg (by rw [hR.srev]; exact hmf)]
        rcases hgt : gt t D with ⟨t₁, rr⟩
        rw [hgt] at hok
        cases rr with
        | ok sv' =>
          obtain ⟨s₁, sv, hgs, hRel₁, hval, hchg, hpp⟩ := HA s t D t₁ sv' hR hgt
          rw [hgs]
          dsimp only at hok ⊢
          injection hok with hok1 hok2
          subst hok1
          injection hok2 with hok2
          refine ⟨logEvent s₁ (.changedAt D sv.changed_at), ?_,
            SimRel_transport hRel₁ rfl rfl rfl rfl rfl rfl rfl rfl,
            PairPres_congr hpp rfl rfl⟩
          rw [← hok2]
          have hdec : decide (rev₀ < sv.changed_at) =
              decide (rev₀ < sv'.changed_at) := by
            rcases hchg with he | ⟨h1, h2⟩
            · rw [he]
            · rw [h1, h2]
              have e1 : decide (rev₀ < r) = true := by
                simp only [decide_eq_true_eq]
                omega
              have e2 : decide (rev₀ < r + 1) = true := by
                simp only [decide_eq_true_eq]
                omega
              rw [e1, e2]
          rw [hdec]
        | panic => simp at hok
        | timeout => simp at hok
    · -- the re-set input slot: `t` trusts
      obtain ⟨hD0, hval, hchg, hver', hdeps'⟩ := hF0
      rw [if_pos (by rw [hver', hR.trev])] at hok
      injection hok with hok1 hok2
      subst hok1
      injection hok2 with hok2
      by_cases hmf : m.verified_at = r
      · rw [if_pos (by rw [hR.srev]; exact hmf)]
        refine ⟨logEvent s (.changedAt D m.changed_at), ?_,
          SimRel_transport hR rfl rfl rfl rfl rfl rfl rfl rfl,
          PairPres_congr (PairPres_refl r s t) rfl rfl⟩
        rw [← hok2, hchg]
      · rw [if_neg (by rw [hR.srev]; exact hmf)]
        rcases hgsD : gs s D with ⟨s₁, rs⟩
        obtain ⟨hi1, hi2, hi3, hi4, hi5⟩ :=
          HI s D m (by rw [hD0]; exact hR.s0in) hsD
        rw [hgsD] at hi1 hi2 hi3 hi4 hi5
        dsimp only at hi1 hi2 hi3 hi4 hi5
        subst hi1
        dsimp only
        rw [if_neg (by rw [hR.srev]; exact hmf)] at hi5
        have hS' := SimRel_s_refresh hR m
          (by rw [← hD0]; exact hsD) hmf s₁ hi2 hi3 hi4
          (by rw [hi5, hR.srev, hD0])
        refine ⟨logEvent s₁ (.changedAt D m.changed_at), ?_,
          SimRel_transport hS'.1 rfl rfl rfl rfl rfl rfl rfl rfl,
          PairPres_congr hS'.2 rfl rfl⟩
        rw [← hok2, hchg]
    · -- both fresh on their own side: both trust
      obtain ⟨hval, hverm, hver', hchg⟩ := hF
      rw [if_pos (by rw [hver', hR.trev])] at hok
      injection hok with hok1 hok2
      subst hok1
      injection hok2 with hok2
      rw [if_pos (by rw [hR.srev]; exact hverm)]
      refine ⟨logEvent s (.changedAt D m.changed_at), ?_,
        SimRel_transport hR rfl rfl rfl rfl rfl rfl rfl rfl,
        PairPres_congr (PairPres_refl r s t) rfl rfl⟩
      rw [← hok2]
      have hdec : decide (rev₀ < m.changed_at) =
          decide (rev₀ < m'.changed_at) := by
        rcases hchg with he | ⟨h1, h2⟩
        · rw [he]
        · rw [h1, h2]
          have e1 : decide (rev₀ < r) = true := by
            simp only [decide_eq_true_eq]
            omega
          have e2 : decide (rev₀ < r + 1) = true := by
            simp only [decide_eq_true_eq]
            omega
          rw [e1, e2]
      rw [hdec]

theorem PairPres_base_congr {r : Nat} {s t s₀ t₀ s' t' : Database}
    (h : PairPres r s₀ t₀ s' t') (hs : s₀.storage = s.storage)
    (ht : t₀.storage = t.storage) : PairPres r s t s' t' := by
  intro p mp a b c
  obtain ⟨h1, h2⟩ := h p mp a b c
  rw [hs] at h1
  rw [ht] at h2
  exact ⟨h1, h2⟩

/-- The lockstep walk: both sides walk the same dependency list of a memo
stale on both sides and come to the same verdict. -/
theorem anyDep_sim (r : Nat) (slot₀ : Slot) (gs gt : GetFn)
    (HA : LockstepGet r slot₀ gs gt) (HB : FreshGet r slot₀ gt)
    (HI : InputGet gs) (rev₀ : Nat) (hrev : rev₀ < r) (deps : List Slot) :
    ∀ s t t2 b, SimRel r slot₀ s t →
      anyDepChangedSince gt t deps rev₀ = (t2, .ok b) →
      ∃ s2, anyDepChangedSince gs s deps rev₀ = (s2, .ok b) ∧
        SimRel r slot₀ s2 t2 ∧ PairPres r s t s2 t2 := by
  induction deps with
  | nil =>
    intro s t t2 b hR hok
    cases hok
    exact ⟨s, rfl, hR, PairPres_refl r s t⟩
  | cons d rest ih =>
    intro s t t2 b hR hok
    unfold anyDepChangedSince at hok ⊢
    rcases hh : has_changed_since gt t d rev₀ with ⟨t₁, rr⟩
    rw [hh] at hok
    cases rr with
    | ok b₁ =>
      obtain ⟨s₁, hgs, hR₁, hpp₁⟩ :=
        hcs_sim r slot₀ gs gt HA HB HI s t d rev₀ hrev hR t₁ b₁ hh
      rw [hgs]
      cases b₁ with
      | true =>
        dsimp only at hok ⊢
        injection hok with hok1 hok2
        subst hok1
        injection hok2 with hok2
        subst hok2
        exact ⟨s₁, rfl, hR₁, hpp₁⟩
      | false =>
        dsimp only at hok ⊢
        obtain ⟨s₂, hgs₂, hR₂, hpp₂⟩ := ih s₁ t₁ t2 b hR₁ hok
        exact ⟨s₂, hgs₂, hR₂, PairPres_trans hpp₁ hpp₂⟩
    | panic => simp at hok
    | timeout => simp at hok

/-- The lockstep query-function interpreter: nested `get` calls return equal
values through `LockstepGet`, so both sides follow the same path and produce
the same output value. -/
theorem runQC_sim (r : Nat) (slot₀ : Slot) (gs gt : GetFn)
    (HA : LockstepGet r slot₀ gs gt) (c : QueryComp) :
    ∀ s t t2 v, SimRel r slot₀ s t → runQueryComp gt t c = (t2, .ok v) →
      ∃ s2, runQueryComp gs s c = (s2, .ok v) ∧ SimRel r slot₀ s2 t2 ∧
        PairPres r s t s2 t2 := by
  induction c with
  | done v' =>
    intro s t t2 v hR hok
    cases hok
    exact ⟨s, rfl, hR, PairPres_refl r s t⟩
  | abort =>
    intro s t t2 v hR hok
    simp [runQueryComp] at hok
  | ask sl k ih =>
    intro s t t2 v hR hok
    unfold runQueryComp at hok ⊢
    rcases hgt : gt t sl with ⟨t₁, rr⟩
    rw [hgt] at hok
    cases rr with
    | ok sv' =>
      obtain ⟨s₁, sv, hgs, hR₁, hval, hchg, hpp₁⟩ := HA s t sl t₁ sv' hR hgt
      rw [hgs]
      dsimp only at hok ⊢
      rw [hval]
      obtain ⟨s₂, hgs₂, hR₂, hpp₂⟩ := ih sv'.value s₁ t₁ t2 v hR₁ hok
      exact ⟨s₂, hgs₂, hR₂, PairPres_trans hpp₁ hpp₂⟩
    | panic => simp at hok
    | timeout => simp at hok

/-- The lockstep `run_query_function`: the registries agree, so both sides
run the same query function. -/
theorem rqf_sim (r : Nat) (slot₀ : Slot) (gs gt : GetFn)
    (HA : LockstepGet r slot₀ gs gt)
    (s t : Database) (q : Slot) (hR : SimRel r slot₀ s t)
    (t2 : Database) (v : Value)
    (hok : run_query_function gt t q = (t2, .ok v)) :
    ∃ s2, run_query_function gs s q = (s2, .ok v) ∧ SimRel r slot₀ s2 t2 ∧
      PairPres r s t s2 t2 := by
  unfold run_query_function at hok ⊢
  dsimp only at hok ⊢
  simp only [logEvent_query_functions] at hok ⊢
  rw [hR.qfs] at hok
  cases hq : assocFind s.query_functions q.id with
  | none =>
    rw [hq] at hok
    simp at hok
  | some qf =>
    rw [hq] at hok
    dsimp only at hok
    rcases hrc : runQueryComp gt (logEvent t .startedQueryEvaluation)
        (qf q.key) with ⟨t₁, rr⟩
    rw [hrc] at hok
    have hR' : SimRel r slot₀ (logEvent s .startedQueryEvaluation)
        (logEvent t .startedQueryEvaluation) :=
      SimRel_transport hR rfl rfl rfl rfl rfl rfl rfl rfl
    cases rr with
    | ok v₁ =>
      obtain ⟨s₁, hgs, hR₁, hpp₁⟩ :=
        runQC_sim r slot₀ gs gt HA (qf q.key) _ _ t₁ v₁ hR' hrc
      dsimp only at hok ⊢
      rw [hgs]
      dsimp only
      injection hok with hok1 hok2
      subst hok1
      injection hok2 with hok2
      subst hok2
      exact ⟨logEvent s₁ .completedQueryEvaluation, rfl,
        SimRel_transport hR₁ rfl rfl rfl rfl rfl rfl rfl rfl,
        PairPres_base_congr (PairPres_congr hpp₁ rfl rfl) rfl rfl⟩
    | panic => simp at hok
    | timeout => simp at hok

/-- The lockstep recomputation: both sides run the query function to the
same value, so the output-level early cutoff computes `changed_at` the same
way (retained, or bumped to the respective current revision). -/
theorem recompute_sim (r : Nat) (slot₀ : Slot) (gs gt : GetFn)
    (HA : LockstepGet r slot₀ gs gt)
    (hggs : GoodGet gs) (hggt : GoodGet gt)
    (s t : Database) (q : Slot) (memo : Option Memo)
    (hR : SimRel r slot₀ s t)
    (hmc : ∀ m', memo = some m' → m'.changed_at ≤ r)
    (hnotin : q.id ∉ s.input_ids)
    (hsact : s.active_queries ≠ [])
    (hqdep : ∀ p mp, lookupMemo s.storage p = some mp →
      lookupMemo t.storage p = some mp → mp.verified_at = r →
      q ∉ mp.dependencies)
    (t2 : Database) (res' : StampedValue)
    (hok : read_recompute gt t q memo = (t2, .ok res')) :
    ∃ s2 res, read_recompute gs s q memo = (s2, .ok res) ∧
      SimRel r slot₀ s2 t2 ∧ res.value = res'.value ∧
      (res'.changed_at = res.changed_at ∨
        (res.changed_at = r ∧ res'.changed_at = r + 1)) ∧
      PairPres r s t s2 t2 := by
  unfold read_recompute at hok ⊢
  rcases hrqt : run_query_function gt t q with ⟨t₁, rr⟩
  rw [hrqt] at hok
  cases rr with
  | ok v =>
    obtain ⟨s₁, hgs, hR₁, hpp₁⟩ := rqf_sim r slot₀ gs gt HA s t q hR t₁ v hrqt
    rw [hgs]
    obtain ⟨⟨sc1, sc2, sc3⟩, -, sstack⟩ := run_query_function_good gs hggs s q
    rw [hgs] at sc1 sc2 sc3 sstack
    dsimp only at sc1 sc2 sc3 sstack
    obtain ⟨⟨tc1, -, -⟩, -, -⟩ := run_query_function_good gt hggt t q
    rw [hrqt] at tc1
    dsimp only at tc1
    have hs₁rev : s₁.revision = r := by rw [sc1, hR.srev]
    have ht₁rev : t₁.revision = r + 1 := by rw [tc1, hR.trev]
    have hs₁act : ∃ tops rests, s₁.active_queries = tops :: rests := by
      have htg := sstack s₁ v rfl
      cases hact : s.active_queries with
      | nil => exact absurd hact hsact
      | cons a as =>
        obtain ⟨t', ht', -⟩ := htg.2 a as hact
        exact ⟨t', as, ht'⟩
    obtain ⟨tops, rests, hact_s⟩ := hs₁act
    have hqdep₁ : ∀ p mp, lookupMemo s₁.storage p = some mp →
        lookupMemo t₁.storage p = some mp → mp.verified_at = r →
        q ∉ mp.dependencies := by
      intro p mp h1 h2 h3
      obtain ⟨h4, h5⟩ := hpp₁ p mp h1 h2 h3
      exact hqdep p mp h4 h5 h3
    have hnotin₁ : q.id ∉ s₁.input_ids := by rw [sc2]; exact hnotin
    rcases memo with _ | m
    · -- no previous memo: `changed_at` is the respective current revision
      dsimp only at hok ⊢
      rcases hact_t : t₁.active_queries with _ | ⟨topt, restt⟩
      · rw [hact_t] at hok
        simp at hok
      · rw [hact_t] at hok
        rw [hact_s]
        dsimp only at hok ⊢
        injection hok with hok1 hok2
        subst hok1
        injection hok2 with hok2
        subst hok2
        obtain ⟨hS, hpp⟩ := SimRel_lockstep_store hR₁ q hqdep₁ hnotin₁ v r
          (r + 1) (Or.inr ⟨rfl, rfl⟩) tops topt
          (s₁.store_memo q ⟨v, s₁.revision, s₁.revision, tops⟩)
          (t₁.store_memo q ⟨v, t₁.revision, t₁.revision, topt⟩)
          (by simp) (by simp) (by simp) (by simp [hs₁rev])
          (by simp) (by simp) (by simp) (by simp [ht₁rev])
        refine ⟨_, _, rfl, hS, rfl, ?_, PairPres_trans hpp₁ hpp⟩
        exact Or.inr ⟨hs₁rev, ht₁rev⟩
    · -- previous memo: output-level early cutoff
      dsimp only at hok ⊢
      by_cases hveq : m.value = v
      · rw [if_pos hveq] at hok ⊢
        simp only [logEvent_active_queries, logEvent_revision] at hok ⊢
        rcases hact_t : t₁.active_queries with _ | ⟨topt, restt⟩
        · rw [hact_t] at hok
          simp at hok
        · rw [hact_t] at hok
          rw [hact_s]
          dsimp only at hok ⊢
          injection hok with hok1 hok2
          subst hok1
          injection hok2 with hok2
          subst hok2
          obtain ⟨hS, hpp⟩ := SimRel_lockstep_store hR₁ q hqdep₁ hnotin₁ v
            m.changed_at m.changed_at (Or.inl ⟨rfl, hmc m rfl⟩) tops topt
            ((logEvent s₁ (.valueComparison m.value v
                s₁.revision)).store_memo q
              ⟨v, s₁.revision, m.changed_at, tops⟩)
            ((logEvent t₁ (.valueComparison m.value v
                t₁.revision)).store_memo q
              ⟨v, t₁.revision, m.changed_at, topt⟩)
            (by simp) (by simp) (by simp) (by simp [hs₁rev])
            (by simp) (by simp) (by simp) (by simp [ht₁rev])
          exact ⟨_, _, rfl, hS, rfl, Or.inl rfl, PairPres_trans hpp₁ hpp⟩
      · rw [if_neg hveq] at hok ⊢
        simp only [logEvent_active_queries, logEvent_revision] at hok ⊢
        rcases hact_t : t₁.active_queries with _ | ⟨topt, restt⟩
        · rw [hact_t] at hok
          simp at hok
        · rw [hact_t] at hok
          rw [hact_s]
          dsimp only at hok ⊢
          injection hok with hok1 hok2
          subst hok1
          injection hok2 with hok2
          subst hok2
          obtain ⟨hS, hpp⟩ := SimRel_lockstep_store hR₁ q hqdep₁ hnotin₁ v r
            (r + 1) (Or.inr ⟨rfl, rfl⟩) tops topt
            ((logEvent s₁ (.valueComparison m.value v
                s₁.revision)).store_memo q
              ⟨v, s₁.revision, s₁.revision, tops⟩)
            ((logEvent t₁ (.valueComparison m.value v
                t₁.revision)).store_memo q
              ⟨v, t₁.revision, t₁.revision, topt⟩)
            (by simp) (by simp) (by simp) (by simp [hs₁rev])
            (by simp) (by simp) (by simp) (by simp [ht₁rev])
          refine ⟨_, _, rfl, hS, rfl, ?_, PairPres_trans hpp₁ hpp⟩
          exact Or.inr ⟨hs₁rev, ht₁rev⟩
  | panic => simp at hok
  | timeout => simp at hok

/-- The lockstep `read`: whenever the `t`-side `read` succeeds, the `s`-side
`read` succeeds with the same value. -/
theorem read_sim (r : Nat) (slot₀ : Slot) (ρ : List Slot → List Slot)
    (hρsub : ∀ (l : List Slot) (x : Slot), x ∈ ρ l → x ∈ l)
    (gs gt : GetFn)
    (HA : LockstepGet r slot₀ gs gt) (HB : FreshGet r slot₀ gt)
    (HI : InputGet gs) (hggs : GoodGet gs) (hggt : GoodGet gt)
    (s t : Database) (q : Slot) (hR : SimRel r slot₀ s t)
    (hsact : s.active_queries ≠ [])
    (t2 : Database) (res' : StampedValue)
    (hok : read ρ gt t q = (t2, .ok res')) :
    ∃ s2 res, read ρ gs s q = (s2, .ok res) ∧ SimRel r slot₀ s2 t2 ∧
      res.value = res'.value ∧
      (res'.changed_at = res.changed_at ∨
        (res.changed_at = r ∧ res'.changed_at = r + 1)) ∧
      PairPres r s t s2 t2 := by
  by_cases hin : q.id ∈ s.input_ids
  · -- input slot on both sides
    unfold read at hok ⊢
    simp only [read_memo_eq] at hok ⊢
    simp only [Database.is_input_query, logEvent_input_ids, hR.ids, hin,
      decide_eq_true_eq, iff_true, iff_false, if_true, if_false, ite_true,
      ite_false, eq_self_iff_true, not_true, not_false_iff] at hok ⊢
    cases htq : lookupMemo t.storage q with
    | none =>
      rw [htq] at hok
      simp at hok
    | some m' =>
      rw [htq] at hok
      dsimp only at hok
      have hsome : ¬ (lookupMemo s.storage q = none) := fun hns => by
        rw [(hR.dom q).mp hns] at htq
        cases htq
      rcases hsq : lookupMemo s.storage q with _ | m
      · exact absurd hsq hsome
      dsimp only
      rcases hR.rel q m m' hsq htq with rfl | hF0 | hF
      · -- untouched pair: `t` refreshes; `s` refreshes iff stale
        have hble := (hR.sinv q m' hsq).2
        rw [if_pos (show m'.verified_at ≠
            (logEvent (logEvent t (.readMemo (some m')))
              .memoForInputQuery).revision by
          simp only [logEvent_revision]
          rw [hR.trev]
          omega)] at hok
        injection hok with hok1 hok2
        subst hok1
        injection hok2 with hok2
        subst hok2
        by_cases hmf : m'.verified_at = r
        · rw [if_neg (show ¬ (m'.verified_at ≠
              (logEvent (logEvent s (.readMemo (some m')))
                .memoForInputQuery).revision) by
            simp only [logEvent_revision, ne_eq, not_not]
            rw [hR.srev]
            exact hmf)]
          obtain ⟨hS, hpres, hpp⟩ := SimRel_t_refresh hR q m' hsq hmf
            ((logEvent (logEvent t (.readMemo (some m')))
                .memoForInputQuery).store_memo q
              { m' with verified_at :=
                  (logEvent (logEvent t (.readMemo (some m')))
                    .memoForInputQuery).revision })
            (by simp) (by simp) (by simp) (by simp [hR.trev])
          exact ⟨_, _, rfl,
            SimRel_transport hS rfl rfl rfl rfl rfl rfl rfl rfl,
            rfl, Or.inl rfl, PairPres_congr hpp rfl rfl⟩
        · rw [if_pos (show m'.verified_at ≠
              (logEvent (logEvent s (.readMemo (some m')))
                .memoForInputQuery).revision by
            simp only [logEvent_revision, ne_eq]
            rw [hR.srev]
            exact hmf)]
          obtain ⟨hS, hpp⟩ := SimRel_lockstep_refresh hR q m'
            (by have := (hR.sinv q m' hsq).1; omega)
            (fun _ => hR.sI2 q m' hsq hin)
            ((logEvent (logEvent s (.readMemo (some m')))
                .memoForInputQuery).store_memo q
              { m' with verified_at :=
                  (logEvent (logEvent s (.readMemo (some m')))
                    .memoForInputQuery).revision })
            ((logEvent (logEvent t (.readMemo (some m')))
                .memoForInputQuery).store_memo q
              { m' with verified_at :=
                  (logEvent (logEvent t (.readMemo (some m')))
                    .memoForInputQuery).revision })
            (by simp) (by simp) (by simp) (by simp [hR.srev])
            (by simp) (by simp) (by simp) (by simp [hR.trev])
          exact ⟨_, _, rfl, hS, rfl, Or.inl rfl, hpp⟩
      · -- the re-set input slot itself: `t` is already verified
        obtain ⟨hD0, hval, hchg, hver', hdeps'⟩ := hF0
        rw [if_neg (show ¬ (m'.verified_at ≠
            (logEvent (logEvent t (.readMemo (some m')))
              .memoForInputQuery).revision) by
          simp only [logEvent_revision, ne_eq, not_not]
          rw [hver', hR.trev])] at hok
        injection hok with hok1 hok2
        subst hok1
        injection hok2 with hok2
        subst hok2
        by_cases hmf : m.verified_at = r
        · rw [if_neg (show ¬ (m.verified_at ≠
              (logEvent (logEvent s (.readMemo (some m)))
                .memoForInputQuery).revision) by
            simp only [logEvent_revision, ne_eq, not_not]
            rw [hR.srev]
            exact hmf)]
          exact ⟨_, _, rfl,
            SimRel_transport hR rfl rfl rfl rfl rfl rfl rfl rfl,
            hval.symm, Or.inl hchg,
            PairPres_congr (PairPres_refl r s t) rfl rfl⟩
        · rw [if_pos (show m.verified_at ≠
              (logEvent (logEvent s (.readMemo (some m)))
                .memoForInputQuery).revision by
            simp only [logEvent_revision, ne_eq]
            rw [hR.srev]
            exact hmf)]
          obtain ⟨hS, hpp⟩ := SimRel_s_refresh hR m
            (by rw [← hD0]; exact hsq) hmf
            ((logEvent (logEvent s (.readMemo (some m)))
                .memoForInputQuery).store_memo q
              { m with verified_at :=
                  (logEvent (logEvent s (.readMemo (some m)))
                    .memoForInputQuery).revision })
            (by simp) (by simp) (by simp) (by simp [hR.srev, hD0])
          exact ⟨_, _, rfl,
            SimRel_transport hS rfl rfl rfl rfl rfl rfl rfl rfl,
            hval.symm, Or.inl hchg, hpp⟩
      · -- both sides fresh at their own revision
        obtain ⟨hval, hverm, hver', hchg⟩ := hF
        rw [if_neg (show ¬ (m'.verified_at ≠
            (logEvent (logEvent t (.readMemo (some m')))
              .memoForInputQuery).revision) by
          simp only [logEvent_revision, ne_eq, not_not]
          rw [hver', hR.trev])] at hok
        injection hok with hok1 hok2
        subst hok1
        injection hok2 with hok2
        subst hok2
        rw [if_neg (show ¬ (m.verified_at ≠
            (logEvent (logEvent s (.readMemo (some m)))
              .memoForInputQuery).revision) by
          simp only [logEvent_revision, ne_eq, not_not]
          rw [hR.srev]
          exact hverm)]
        exact ⟨_, _, rfl,
          SimRel_transport hR rfl rfl rfl rfl rfl rfl rfl rfl,
          hval.symm, hchg, PairPres_congr (PairPres_refl r s t) rfl rfl⟩
  · -- derived on both sides
    cases htq : lookupMemo t.storage q with
    | none =>
      have hsn : lookupMemo s.storage q = none := (hR.dom q).mpr htq
      unfold read at hok ⊢
      simp only [read_memo_eq] at hok ⊢
      simp only [Database.is_input_query, logEvent_input_ids, hR.ids, hin,
        decide_eq_true_eq, iff_true, iff_false, if_true, if_false, ite_true,
        ite_false, eq_self_iff_true, not_true, not_false_iff] at hok ⊢
      rw [htq] at hok
      rw [hsn]
      dsimp only at hok ⊢
      obtain ⟨s2, res, hrs, hS, hval, hchg, hpp⟩ := recompute_sim r slot₀ gs gt
        HA hggs hggt (logEvent s (.readMemo none)) (logEvent t (.readMemo none))
        q none (SimRel_transport hR rfl rfl rfl rfl rfl rfl rfl rfl)
        (fun m' hm' => by cases hm')
        hin
        hsact
        (fun p mp h1 h2 h3 hq => by
          obtain ⟨mD, m'D, hsd, -, -, -, -, -⟩ :=
            hR.vplus p mp h1 h2 h3 q hq
          rw [hsn] at hsd
          cases hsd)
        t2 res' hok
      exact ⟨s2, res, hrs, hS, hval, hchg, PairPres_base_congr hpp rfl rfl⟩
    | some m' =>
      have hsome : ¬ (lookupMemo s.storage q = none) := fun hns => by
        rw [(hR.dom q).mp hns] at htq
        cases htq
      rcases hsq : lookupMemo s.storage q with _ | m
      · exact absurd hsq hsome
      rcases hR.rel q m m' hsq htq with rfl | hF0 | hF
      · have hble := (hR.sinv q m' hsq).2
        by_cases hmf : m'.verified_at = r
        · -- untouched fresh pair: `s` takes the fast path, `t` fresh-walks
          obtain ⟨hS, hval', hchg', hpres, hpp⟩ := readF_sim r slot₀ ρ hρsub gt
            hggt HB s t q m' hR hsq htq hmf t2 res' hok
          unfold read
          simp only [read_memo_eq]
          simp only [Database.is_input_query, logEvent_input_ids, hin,
            decide_eq_true_eq, iff_true, iff_false, if_true, if_false,
            ite_true, ite_false, eq_self_iff_true, not_true,
            not_false_iff] at *
          rw [hsq]
          dsimp only
          rw [if_pos (show m'.verified_at =
              (logEvent s (.readMemo (some m'))).revision by
            simp only [logEvent_revision]
            rw [hR.srev]
            exact hmf)]
          exact ⟨_, _, rfl,
            SimRel_transport hS rfl rfl rfl rfl rfl rfl rfl rfl,
            hval'.symm, Or.inl hchg', PairPres_congr hpp rfl rfl⟩
        · -- untouched stale pair: lockstep walk
          unfold read at hok ⊢
          simp only [read_memo_eq] at hok ⊢
          simp only [Database.is_input_query, logEvent_input_ids, hR.ids, hin,
            decide_eq_true_eq, iff_true, iff_false, if_true, if_false,
            ite_true, ite_false, eq_self_iff_true, not_true,
            not_false_iff] at hok ⊢
          rw [htq] at hok
          rw [hsq]
          dsimp only at hok ⊢
          rw [if_neg (show ¬ (m'.verified_at =
              (logEvent t (.readMemo (some m'))).revision) by
            simp only [logEvent_revision]
            rw [hR.trev]
            omega)] at hok
          rw [if_neg (show ¬ (m'.verified_at =
              (logEvent s (.readMemo (some m'))).revision) by
            simp only [logEvent_revision]
            rw [hR.srev]
            exact hmf)]
          rcases hw : anyDepChangedSince gt
              (logEvent (logEvent t (.readMemo (some m')))
                (.startedInputChecks m'.verified_at))
              (ρ m'.dependencies) m'.verified_at with ⟨t₃, rb⟩
          rw [hw] at hok
          cases rb with
          | ok b =>
            have hrev : m'.verified_at < r := lt_of_le_of_ne hble hmf
            obtain ⟨s₃, hws, hS₃, hpp₃⟩ := anyDep_sim r slot₀ gs gt HA HB HI
              m'.verified_at hrev (ρ m'.dependencies)
              (logEvent (logEvent s (.readMemo (some m')))
                (.startedInputChecks m'.verified_at))
              (logEvent (logEvent t (.readMemo (some m')))
                (.startedInputChecks m'.verified_at))
              t₃ b
              (SimRel_transport hR rfl rfl rfl rfl rfl rfl rfl rfl) hw
            rw [hws]
            obtain ⟨⟨wc1s, wc2s, -⟩, -, wstacks⟩ :=
              anyDepChangedSince_good gs hggs (ρ m'.dependencies)
                m'.verified_at
                (logEvent (logEvent s (.readMemo (some m')))
                  (.startedInputChecks m'.verified_at))
            rw [hws] at wc1s wc2s wstacks
            dsimp only at wc1s wc2s wstacks
            simp only [logEvent_revision, logEvent_input_ids] at wc1s wc2s
            obtain ⟨⟨wc1t, -, -⟩, -, -⟩ :=
              anyDepChangedSince_good gt hggt (ρ m'.dependencies)
                m'.verified_at
                (logEvent (logEvent t (.readMemo (some m')))
                  (.startedInputChecks m'.verified_at))
            rw [hw] at wc1t
            dsimp only at wc1t
            simp only [logEvent_revision] at wc1t
            cases b with
            | false =>
              dsimp only at hok ⊢
              injection hok with hok1 hok2
              subst hok1
              injection hok2 with hok2
              subst hok2
              obtain ⟨hS, hpp⟩ := SimRel_lockstep_refresh hS₃ q m'
                (by have h1 := (hR.sinv q m' hsq).1; omega)
                (fun hcontra => absurd (wc2s ▸ hcontra) hin)
                ((logEvent s₃ (.completedInputChecks false)).store_memo q
                  { m' with verified_at :=
                      (logEvent s₃ (.completedInputChecks false)).revision })
                ((logEvent t₃ (.completedInputChecks false)).store_memo q
                  { m' with verified_at :=
                      (logEvent t₃ (.completedInputChecks false)).revision })
                (by simp) (by simp) (by simp) (by simp [wc1s, hR.srev])
                (by simp) (by simp) (by simp) (by simp [wc1t, hR.trev])
              exact ⟨_, _, rfl, hS, rfl, Or.inl rfl,
                PairPres_trans (PairPres_base_congr hpp₃ rfl rfl) hpp⟩
            | true =>
              dsimp only at hok ⊢
              obtain ⟨s4, res, hrs, hS, hval2, hchg2, hpp4⟩ :=
                recompute_sim r slot₀ gs gt HA hggs hggt
                  (logEvent s₃ (.completedInputChecks true))
                  (logEvent t₃ (.completedInputChecks true)) q (some m')
                  (SimRel_transport hS₃ rfl rfl rfl rfl rfl rfl rfl rfl)
                  (fun m₀ hm₀ => by
                    injection hm₀ with h'
                    rw [← h']
                    have := hR.sinv q m' hsq
                    omega)
                  (by
                    intro hc
                    simp only [logEvent_input_ids] at hc
                    rw [wc2s] at hc
                    exact hin hc)
                  (by
                    have htg := wstacks s₃ true rfl
                    simp only [logEvent_active_queries]
                    cases hact : s.active_queries with
                    | nil => exact absurd hact hsact
                    | cons a as =>
                      obtain ⟨tp, htp, -⟩ := htg.2 a as (by simp [hact])
                      rw [htp]
                      simp)
                  (fun p mp h1 h2 h3 hq => by
                    obtain ⟨h4, h5⟩ :=
                      PairPres_base_congr hpp₃ rfl rfl p mp h1 h2 h3
                    obtain ⟨mD, m'D, hsd, -, hvD, -, -, -⟩ :=
                      hR.vplus p mp h4 h5 h3 q hq
                    rw [hsq] at hsd
                    injection hsd with h6
                    rw [← h6] at hvD
                    exact hmf hvD)
                  t2 res' hok
              exact ⟨s4, res, hrs, hS, hval2, hchg2,
                PairPres_trans (PairPres_base_congr hpp₃ rfl rfl)
                  (PairPres_base_congr hpp4 rfl rfl)⟩
          | panic => simp at hok
          | timeout => simp at hok
      · -- the re-set input slot cannot be derived
        obtain ⟨hD0, -, -, -, -⟩ := hF0
        exact absurd (show q.id ∈ s.input_ids by rw [hD0]; exact hR.s0in) hin
      · -- both sides fresh at their own revision: both fast paths
        obtain ⟨hval, hverm, hver', hchg⟩ := hF
        unfold read at hok ⊢
        simp only [read_memo_eq] at hok ⊢
        simp only [Database.is_input_query, logEvent_input_ids, hR.ids, hin,
          decide_eq_true_eq, iff_true, iff_false, if_true, if_false,
          ite_true, ite_false, eq_self_iff_true, not_true,
          not_false_iff] at hok ⊢
        rw [htq] at hok
        rw [hsq]
        dsimp only at hok ⊢
        rw [if_pos (show m'.verified_at =
            (logEvent t (.readMemo (some m'))).revision by
          simp only [logEvent_revision]
          rw [hver', hR.trev])] at hok
        injection hok with hok1 hok2
        subst hok1
        injection hok2 with hok2
        subst hok2
        rw [if_pos (show m.verified_at =
            (logEvent s (.readMemo (some m))).revision by
          simp only [logEvent_revision]
          rw [hR.srev]
          exact hverm)]
        exact ⟨_, _, rfl,
          SimRel_transport hR rfl rfl rfl rfl rfl rfl rfl rfl,
          hval.symm, hchg, PairPres_congr (PairPres_refl r s t) rfl rfl⟩

/-- The simulation induction: at every fuel level, the `t`-side engine is
simulated in lockstep by the `s`-side engine with one more unit of fuel, and
`t`-side gets of `s`-fresh untouched slots are pure re-verifications. -/
theorem sim_main (r : Nat) (slot₀ : Slot) (ρ : List Slot → List Slot)
    (hρsub : ∀ (l : List Slot) (x : Slot), x ∈ ρ l → x ∈ l) :
    ∀ n, LockstepGet r slot₀ (get_with_timestamp ρ (n + 1))
        (get_with_timestamp ρ n) ∧
      FreshGet r slot₀ (get_with_timestamp ρ n) := by
  intro n
  induction n with
  | zero =>
    constructor
    · intro s t q t2 res' hR hok
      simp [get_with_timestamp] at hok
    · intro s t q m t2 res' hR hsq htq hfresh hok
      simp [get_with_timestamp] at hok
  | succ n ih =>
    obtain ⟨HA, HB⟩ := ih
    have HI := inputGet_gwt ρ n
    have hggs : GoodGet (get_with_timestamp ρ (n + 1)) :=
      get_with_timestamp_good ρ (n + 1)
    have hggt : GoodGet (get_with_timestamp ρ n) :=
      get_with_timestamp_good ρ n
    have hbody : ∀ (k : Nat) (d : Database) (sl : Slot),
        get_with_timestamp ρ (k + 1) d sl =
          match read ρ (get_with_timestamp ρ k)
              ((recordDependency (logEvent d (.get sl))
                sl).push_active_query) sl with
          | (db₅, .ok result) => ((db₅.pop_active_query).1, .ok result)
          | (db₅, .panic) => (db₅, .panic)
          | (db₅, .timeout) => (db₅, .timeout) := fun k d sl => rfl
    constructor
    · intro s t q t2 res' hR hok
      rw [hbody] at hok
      rw [hbody]
      rcases hrt : read ρ (get_with_timestamp ρ n)
          ((recordDependency (logEvent t (.get q)) q).push_active_query) q
          with ⟨t₅, rr⟩
      rw [hrt] at hok
      cases rr with
      | ok resT =>
        obtain ⟨s₅, res, hrs, hS₅, hval, hchg, hpp⟩ := read_sim r slot₀ ρ
          hρsub (get_with_timestamp ρ (n + 1)) (get_with_timestamp ρ n)
          HA HB HI hggs hggt
          ((recordDependency (logEvent s (.get q)) q).push_active_query)
          ((recordDependency (logEvent t (.get q)) q).push_active_query)
          q
          (SimRel_transport hR (by simp) (by simp) (by simp) (by simp)
            (by simp) (by simp) (by simp) (by simp))
          (by simp)
          t₅ resT hrt
        rw [hrs]
        dsimp only at hok ⊢
        injection hok with hok1 hok2
        subst hok1
        injection hok2 with hok2
        subst hok2
        exact ⟨(s₅.pop_active_query).1, res, rfl,
          SimRel_transport hS₅ (by simp) (by simp) (by simp) (by simp)
            (by simp) (by simp) (by simp) (by simp),
          hval, hchg,
          PairPres_base_congr (PairPres_congr hpp (by simp) (by simp))
            (by simp) (by simp)⟩
      | panic => simp at hok
      | timeout => simp at hok
    · intro s t q m t2 res' hR hsq htq hfresh hok
      rw [hbody] at hok
      rcases hrt : read ρ (get_with_timestamp ρ n)
          ((recordDependency (logEvent t (.get q)) q).push_active_query) q
          with ⟨t₅, rr⟩
      rw [hrt] at hok
      cases rr with
      | ok resT =>
        obtain ⟨hS₅, hval, hchg, hpres, hpp⟩ := readF_sim r slot₀ ρ hρsub
          (get_with_timestamp ρ n) hggt HB s
          ((recordDependency (logEvent t (.get q)) q).push_active_query) q m
          (SimRel_transport hR rfl rfl rfl rfl (by simp) (by simp) (by simp)
            (by simp))
          hsq (by simp [htq]) hfresh t₅ resT hrt
        dsimp only at hok
        injection hok with hok1 hok2
        subst hok1
        injection hok2 with hok2
        subst hok2
        refine ⟨SimRel_transport hS₅ rfl rfl rfl rfl (by simp) (by simp)
            (by simp) (by simp), hval, hchg, ?_, ?_⟩
        · intro E hE
          exact DepOK_transport (hpres E (DepOK_transport hE rfl (by simp)))
            rfl (by simp)
        · exact PairPres_base_congr (PairPres_congr hpp rfl (by simp)) rfl
            (by simp)
      | panic => simp at hok
      | timeout => simp at hok

/-- A value-preserving `set` establishes the simulation relation between the
base state and the set state. -/
theorem SimRel_of_noop_set (db : Database) (hInv : Inv db) (hV : Vinv db)
    (hI2 : I2inv db) (id : QueryId) (key : Key) (v : Value) (m₀ : Memo)
    (hm₀ : lookupMemo db.storage ⟨id, key⟩ = some m₀) (hv : m₀.value = v)
    (hin : id ∈ db.input_ids) :
    SimRel db.revision ⟨id, key⟩ db (db.set id key v).1 := by
  have hst : (db.set id key v).1.storage =
      insertMemo db.storage ⟨id, key⟩
        ⟨v, db.revision + 1, m₀.changed_at, []⟩ := by
    rw [set_fst_storage db id key v hin]
    simp [setMemo, hm₀, hv]
  have hlq : lookupMemo (db.set id key v).1.storage ⟨id, key⟩ =
      some ⟨v, db.revision + 1, m₀.changed_at, []⟩ := by
    rw [hst]
    exact lookupMemo_insertMemo_self _ _ _
  have hlook : ∀ p, p ≠ (⟨id, key⟩ : Slot) →
      lookupMemo (db.set id key v).1.storage p = lookupMemo db.storage p := by
    intro p hp
    rw [hst]
    exact lookupMemo_insertMemo_ne _ _ _ _ (fun he => hp he.symm)
  refine ⟨rfl, set_fst_revision db id key v hin, by simp, by simp, hin,
    ?_, ?_, ?_, ?_, ?_, ?_⟩
  · intro m' hm'
    rw [hlq] at hm'
    injection hm' with h'
    rw [← h']
  · intro p
    by_cases hp : p = (⟨id, key⟩ : Slot)
    · subst hp
      rw [hlq, hm₀]
      constructor
      · intro hc
        cases hc
      · intro hc
        cases hc
    · rw [hlook p hp]
  · intro p mm mm' hps hpt
    by_cases hp : p = (⟨id, key⟩ : Slot)
    · subst hp
      rw [hlq] at hpt
      rw [hm₀] at hps
      injection hps with h1
      injection hpt with h2
      rw [← h1, ← h2]
      exact Or.inr (Or.inl ⟨rfl, hv.symm, rfl, rfl, rfl⟩)
    · rw [hlook p hp] at hpt
      rw [hpt] at hps
      injection hps with h1
      rw [h1]
      exact Or.inl rfl
  · intro p mm hps
    exact hInv p mm hps
  · intro p mm hps hpid
    exact hI2 p mm hps hpid
  · intro p mm hps hpt hfresh D hD
    have hp : p ≠ (⟨id, key⟩ : Slot) := by
      intro he
      subst he
      rw [hlq] at hpt
      rw [hm₀] at hps
      injection hps with h1
      injection hpt with h2
      have := congrArg Memo.verified_at (h1.trans h2.symm)
      simp only at this
      have h3 := (hInv _ m₀ hm₀).2
      omega
    obtain ⟨mD, hsd, hvd⟩ := hV p mm hps hfresh D hD
    by_cases hDp : D = (⟨id, key⟩ : Slot)
    · subst hDp
      rw [hm₀] at hsd
      injection hsd with h4
      refine ⟨m₀, ⟨v, db.revision + 1, m₀.changed_at, []⟩, hm₀, hlq, ?_,
        hv.symm, rfl, Or.inr rfl⟩
      rw [h4]
      exact hvd
    · exact ⟨mD, mD, hsd, by rw [hlook D hDp]; exact hsd, hvd, rfl, rfl,
        Or.inl rfl⟩

set_option maxHeartbeats 800000 in
/-- **C4** (no-op `set` preserves derived results): in any database state
reachable by successful `set` and `get` operations whose dependency walks
enumerate the stored dependency sets, calling `set(id, key, v)` on an input
slot that has previously been set, with `v` equal to the slot's current
memoized value, increments the revision counter; and any `get(q)` that
succeeds in the new state returns the same value that a successful `get(q)`
returned immediately before the `set` (lib.rs lines 191, 194 for the `set`
cutoff, lines 295-318 and 362-379 for the verification walk). -/
theorem noop_set_preserves_derived_results
    (db : Database) (hdb : ReachableP db)
    (id : QueryId) (key : Key) (v : Value) (m₀ : Memo)
    (hm₀ : lookupMemo db.storage ⟨id, key⟩ = some m₀) (hv : m₀.value = v)
    (hin : id ∈ db.input_ids)
    (ρ : List Slot → List Slot)
    (hρ : ∀ (l : List Slot) (x : Slot), x ∈ ρ l ↔ x ∈ l)
    (q : Slot) (fuel₁ fuel₂ : Nat) (db₁ db₂ : Database)
    (sv₁ sv₂ : StampedValue)
    (hbefore : get_with_timestamp ρ fuel₁ db q = (db₁, .ok sv₁))
    (hafter : get_with_timestamp ρ fuel₂ (db.set id key v).1 q =
      (db₂, .ok sv₂)) :
    (db.set id key v).1.revision = db.revision + 1 ∧
      sv₂.value = sv₁.value := by
  refine ⟨set_fst_revision db id key v hin, ?_⟩
  have hInv := reachable_inv db (ReachableP.toReachable db hdb)
  obtain ⟨hV, hI2⟩ := reachableP_fresh_invariants db hdb
  have hR := SimRel_of_noop_set db hInv hV hI2 id key v m₀ hm₀ hv hin
  obtain ⟨HA, -⟩ := sim_main db.revision ⟨id, key⟩ ρ
    (fun l x hx => (hρ l x).mp hx) fuel₂
  obtain ⟨s₂, res, hgs, -, hval, -, -⟩ :=
    HA db (db.set id key v).1 q db₂ sv₂ hR hafter
  have h1 : get_with_timestamp ρ (max fuel₁ (fuel₂ + 1)) db q =
      (db₁, .ok sv₁) :=
    get_with_timestamp_fuel_le ρ (le_max_left _ _) db q db₁ (.ok sv₁)
      hbefore (by simp)
  have h2 : get_with_timestamp ρ (max fuel₁ (fuel₂ + 1)) db q =
      (s₂, .ok res) :=
    get_with_timestamp_fuel_le ρ (le_max_right _ _) db q s₂ (.ok res)
      hgs (by simp)
  rw [h1] at h2
  injection h2 with h3 h4
  injection h4 with h5
  rw [← hval, h5]

set_option maxHeartbeats 1600000 in
theorem noop_set_preserves_derived_results_witness :
    (((Database.new ["a"] []).set "a" .void 7).1.set "a" .void 7).1.revision =
      ((Database.new ["a"] []).set "a" .void 7).1.revision + 1 ∧
    (⟨7, 1⟩ : StampedValue).value = (⟨7, 1⟩ : StampedValue).value :=
  noop_set_preserves_derived_results
    ((Database.new ["a"] []).set "a" .void 7).1
    (ReachableP.set (Database.new ["a"] []) "a" .void 7 _
      (ReachableP.new ["a"] []) rfl)
    "a" .void 7 ⟨7, 1, 1, []⟩ rfl rfl (by decide)
    id (fun l x => Iff.rfl)
    ⟨"a", .void⟩ 1 1
    (get_with_timestamp id 1 ((Database.new ["a"] []).set "a" .void 7).1
      ⟨"a", .void⟩).1
    (get_with_timestamp id 1
      ((((Database.new ["a"] []).set "a" .void 7).1.set "a" .void 7).1)
      ⟨"a", .void⟩).1
    ⟨7, 1⟩ ⟨7, 1⟩ rfl rfl

end Dip
